import Mathlib

/-!
# gnark_lib: TLS 1.3 session-proof gadgets

A shallow embedding of the constraint-emission gadgets of the repository
(`aes128/gcm.go`, `utils/utils.go`, `tls13_record/gadget.go`,
`circuits/gadgets/lookup_aes128.go`, `circuits/gadgets/tls13_authtag.go`)
evaluated on a full assignment of the circuit variables.

A `frontend.Variable` under an assignment is an element of the BN254 scalar
field, represented by its canonical representative in `[0, p)` as a `Nat`.
Running the circuit-definition code on an assignment yields a `Circuit α`:
either a Go run-time panic (index or slice out of range) or the computed value
together with the conjunction of all assertions emitted on the way.
-/

namespace GnarkLib

/-! ## Field and circuit outcome -/

/-- Order of the BN254 scalar field (`ecc.BN254` in every `ProofWithBackend` call). -/
def fieldModulus : Nat :=
  21888242871839275222246405745257275088548364400416034343698204186575808495617

/-- Outcome of running circuit-definition code on an assignment: `none` is a Go
run-time panic, `some (a, ok)` is the returned value `a` and `ok` tells whether
every assertion emitted so far holds on the assignment. -/
def Circuit (α : Type) : Type := Option (α × Bool)

namespace Circuit

/-- A gadget that returns `a` and emits no constraint. -/
def ret {α : Type} (a : α) : Circuit α := some (a, true)

/-- Go run-time panic (index out of range, slice bounds out of range). -/
def goPanic {α : Type} : Circuit α := none

/-- Sequencing: the second gadget runs on the value of the first (also when an
assertion already failed) and the assertions of both are conjoined. -/
def andThen {α β : Type} (x : Circuit α) (f : α → Circuit β) : Circuit β :=
  match x with
  | none => none
  | some (a, ok) =>
    match f a with
    | none => none
    | some (b, ok2) => some (b, ok && ok2)

/-- An assertion handed to the constraint builder. -/
def assert (b : Bool) : Circuit Unit := some ((), b)

/-- The assignment satisfies every emitted constraint (and the code did not panic). -/
def satisfied {α : Type} : Circuit α → Bool
  | some (_, ok) => ok
  | none => false

/-- The circuit-definition code panics. -/
def panics {α : Type} : Circuit α → Bool
  | some _ => false
  | none => true

/-- The value returned by the gadget (`d` when the code panics). -/
def result {α : Type} (x : Circuit α) (d : α) : α :=
  match x with
  | some (a, _) => a
  | none => d

/-- A Go `for` loop over the elements of `l` whose body returns nothing. -/
def forEach {α : Type} (l : List α) (f : α → Circuit Unit) : Circuit Unit :=
  match l with
  | [] => ret ()
  | a :: rest => andThen (f a) (fun _ => forEach rest f)

/-- A Go `for` loop over the elements of `l` filling an output array in order. -/
def mapList {α β : Type} (l : List α) (f : α → Circuit β) : Circuit (List β) :=
  match l with
  | [] => ret []
  | a :: rest => andThen (f a) (fun b => andThen (mapList rest f) (fun bs => ret (b :: bs)))

end Circuit

instance : Monad Circuit where
  pure := Circuit.ret
  bind := Circuit.andThen

instance {α : Type} [DecidableEq α] : DecidableEq (Circuit α) :=
  inferInstanceAs (DecidableEq (Option (α × Bool)))

/-- Go index expression `s[i]`: panics when `i` is out of range. -/
def goIndex {α : Type} (s : List α) (i : Nat) : Circuit α :=
  match s[i]? with
  | some a => Circuit.ret a
  | none => Circuit.goPanic

/-- Go slice expression `s[lo:hi]` on a slice whose capacity equals its length
(every slice of the circuits is built by `make([]frontend.Variable, n)`):
panics unless `0 ≤ lo ≤ hi ≤ len(s)`. -/
def goSlice {α : Type} (s : List α) (lo hi : Int) : Circuit (List α) :=
  if 0 ≤ lo ∧ lo ≤ hi ∧ hi ≤ (s.length : Int) then
    Circuit.ret ((s.drop lo.toNat).take (hi.toNat - lo.toNat))
  else Circuit.goPanic

/-! ## The constraint builder (gnark `frontend.API`)

The builder is an external collaborator; its operations are given the meaning
the gnark documentation gives them, on canonical representatives. -/

namespace api

/-- Field addition `api.Add`. -/
def Add (a b : Nat) : Nat := (a + b) % fieldModulus

/-- Field subtraction `api.Sub`. -/
def Sub (a b : Nat) : Nat := (a + (fieldModulus - b % fieldModulus)) % fieldModulus

/-- Field multiplication `api.Mul`. -/
def Mul (a b : Nat) : Nat := (a * b) % fieldModulus

/-- A Go `int` constant as a field element (negative constants wrap to `p - |c|`). -/
def ofInt (c : Int) : Nat := (c % (fieldModulus : Int)).toNat

/-- Multiply-accumulate `api.MulAcc(a, b, c) = a + b * c` with an `int` constant `c`. -/
def MulAcc (a b : Nat) (c : Int) : Nat := (a + b * ofInt c) % fieldModulus

/-- Binary decomposition `api.ToBinary(v, n)` for `1 ≤ n` below the field bit length
(gnark refuses `n = 0`, which the sources never pass):
the `n` low bits of `v`, least significant first, constrained to be boolean and
to recompose to `v`; the constraint holds exactly when `v < 2^n`. -/
def ToBinary (v n : Nat) : Circuit (List Nat) :=
  some ((List.range n).map (fun i => v / 2 ^ i % 2), decide (v < 2 ^ n))

/-- Little-endian recomposition of a bit list (without reduction). -/
def packBits : List Nat → Nat
  | [] => 0
  | b :: rest => b + 2 * packBits rest

/-- Recomposition `api.FromBinary(bits...)`: little-endian sum of the bits, each
of which is constrained to be boolean. -/
def FromBinary (bits : List Nat) : Circuit Nat :=
  some (packBits bits % fieldModulus, bits.all (fun b => decide (b ≤ 1)))

/-- Boolean exclusive or `api.Xor(a, b) = a + b - 2ab`, both operands constrained
to be boolean. -/
def Xor (a b : Nat) : Circuit Nat :=
  some (Sub (Add a b) (Mul 2 (Mul a b)), decide (a ≤ 1) && decide (b ≤ 1))

/-- Equality assertion `api.AssertIsEqual(a, b)`. -/
def AssertIsEqual (a b : Nat) : Circuit Unit := Circuit.assert (decide (a = b))

/-- Range-checked inequality `api.AssertIsLessOrEqual(v, bound)`: `v ≤ bound` as
integers in `[0, p)`. -/
def AssertIsLessOrEqual (v bound : Nat) : Circuit Unit := Circuit.assert (decide (v ≤ bound))

end api

/-! ## utils/utils.go -/

/-- Go source `SubstringMatch(api, substring, totalString, from, to)`: one equality
assertion per index of `substring`; `from` and `to` are not used by the body. -/
def SubstringMatch (substring totalString : List Nat) (_from _to : Int) : Circuit Unit :=
  Circuit.forEach (List.range substring.length) (fun i => do
    let s ← goIndex substring i
    let t ← goIndex totalString i
    api.AssertIsEqual s t)

/-- Go expression `int(math.Pow(float64(10), float64(idx)))`: `math.Pow` is exact
for these arguments and the conversion is exact while `10^idx` fits an `int64`
(`idx ≤ 18`); beyond that the conversion is out of range, which Go leaves
implementation-dependent: the value taken here is the minimal `int64`, the
result on amd64. Only `idx ≤ 18` is used where a value is computed; see
`StringToInt.loopWith` for the loop with the conversion left open. -/
def pow10Int (idx : Nat) : Int := if idx ≤ 18 then (10 : Int) ^ idx else -(2 : Int) ^ 63

/-- Body of the loop of `StringToInt`, run over the bytes from back to front:
`rev` holds the bytes still to process (last byte of the string first), `idx`
is the loop's `idx` and `sum` the accumulator. -/
def StringToInt.loop : List Nat → Nat → Nat → Circuit Nat
  | [], _, sum => Circuit.ret sum
  | b :: rest, idx, sum => do
    let bits ← api.ToBinary b 8
    let v ← api.FromBinary bits
    let toInt := api.Sub v 48
    StringToInt.loop rest (idx + 1) (api.MulAcc sum toInt (pow10Int idx))

/-- Go source `StringToInt(api, valueString)`. -/
def StringToInt (valueString : List Nat) : Circuit Nat :=
  StringToInt.loop valueString.reverse 0 0

/-- Loop of `StringToInt` with the value of the Go expression
`int(math.Pow(float64(10), float64(idx)))` as the parameter `pow`; the loop of the
source is the instance `pow = pow10Int`. Go leaves the conversion of a float
that does not fit the integer type implementation-dependent, so what is to hold
whatever that conversion yields is stated for every `pow`. -/
def StringToInt.loopWith (pow : Nat → Int) : List Nat → Nat → Nat → Circuit Nat
  | [], _, sum => Circuit.ret sum
  | b :: rest, idx, sum => do
    let bits ← api.ToBinary b 8
    let v ← api.FromBinary bits
    let toInt := api.Sub v 48
    StringToInt.loopWith pow rest (idx + 1) (api.MulAcc sum toInt (pow idx))

/-- Go source `StringToInt(api, valueString)` with the value of
`int(math.Pow(float64(10), float64(idx)))` as the parameter `pow`. -/
def StringToIntWith (pow : Nat → Int) (valueString : List Nat) : Circuit Nat :=
  StringToInt.loopWith pow valueString.reverse 0 0

/-- Go source `GreaterThan(api, v1, v2)`: `api.AssertIsLessOrEqual(v2, v1)`. -/
def GreaterThan (v1 v2 : Nat) : Circuit Unit := api.AssertIsLessOrEqual v2 v1

/-- Go source `VariableXor(api, a, b, size)`: bitwise XOR of two `size`-bit values. -/
def VariableXor (a b : Nat) (size : Nat) : Circuit Nat := do
  let bitsA ← api.ToBinary a size
  let bitsB ← api.ToBinary b size
  let x ← Circuit.mapList (List.range size) (fun i => do
    let ba ← goIndex bitsA i
    let bb ← goIndex bitsB i
    api.Xor ba bb)
  api.FromBinary x

/-! ## aes128/gcm.go -/

namespace AES128

/-- Modelled from the spec: the method `variableXor` of the `aes128` package is not
among the sources; by §4.1 it is the bit-wise XOR of two values of the given
width, one builder call per bit, as the exported `utils.VariableXor`. -/
def variableXor (a b : Nat) (size : Nat) : Circuit Nat := VariableXor a b size

/-- Go source `(aes *AES128) GetIV(nonce, ctr)`: the nonce followed by the four
bytes recomposed from the 32-bit decomposition of `ctr`, bit groups taken from
back to front. The array type `[12]frontend.Variable` fixes `nonce` to 12 entries. -/
def GetIV (nonce : List Nat) (ctr : Nat) : Circuit (List Nat) := do
  let bits ← api.ToBinary ctr 32
  let tail ← Circuit.mapList [3, 2, 1, 0] (fun (j : Nat) => do
    let start := 8 * j
    let chunk ← goSlice bits (start : Nat) ((start + 8 : Nat))
    api.FromBinary chunk)
  pure (nonce ++ tail)

/-- Go source `(aes *AES128) Xor16(a, b)`. -/
def Xor16 (a b : List Nat) : Circuit (List Nat) :=
  Circuit.mapList (List.range 16) (fun i => do
    let x ← goIndex a i
    let y ← goIndex b i
    variableXor x y 8)

/-- Go source `(aes *AES128) GCM(key, iv, chunkIndex, plaintext, ciphertext)`.
The block cipher `aes.Encrypt` of the package is not among the sources and is
taken as the parameter `Encrypt`. -/
def GCM (Encrypt : List Nat → List Nat → Circuit (List Nat)) (key iv : List Nat)
    (chunkIndex : Nat) (plaintext ciphertext : List Nat) : Circuit Unit :=
  let inputSize := plaintext.length
  let numberBlocks := inputSize / 16
  Circuit.forEach (List.range numberBlocks) (fun epoch => do
    let idx := api.Add chunkIndex epoch
    let eIndex := epoch * 16
    let ptBlock ← Circuit.mapList (List.range 16) (fun j => goIndex plaintext (eIndex + j))
    let ctBlock ← Circuit.mapList (List.range 16) (fun j => goIndex ciphertext (eIndex + j))
    let ivCounter ← GetIV iv idx
    let intermediate ← Encrypt key ivCounter
    let ct ← Xor16 intermediate ptBlock
    Circuit.forEach (List.range 16) (fun i => do
      let c ← goIndex ctBlock i
      let x ← goIndex ct i
      api.AssertIsEqual c x))

end AES128

/-! ## circuits/gadgets/lookup_aes128.go -/

namespace gadgets

/-- Go source `GetIV(api, nonce, ctr)`, the free function of package `gadgets`. -/
def GetIV (nonce : List Nat) (ctr : Nat) : Circuit (List Nat) := do
  let bits ← api.ToBinary ctr 32
  let tail ← Circuit.mapList [3, 2, 1, 0] (fun (j : Nat) => do
    let start := 8 * j
    let chunk ← goSlice bits (start : Nat) ((start + 8 : Nat))
    api.FromBinary chunk)
  pure (nonce ++ tail)

end gadgets

/-! ## tls13_record/gadget.go -/

/-- Go type `Tls13Record` (without the builder handle). -/
structure Tls13Record where
  Key : List Nat
  PlainChunks : List Nat
  Iv : List Nat
  CipherChunks : List Nat
  ChunkIndex : Nat
  Substring : List Nat
  SubstringStart : Int
  SubstringEnd : Int
  ValueStart : Int
  ValueEnd : Int
  Threshold : Nat

namespace Tls13Record

/-- Go source `(circuit *Tls13Record) Assert()`; `api.Println` emits nothing. -/
def Assert (Encrypt : List Nat → List Nat → Circuit (List Nat)) (circuit : Tls13Record) :
    Circuit Unit := do
  AES128.GCM Encrypt circuit.Key circuit.Iv circuit.ChunkIndex circuit.PlainChunks
    circuit.CipherChunks
  let extractedSubstring ← goSlice circuit.PlainChunks circuit.SubstringStart circuit.SubstringEnd
  SubstringMatch circuit.Substring extractedSubstring 0 circuit.Substring.length
  let valueString ← goSlice circuit.PlainChunks circuit.ValueStart circuit.ValueEnd
  let valueInteger ← StringToInt valueString
  GreaterThan valueInteger circuit.Threshold

/-- Go source `(circuit *Tls13Record) SetParams(key, iv, plainChunks, cipherChunks,
substring, chunkIndex, threshold, substringStart, substringEnd, valueStart, valueEnd)`. -/
def SetParams (key iv plainChunks cipherChunks substring : List Nat)
    (chunkIndex threshold : Nat) (substringStart substringEnd valueStart valueEnd : Int) :
    Tls13Record :=
  { Key := key, PlainChunks := plainChunks, Iv := iv, CipherChunks := cipherChunks,
    ChunkIndex := chunkIndex, Substring := substring, Threshold := threshold,
    SubstringStart := substringStart, SubstringEnd := substringEnd,
    ValueStart := valueStart, ValueEnd := valueEnd }

/-- Part (2) of the record statement: slice extraction followed by `SubstringMatch`. -/
def substringPart (circuit : Tls13Record) : Circuit Unit := do
  let extractedSubstring ← goSlice circuit.PlainChunks circuit.SubstringStart circuit.SubstringEnd
  SubstringMatch circuit.Substring extractedSubstring 0 circuit.Substring.length

/-- Part (3) of the record statement: slice extraction, `StringToInt`, `GreaterThan`. -/
def thresholdPart (circuit : Tls13Record) : Circuit Unit := do
  let valueString ← goSlice circuit.PlainChunks circuit.ValueStart circuit.ValueEnd
  let valueInteger ← StringToInt valueString
  GreaterThan valueInteger circuit.Threshold

end Tls13Record

/-- Go type `RecordWrapper` of package `evaluation`. -/
structure RecordWrapper where
  Key : List Nat
  PlainChunks : List Nat
  Iv : List Nat
  CipherChunks : List Nat
  ChunkIndex : Nat
  Substring : List Nat
  SubstringStart : Int
  SubstringEnd : Int
  ValueStart : Int
  ValueEnd : Int
  Threshold : Nat

/-- Go source `(circuit *RecordWrapper) Define(api)` of package `evaluation`. -/
def RecordWrapper.Define (Encrypt : List Nat → List Nat → Circuit (List Nat))
    (circuit : RecordWrapper) : Circuit Unit :=
  Tls13Record.Assert Encrypt
    (Tls13Record.SetParams circuit.Key circuit.Iv circuit.PlainChunks circuit.CipherChunks
      circuit.Substring circuit.ChunkIndex circuit.Threshold circuit.SubstringStart
      circuit.SubstringEnd circuit.ValueStart circuit.ValueEnd)

/-! ## circuits/gadgets/tls13_authtag.go -/

/-- Go type `Tls13AuthTag` (without the builder handle). -/
structure Tls13AuthTag where
  Key : List Nat
  IvCounter : List Nat
  Zeros : List Nat
  ECB1 : List Nat
  ECB0 : List Nat

namespace Tls13AuthTag

/-- Go source `(circuit *Tls13AuthTag) SetParams(key, ivCounter, zeros, ecb1, ecb0)`. -/
def SetParams (key ivCounter zeros ecb1 ecb0 : List Nat) : Tls13AuthTag :=
  { Key := key, IvCounter := ivCounter, Zeros := zeros, ECB1 := ecb1, ECB0 := ecb0 }

/-- Go source `(circuit *Tls13AuthTag) Assert()`. The block cipher
`LookUpAES128.Encrypt` is taken as the parameter `Encrypt`. -/
def Assert (Encrypt : List Nat → List Nat → Circuit (List Nat)) (circuit : Tls13AuthTag) :
    Circuit Unit := do
  let ecb0 ← Encrypt circuit.Key circuit.Zeros
  Circuit.forEach (List.range circuit.ECB0.length) (fun i => do
    let a ← goIndex circuit.ECB0 i
    let b ← goIndex ecb0 i
    api.AssertIsEqual a b)
  let ecb1 ← Encrypt circuit.Key circuit.IvCounter
  Circuit.forEach (List.range circuit.ECB1.length) (fun i => do
    let a ← goIndex circuit.ECB1 i
    let b ← goIndex ecb1 i
    api.AssertIsEqual a b)

end Tls13AuthTag

namespace gadgets

/-- Go type `AuthTagWrapper` of package `gadgets`. -/
structure AuthTagWrapper where
  Key : List Nat
  IvCounter : List Nat
  Zeros : List Nat
  ECB1 : List Nat
  ECB0 : List Nat

/-- Go source `(circuit *AuthTagWrapper) Define(api)` of package `gadgets`. -/
def AuthTagWrapper.Define (Encrypt : List Nat → List Nat → Circuit (List Nat))
    (circuit : AuthTagWrapper) : Circuit Unit :=
  Tls13AuthTag.Assert Encrypt
    (Tls13AuthTag.SetParams circuit.Key circuit.IvCounter circuit.Zeros circuit.ECB1 circuit.ECB0)

end gadgets

/-! ## AES-128 block encryption of the `aes128` package -/

namespace AES128

/-- The AES substitution table (FIPS-197, figure 7). -/
def sbox : List Nat :=
  [0x63, 0x7c, 0x77, 0x7b, 0xf2, 0x6b, 0x6f, 0xc5, 0x30, 0x01, 0x67, 0x2b, 0xfe, 0xd7, 0xab, 0x76,
   0xca, 0x82, 0xc9, 0x7d, 0xfa, 0x59, 0x47, 0xf0, 0xad, 0xd4, 0xa2, 0xaf, 0x9c, 0xa4, 0x72, 0xc0,
   0xb7, 0xfd, 0x93, 0x26, 0x36, 0x3f, 0xf7, 0xcc, 0x34, 0xa5, 0xe5, 0xf1, 0x71, 0xd8, 0x31, 0x15,
   0x04, 0xc7, 0x23, 0xc3, 0x18, 0x96, 0x05, 0x9a, 0x07, 0x12, 0x80, 0xe2, 0xeb, 0x27, 0xb2, 0x75,
   0x09, 0x83, 0x2c, 0x1a, 0x1b, 0x6e, 0x5a, 0xa0, 0x52, 0x3b, 0xd6, 0xb3, 0x29, 0xe3, 0x2f, 0x84,
   0x53, 0xd1, 0x00, 0xed, 0x20, 0xfc, 0xb1, 0x5b, 0x6a, 0xcb, 0xbe, 0x39, 0x4a, 0x4c, 0x58, 0xcf,
   0xd0, 0xef, 0xaa, 0xfb, 0x43, 0x4d, 0x33, 0x85, 0x45, 0xf9, 0x02, 0x7f, 0x50, 0x3c, 0x9f, 0xa8,
   0x51, 0xa3, 0x40, 0x8f, 0x92, 0x9d, 0x38, 0xf5, 0xbc, 0xb6, 0xda, 0x21, 0x10, 0xff, 0xf3, 0xd2,
   0xcd, 0x0c, 0x13, 0xec, 0x5f, 0x97, 0x44, 0x17, 0xc4, 0xa7, 0x7e, 0x3d, 0x64, 0x5d, 0x19, 0x73,
   0x60, 0x81, 0x4f, 0xdc, 0x22, 0x2a, 0x90, 0x88, 0x46, 0xee, 0xb8, 0x14, 0xde, 0x5e, 0x0b, 0xdb,
   0xe0, 0x32, 0x3a, 0x0a, 0x49, 0x06, 0x24, 0x5c, 0xc2, 0xd3, 0xac, 0x62, 0x91, 0x95, 0xe4, 0x79,
   0xe7, 0xc8, 0x37, 0x6d, 0x8d, 0xd5, 0x4e, 0xa9, 0x6c, 0x56, 0xf4, 0xea, 0x65, 0x7a, 0xae, 0x08,
   0xba, 0x78, 0x25, 0x2e, 0x1c, 0xa6, 0xb4, 0xc6, 0xe8, 0xdd, 0x74, 0x1f, 0x4b, 0xbd, 0x8b, 0x8a,
   0x70, 0x3e, 0xb5, 0x66, 0x48, 0x03, 0xf6, 0x0e, 0x61, 0x35, 0x57, 0xb9, 0x86, 0xc1, 0x1d, 0x9e,
   0xe1, 0xf8, 0x98, 0x11, 0x69, 0xd9, 0x8e, 0x94, 0x9b, 0x1e, 0x87, 0xe9, 0xce, 0x55, 0x28, 0xdf,
   0x8c, 0xa1, 0x89, 0x0d, 0xbf, 0xe6, 0x42, 0x68, 0x41, 0x99, 0x2d, 0x0f, 0xb0, 0x54, 0xbb, 0x16]

/-- S-box substitution of one byte. -/
def subByte (b : Nat) : Nat := sbox.getD b 0

/-- Round constants of the key schedule. -/
def rcon : List Nat := [0x01, 0x02, 0x04, 0x08, 0x10, 0x20, 0x40, 0x80, 0x1b, 0x36]

/-- Multiplication by 2 in the AES finite field. -/
def xtime (b : Nat) : Nat := if b < 128 then 2 * b else (2 * b - 256) ^^^ 0x1b

/-- Key schedule: appends `n` further 4-byte words to the expanded key `xk`. -/
def expandWords : Nat → List Nat → List Nat
  | 0, xk => xk
  | n + 1, xk =>
    let i := xk.length
    let t0 := xk.getD (i - 4) 0
    let t1 := xk.getD (i - 3) 0
    let t2 := xk.getD (i - 2) 0
    let t3 := xk.getD (i - 1) 0
    let w :=
      if i % 16 = 0 then
        [subByte t1 ^^^ rcon.getD (i / 16 - 1) 0, subByte t2, subByte t3, subByte t0]
      else [t0, t1, t2, t3]
    expandWords n (xk ++ List.zipWith (fun a b => a ^^^ b) ((xk.drop (i - 16)).take 4) w)

/-- The 176-byte expanded key (11 round keys) of a 16-byte key. -/
def expandKey (key : List Nat) : List Nat := expandWords 40 (key.take 16)

/-- Round step ShiftRows on the column-major 16-byte state. -/
def shiftRows (s : List Nat) : List Nat :=
  [0, 5, 10, 15, 4, 9, 14, 3, 8, 13, 2, 7, 12, 1, 6, 11].map (fun i => s.getD i 0)

/-- Round step MixColumns on one column. -/
def mixColumn (a0 a1 a2 a3 : Nat) : List Nat :=
  [xtime a0 ^^^ (xtime a1 ^^^ a1) ^^^ a2 ^^^ a3,
   a0 ^^^ xtime a1 ^^^ (xtime a2 ^^^ a2) ^^^ a3,
   a0 ^^^ a1 ^^^ xtime a2 ^^^ (xtime a3 ^^^ a3),
   (xtime a0 ^^^ a0) ^^^ a1 ^^^ a2 ^^^ xtime a3]

/-- Round step MixColumns on the column-major 16-byte state. -/
def mixColumns (s : List Nat) : List Nat :=
  [0, 4, 8, 12].flatMap (fun c =>
    mixColumn (s.getD c 0) (s.getD (c + 1) 0) (s.getD (c + 2) 0) (s.getD (c + 3) 0))

/-- Round step AddRoundKey with round key number `r` of the expanded key. -/
def addRoundKey (xk : List Nat) (r : Nat) (s : List Nat) : List Nat :=
  List.zipWith (fun a b => a ^^^ b) s ((xk.drop (16 * r)).take 16)

/-- The full rounds `r, r + 1, ..., r + n - 1`. -/
def fullRounds (xk : List Nat) : Nat → Nat → List Nat → List Nat
  | 0, _, s => s
  | n + 1, r, s =>
    fullRounds xk n (r + 1) (addRoundKey xk r (mixColumns (shiftRows (s.map subByte))))

/-- AES-128 encryption of one block on byte values. -/
def encryptBlock (key pt : List Nat) : List Nat :=
  let xk := expandKey key
  let s := fullRounds xk 9 1 (addRoundKey xk 0 (pt.take 16))
  addRoundKey xk 10 (shiftRows (s.map subByte))

/-- Modelled from the spec: the method `Encrypt` of the `aes128` package is not
among the sources. By §4.2 it is AES-128 block encryption (key schedule of 11
round keys, initial round-key XOR, nine full rounds, final round without
mix-columns) and by §3 every key and block entry is decomposed into 8 boolean
bits, so its own constraints hold exactly when all inputs are bytes. -/
def Encrypt (key pt : List Nat) : Circuit (List Nat) :=
  some (encryptBlock key pt, (key ++ pt).all (fun b => decide (b < 256)))

end AES128

/-! ## evaluation/constraints.go: the record scenario -/

namespace EvaluateRecord

/-- Scenario constant `key`. -/
def key : List Nat := [0x28, 0x72, 0x65, 0x85, 0x73, 0xf9, 0x5e, 0x87, 0x55, 0x0c, 0xb2, 0x63, 0x74, 0xe5, 0xf6, 0x67]

/-- Scenario constant `iv`. -/
def iv : List Nat := [0xa5, 0x46, 0x13, 0xbf, 0x28, 0x01, 0xa8, 0x4c, 0xe6, 0x93, 0xd0, 0xa0]

/-- Scenario constant `chipherChunks`. -/
def chipherChunks : List Nat :=
  [0x41, 0x9a, 0x03, 0x17, 0x54, 0xa4, 0x89, 0x78, 0x06, 0x53, 0x3c, 0x60, 0x20, 0xe9, 0x13, 0x0f, 0x60, 0x88, 0x74, 0x7b, 0x9f, 0x9a, 0x1e, 0x1e, 0xba, 0x4c, 0xb0, 0x51, 0x8a, 0x6d, 0x56, 0x92]

/-- Scenario constant `plainChunks`. -/
def plainChunks : List Nat :=
  [0x30, 0x2c, 0x35, 0x36, 0x31, 0x20, 0x45, 0x75, 0x72, 0x6f, 0x22, 0x7d, 0x2c, 0x22, 0x70, 0x72, 0x69, 0x63, 0x65, 0x22, 0x3a, 0x22, 0x33, 0x38, 0x30, 0x30, 0x32, 0x2e, 0x32, 0x22, 0x2c, 0x22]

/-- Scenario constant `substring`, the bytes of the Go string `"\"price\""`. -/
def substring : List Nat := [0x22, 0x70, 0x72, 0x69, 0x63, 0x65, 0x22]

/-- The assignment built by `EvaluateRecord`, with the threshold left open
(the harness uses 38003). -/
def assignment (threshold : Nat) : Tls13Record :=
  { Key := key, PlainChunks := plainChunks, Iv := iv, CipherChunks := chipherChunks,
    ChunkIndex := 32, Substring := substring, SubstringStart := 13, SubstringEnd := 20,
    ValueStart := 23, ValueEnd := 28, Threshold := threshold }

end EvaluateRecord

/-! ## evaluation/constraints.go: the authentication-tag scenario -/

namespace EvaluateAuthTag

/-- Scenario constant `ivCounter`: the hex string of `iv` followed by seven `"0"`
characters and one `"1"`. -/
def ivCounter : List Nat := EvaluateRecord.iv ++ [0x00, 0x00, 0x00, 0x01]

/-- Scenario constant `zeros`. -/
def zeros : List Nat := List.replicate 16 0

/-- Scenario constant `ecb0`. -/
def ecb0 : List Nat :=
  [0xa5, 0xcd, 0x49, 0xb7, 0xc2, 0x9a, 0xd2, 0x1f, 0xed, 0xbc, 0xed, 0xc0, 0x1e, 0x0f, 0x13, 0xe8]

/-- Scenario constant `ecbk`. -/
def ecbk : List Nat :=
  [0x1c, 0x9c, 0x7c, 0x26, 0x0c, 0x39, 0xbc, 0xb8, 0xdc, 0xfa, 0x5f, 0xbc, 0x93, 0x30, 0xb9, 0xfa]

end EvaluateAuthTag

/-! ## Reference values used in the statements -/

/-- Value denoted by decimal digit bytes, first byte most significant:
the sum over `i` of `(b_i - 48) * 10^(n-1-i)`. -/
def decimalValue (bs : List Nat) : Nat :=
  Finset.sum (Finset.range bs.length) (fun i => (bs.getD i 0 - 48) * 10 ^ (bs.length - 1 - i))

/-- Value of decimal digit bytes given last byte first (least significant first). -/
def revValue : List Nat → Nat
  | [] => 0
  | b :: rest => (b - 48) + 10 * revValue rest

/-- Big-endian 32-bit encoding of a counter. -/
def be32 (c : Nat) : List Nat :=
  [(c >>> 24) &&& 0xff, (c >>> 16) &&& 0xff, (c >>> 8) &&& 0xff, c &&& 0xff]

/-- Every entry is a byte. -/
def IsBytes (l : List Nat) : Prop := ∀ x ∈ l, x < 256

instance : DecidablePred IsBytes :=
  fun l => inferInstanceAs (Decidable (∀ x ∈ l, x < 256))

/-- The ciphertext of the counter mode: byte `k` is byte `k mod 16` of keystream
block `k / 16` XOR plaintext byte `k`. -/
def ctrCiphertext (ks : Nat → List Nat) (pt : List Nat) : List Nat :=
  (List.range pt.length).map (fun k => (ks (k / 16)).getD (k % 16) 0 ^^^ pt.getD k 0)

/-- Keystream block number `i` of the counter mode: `Encrypt(key, GetIV(nonce, c + i))`. -/
def keystreamBlock (Encrypt : List Nat → List Nat → Circuit (List Nat)) (key nonce : List Nat)
    (c i : Nat) : List Nat :=
  (Encrypt key ((AES128.GetIV nonce (c + i)).result [])).result []

/-! ## utils/utils.go: opad helpers and padding -/

/-- Go source `OpadConcat(api, inp1, inp2)`: `inp1` zero-padded to 64 entries, each
XORed with `0x5c`, followed by `inp2`. The array types fix both inputs to 32 entries. -/
def OpadConcat (inp1 inp2 : List Nat) : Circuit (List Nat) := do
  let head ← Circuit.mapList (List.range 32) (fun i => goIndex inp1 i)
  let paddedKey := head ++ List.replicate 32 0
  let dHSopad ← Circuit.mapList (List.range 64) (fun i => do
    let p ← goIndex paddedKey i
    VariableXor p 0x5c 8)
  let tail ← Circuit.mapList (List.range 32) (fun k => goIndex inp2 k)
  pure (dHSopad ++ tail)

/-- Go source `ZeroPadOpad(api, inp)`. -/
def ZeroPadOpad (inp : List Nat) : Circuit (List Nat) := do
  let head ← Circuit.mapList (List.range 32) (fun i => goIndex inp i)
  let padOpadKey := head ++ List.replicate 32 0
  Circuit.mapList (List.range 64) (fun i => do
    let p ← goIndex padOpadKey i
    VariableXor p 0x5c 8)

/-- Big-endian 64-bit encoding (`binary.BigEndian.PutUint64`). -/
def be64 (v : Nat) : List Nat :=
  [7, 6, 5, 4, 3, 2, 1, 0].map (fun (j : Nat) => (v >>> (8 * j)) &&& 0xff)

/-- Number of bytes before the length field in the padding of a message of `len` bytes. -/
def padZeroLen (len : Nat) : Nat :=
  if len % 64 < 56 then 56 - len % 64 else 64 + 56 - len % 64

/-- The first `t` bytes of the padding buffer `tmp` (`0x80`, then zeros), followed
by the length field `bits` in big-endian. -/
def padWith (len bits : Nat) : List Nat :=
  (((List.replicate 72 0).set 0 0x80).take (padZeroLen len)) ++ be64 bits

/-- Go source `PadSha256(len uint64)`: the shift `len <<= 3` wraps at 64 bits. -/
def PadSha256 (len : Nat) : List Nat := padWith len ((len * 8) % 2 ^ 64)

/-! ## The SHA-256 gadget of package `sha256` -/

namespace sha256

/-- Modelled from the spec: the gadget type of package `sha256` is not among the
sources. By §4.5 an instance accumulates what `Write` feeds it, `Sum` returns
the digest of the accumulated data and `Reset` clears the accumulated state. -/
structure Gadget where
  data : List Nat

/-- Modelled from the spec: `sha256.New(api)`, an instance with no accumulated data. -/
def New : Gadget := { data := [] }

/-- Modelled from the spec: `Write` feeds data incrementally. -/
def Gadget.Write (g : Gadget) (d : List Nat) : Gadget := { data := g.data ++ d }

/-- Modelled from the spec: `Sum` finalizes and returns the digest of the accumulated
data; the digest computation is the parameter `digest`. -/
def Gadget.Sum (digest : List Nat → Circuit (List Nat)) (g : Gadget) : Circuit (List Nat) :=
  digest g.data

/-- Modelled from the spec: `Reset` clears the accumulated state. -/
def Gadget.Reset (_g : Gadget) : Gadget := { data := [] }

/-- SHA-256 round constants (FIPS 180-4, 4.2.2). -/
def K : List Nat :=
  [0x428a2f98, 0x71374491, 0xb5c0fbcf, 0xe9b5dba5, 0x3956c25b, 0x59f111f1, 0x923f82a4, 0xab1c5ed5,
   0xd807aa98, 0x12835b01, 0x243185be, 0x550c7dc3, 0x72be5d74, 0x80deb1fe, 0x9bdc06a7, 0xc19bf174,
   0xe49b69c1, 0xefbe4786, 0x0fc19dc6, 0x240ca1cc, 0x2de92c6f, 0x4a7484aa, 0x5cb0a9dc, 0x76f988da,
   0x983e5152, 0xa831c66d, 0xb00327c8, 0xbf597fc7, 0xc6e00bf3, 0xd5a79147, 0x06ca6351, 0x14292967,
   0x27b70a85, 0x2e1b2138, 0x4d2c6dfc, 0x53380d13, 0x650a7354, 0x766a0abb, 0x81c2c92e, 0x92722c85,
   0xa2bfe8a1, 0xa81a664b, 0xc24b8b70, 0xc76c51a3, 0xd192e819, 0xd6990624, 0xf40e3585, 0x106aa070,
   0x19a4c116, 0x1e376c08, 0x2748774c, 0x34b0bcb5, 0x391c0cb3, 0x4ed8aa4a, 0x5b9cca4f, 0x682e6ff3,
   0x748f82ee, 0x78a5636f, 0x84c87814, 0x8cc70208, 0x90befffa, 0xa4506ceb, 0xbef9a3f7, 0xc67178f2]

/-- The SHA-256 initialization vector, as eight 32-bit words. -/
def initState : List Nat :=
  [0x6a09e667, 0xbb67ae85, 0x3c6ef372, 0xa54ff53a, 0x510e527f, 0x9b05688c, 0x1f83d9ab, 0x5be0cd19]

/-- Rotate a 32-bit word right by `n`. -/
def rotr (x n : Nat) : Nat := ((x >>> n) ||| (x <<< (32 - n))) % 2 ^ 32

/-- Big-endian packing of bytes into 32-bit words, four bytes per word. -/
def wordsOfBytes : List Nat → List Nat
  | b0 :: b1 :: b2 :: b3 :: rest =>
    (b0 * 2 ^ 24 + b1 * 2 ^ 16 + b2 * 2 ^ 8 + b3) :: wordsOfBytes rest
  | _ => []

/-- Big-endian unpacking of 32-bit words into bytes. -/
def bytesOfWords : List Nat → List Nat
  | [] => []
  | w :: rest =>
    (w / 2 ^ 24 % 256) :: (w / 2 ^ 16 % 256) :: (w / 2 ^ 8 % 256) :: (w % 256) :: bytesOfWords rest

/-- Message schedule: extends the word list `w` by `n` further words. -/
def schedule : Nat → List Nat → List Nat
  | 0, w => w
  | n + 1, w =>
    let i := w.length
    let w15 := w.getD (i - 15) 0
    let w2 := w.getD (i - 2) 0
    let s0 := rotr w15 7 ^^^ rotr w15 18 ^^^ (w15 >>> 3)
    let s1 := rotr w2 17 ^^^ rotr w2 19 ^^^ (w2 >>> 10)
    schedule n (w ++ [(w.getD (i - 16) 0 + s0 + w.getD (i - 7) 0 + s1) % 2 ^ 32])

/-- One round of the compression function on the working variables `a..h`. -/
def round (v : List Nat) (k w : Nat) : List Nat :=
  let a := v.getD 0 0
  let b := v.getD 1 0
  let c := v.getD 2 0
  let d := v.getD 3 0
  let e := v.getD 4 0
  let f := v.getD 5 0
  let g := v.getD 6 0
  let h := v.getD 7 0
  let S1 := rotr e 6 ^^^ rotr e 11 ^^^ rotr e 25
  let ch := (e &&& f) ^^^ ((e ^^^ 0xffffffff) &&& g)
  let t1 := (h + S1 + ch + k + w) % 2 ^ 32
  let S0 := rotr a 2 ^^^ rotr a 13 ^^^ rotr a 22
  let maj := (a &&& b) ^^^ (a &&& c) ^^^ (b &&& c)
  let t2 := (S0 + maj) % 2 ^ 32
  [(t1 + t2) % 2 ^ 32, a, b, c, (d + t1) % 2 ^ 32, e, f, g]

/-- The 64 rounds, over the round constants zipped with the schedule. -/
def rounds : List (Nat × Nat) → List Nat → List Nat
  | [], v => v
  | (k, w) :: rest, v => rounds rest (round v k w)

/-- The SHA-256 compression function: state of eight words, block of 64 bytes. -/
def compress (state : List Nat) (block : List Nat) : List Nat :=
  let w := schedule 48 (wordsOfBytes (block.take 64))
  let v := rounds (List.zip K w) state
  List.zipWith (fun x y => (x + y) % 2 ^ 32) state v

/-- The first `n` consecutive 64-byte blocks of a byte sequence. -/
def chunks : Nat → List Nat → List (List Nat)
  | 0, _ => []
  | n + 1, l => l.take 64 :: chunks n (l.drop 64)

/-- The complete 64-byte blocks of a byte sequence. -/
def blocks (l : List Nat) : List (List Nat) := chunks (l.length / 64) l

/-- Compression of all complete blocks of `data`, starting from `state`. -/
def absorb (state : List Nat) (data : List Nat) : List Nat :=
  (blocks data).foldl compress state

/-- Padding, compression and output of the digest bytes, starting from `state` with
`bits` as the value of the padding length field. -/
def finish (state : List Nat) (bits : Nat) (data : List Nat) : List Nat :=
  bytesOfWords (absorb state (data ++ padWith data.length (bits % 2 ^ 64)))

/-- Modelled from the spec: `New(api).Write(data).Sum()`, standard SHA-256 from the
fixed initialization vector with the standard length padding (§4.5 (a)). -/
def sumValue (data : List Nat) : List Nat := finish initState (data.length * 8) data

/-- Modelled from the spec: `NewWithIV(api, customState, bits).Write(data).Sum()`,
compression started from the 32-byte intermediate state, `bits` being the total
bit length used only for the padding length field (§4.5 (b)). -/
def sumWithIVValue (customState : List Nat) (bits : Nat) (data : List Nat) : List Nat :=
  finish (wordsOfBytes customState) bits data

/-- The 32-byte intermediate state reached after compressing `prefix`. -/
def stateAfter (pre : List Nat) : List Nat := bytesOfWords (absorb initState pre)

/-- Modelled from the spec: `NewWithIV(api, customState, n).WriteReturn(data)`, the
state after resuming the compression from `customState` over the already padded
`data`, without further padding (§4.6 (1)). -/
def writeReturnValue (customState : List Nat) (_n : Nat) (data : List Nat) : List Nat :=
  bytesOfWords (absorb (wordsOfBytes customState) data)

/-- Modelled from the spec: the digest as a gadget; by §3 every input is decomposed
into 8 boolean bits, so its constraints hold exactly when all inputs are bytes. -/
def Sum (data : List Nat) : Circuit (List Nat) :=
  some (sumValue data, data.all (fun b => decide (b < 256)))

/-- Modelled from the spec: resumed compression as a gadget, constraints as for `Sum`. -/
def WriteReturn (customState : List Nat) (n : Nat) (data : List Nat) : Circuit (List Nat) :=
  some (writeReturnValue customState n data,
    (customState ++ data).all (fun b => decide (b < 256)))

end sha256

/-! ## tls13_kdc/gadget.go -/

/-- Go type `Tls13Kdc` (without the builder handle). -/
structure Tls13Kdc where
  DHSin : List Nat
  IntermediateHashHSopad : List Nat
  MSin : List Nat
  XATSin : List Nat
  TkXAPPin : List Nat

namespace Tls13Kdc

/-- Go source `(circuit *Tls13Kdc) SetParams(IntermediateHashHSopad, MSin, XATSin,
TkXAPPin, DHSin)`. -/
def SetParams (IntermediateHashHSopad MSin XATSin TkXAPPin DHSin : List Nat) : Tls13Kdc :=
  { DHSin := DHSin, IntermediateHashHSopad := IntermediateHashHSopad, MSin := MSin,
    XATSin := XATSin, TkXAPPin := TkXAPPin }

/-- Go source `(circuit *Tls13Kdc) Derive()`. The hash computations of package
`sha256` are parameters: `digest` is the digest of the data accumulated by the
instance `sha`, `shacal` is `NewWithIV(api, iv, n).WriteReturn(data)`. -/
def Derive (digest : List Nat → Circuit (List Nat))
    (shacal : List Nat → Nat → List Nat → Circuit (List Nat)) (circuit : Tls13Kdc) :
    Circuit (List Nat) := do
  let sha := sha256.New
  let dHS ← shacal circuit.IntermediateHashHSopad 64 circuit.DHSin
  let dHSopadConcatMSin ← OpadConcat dHS circuit.MSin
  let sha := sha.Write dHSopadConcatMSin
  let MS ← sha.Sum digest
  let sha := sha.Reset
  let MSopadConcatXATSin ← OpadConcat MS circuit.XATSin
  let sha := sha.Write MSopadConcatXATSin
  let XATS ← sha.Sum digest
  let sha := sha.Reset
  let XATSopadConcattkXAPPin ← OpadConcat XATS circuit.TkXAPPin
  let sha := sha.Write XATSopadConcattkXAPPin
  let tkXAPP ← sha.Sum digest
  goSlice tkXAPP 0 16

end Tls13Kdc

/-- Value of `OpadConcat`: `inp1` XOR `0x5c` bytewise, 32 bytes `0x5c`, then `inp2`. -/
def opadConcatValue (inp1 inp2 : List Nat) : List Nat :=
  inp1.map (fun b => b ^^^ 0x5c) ++ List.replicate 32 0x5c ++ inp2

/-! ## tls13_session_commit/evaluate.go: the session-commit scenario -/

namespace EvaluateSessionCommit

/-- Scenario constant `intermediateHashHSopad`. -/
def intermediateHashHSopad : List Nat :=
  [0x51, 0x13, 0xc2, 0xd6, 0x53, 0x3a, 0x74, 0xea, 0x90, 0x39, 0x24, 0x17, 0xf7, 0x26, 0xdc, 0x79,
   0xc1, 0x80, 0x81, 0x9a, 0xd8, 0xa5, 0x5b, 0xd8, 0x09, 0xa5, 0xb3, 0x8a, 0x08, 0x58, 0xb1, 0x2f]

/-- Scenario constant `dHSin` (before the padding is appended). -/
def dHSin : List Nat :=
  [0xdb, 0xd4, 0x1f, 0xab, 0xc1, 0x39, 0xfd, 0xc0, 0x25, 0x2d, 0xb5, 0x10, 0xd6, 0xd6, 0x1c, 0x4d,
   0xd0, 0x9b, 0xf9, 0x13, 0xbf, 0x4b, 0x45, 0x34, 0xe7, 0xa3, 0x91, 0x0d, 0x21, 0xa1, 0x3b, 0x6b]

/-- The padded buffer `dHSinPadded`: `dHSin` followed by `PadSha256(96)`. -/
def dHSinPadded : List Nat := dHSin ++ PadSha256 96

/-- Scenario constant `MSin`. -/
def MSin : List Nat :=
  [0x9b, 0xe8, 0x8f, 0x33, 0x14, 0x17, 0x55, 0xdc, 0xc1, 0x84, 0x67, 0x95, 0x21, 0x7f, 0x8c, 0xd6,
   0x32, 0x55, 0x97, 0x71, 0xfb, 0xd7, 0x5f, 0xb4, 0x50, 0x33, 0xae, 0x0e, 0x3a, 0xdf, 0xee, 0xfa]

/-- Scenario constant `SATSin`. -/
def SATSin : List Nat :=
  [0xda, 0xe6, 0xd4, 0xb1, 0xdf, 0x8d, 0xf6, 0xe1, 0xcc, 0xb7, 0xd9, 0x04, 0x63, 0x60, 0x14, 0x75,
   0xc7, 0x0c, 0x49, 0x58, 0xad, 0x98, 0xc2, 0xde, 0x07, 0x14, 0x1f, 0x8b, 0xaf, 0x77, 0x39, 0x0b]

/-- Scenario constant `tkSAPPin`. -/
def tkSAPPin : List Nat :=
  [0x2f, 0xee, 0xba, 0x24, 0x61, 0xc6, 0x4d, 0x98, 0xbd, 0x39, 0xa7, 0x1e, 0xe1, 0xf2, 0x0e, 0x59,
   0xe7, 0xd8, 0x5b, 0x3d, 0x99, 0xad, 0x6a, 0x0e, 0x4f, 0xc8, 0xe2, 0x9c, 0x3d, 0x9e, 0x8e, 0x0a]

/-- Scenario constant `tkCommit`. -/
def tkCommit : List Nat :=
  [0xe9, 0xc3, 0x00, 0x23, 0x4a, 0xdb, 0xf6, 0x90, 0xe8, 0x13, 0x34, 0xe7, 0x9d, 0x0c, 0x82, 0xb4,
   0xe3, 0xa7, 0x6a, 0x77, 0xd6, 0x47, 0xc8, 0xd1, 0x9d, 0xf5, 0x96, 0x8d, 0xc5, 0x72, 0x48, 0xba]

/-- The expected `dHS` of `EvaluateShacal2` for the same state and input. -/
def dHS : List Nat :=
  [0x38, 0x3a, 0x91, 0x57, 0x09, 0xaa, 0xb1, 0x99, 0xb4, 0xfe, 0xd1, 0x5b, 0xb0, 0x91, 0x78, 0xd9,
   0x23, 0x53, 0xe4, 0xc6, 0x0a, 0x74, 0x47, 0xef, 0xd3, 0xad, 0x17, 0x42, 0xca, 0x43, 0xff, 0xa9]

/-- The key-schedule inputs of the scenario. -/
def kdc : Tls13Kdc :=
  Tls13Kdc.SetParams intermediateHashHSopad MSin SATSin tkSAPPin dHSinPadded

end EvaluateSessionCommit

/-! ## evaluation/constraints.go: resumed compression -/

/-- Go type `Shacal2Wrapper` of package `evaluation`. -/
structure Shacal2Wrapper where
  DHSin : List Nat
  IntermediateHashHSopad : List Nat
  DHS : List Nat

/-- Go source `(circuit *Shacal2Wrapper) Define(api)`; `shacal` is
`NewWithIV(api, iv, n).WriteReturn(data)` of package `sha256`. -/
def Shacal2Wrapper.Define (shacal : List Nat → Nat → List Nat → Circuit (List Nat))
    (circuit : Shacal2Wrapper) : Circuit Unit := do
  let out ← shacal circuit.IntermediateHashHSopad 64 circuit.DHSin
  Circuit.forEach (List.range 32) (fun i => do
    let a ← goIndex out i
    let b ← goIndex circuit.DHS i
    api.AssertIsEqual a b)

/-- Conjoins the flag `ok` of earlier assertions to an outcome. -/
def Circuit.withOk {α : Type} (ok : Bool) (x : Circuit α) : Circuit α :=
  match x with
  | none => none
  | some (a, ok2) => some (a, ok && ok2)

namespace EvaluateSessionCommit

/-- The master secret `MS` of the scenario, `SHA-256((dHS XOR opad) || MSin)`. -/
def MS : List Nat :=
  [0xdf, 0x76, 0x75, 0xe9, 0x96, 0x1c, 0xf9, 0x44, 0xd4, 0xeb, 0xe6, 0xcb, 0x41, 0x9f, 0x84, 0x7d,
   0xb9, 0x39, 0x09, 0x14, 0x61, 0x4c, 0x54, 0x04, 0x61, 0xe5, 0x62, 0x8a, 0xbc, 0xfc, 0xd0, 0x48]

/-- The traffic secret `SATS` of the scenario, `SHA-256((MS XOR opad) || SATSin)`. -/
def SATS : List Nat :=
  [0xa6, 0x3c, 0x86, 0x5b, 0xf8, 0x80, 0x66, 0xb5, 0x9d, 0x61, 0x74, 0xfa, 0xf1, 0x44, 0x3d, 0x6d,
   0x97, 0x73, 0x1d, 0x54, 0x56, 0x27, 0x73, 0x48, 0x1e, 0x45, 0xb4, 0xbd, 0xc5, 0xe9, 0xdc, 0x6f]

/-- The 32-byte digest `tkXAPP` of the scenario, `SHA-256((SATS XOR opad) || tkSAPPin)`. -/
def tkXAPP : List Nat :=
  [0x28, 0x72, 0x65, 0x85, 0x73, 0xf9, 0x5e, 0x87, 0x55, 0x0c, 0xb2, 0x63, 0x74, 0xe5, 0xf6, 0x67,
   0x37, 0x60, 0x75, 0x79, 0x1b, 0x08, 0xfd, 0x74, 0xac, 0xf4, 0xf9, 0xfb, 0xee, 0x3b, 0x80, 0x49]

end EvaluateSessionCommit

/-! ## tls13_session_commit/gadget.go and evaluate.go -/

/-- Go statement `copy(dst[:], src)` into a fresh array `dst` of `n` entries: the first
`min(n, len(src))` entries are those of `src`, the others keep the zero value. -/
def goCopy (n : Nat) (src : List Nat) : List Nat :=
  src.take n ++ List.replicate (n - src.length) 0

/-- Go type `Tls13SessionCommit` (without the builder handle). -/
structure Tls13SessionCommit where
  DHSin : List Nat
  IntermediateHashHSopad : List Nat
  MSin : List Nat
  XATSin : List Nat
  TkXAPPin : List Nat
  TkCommit : List Nat
  IvCounter : List Nat
  Zeros : List Nat
  ECB0 : List Nat
  ECBK : List Nat

namespace Tls13SessionCommit

/-- Go source `New(api)` of package `tls13_session_commit`: no field is set yet. -/
def New : Tls13SessionCommit :=
  { DHSin := [], IntermediateHashHSopad := [], MSin := [], XATSin := [], TkXAPPin := [],
    TkCommit := [], IvCounter := [], Zeros := [], ECB0 := [], ECBK := [] }

/-- Go source `(circuit *Tls13SessionCommit) SetKdcParams(IntermediateHashHSopad, MSin,
XATSin, TkXAPPin, TkCommit, DHSin)`. -/
def SetKdcParams (circuit : Tls13SessionCommit)
    (IntermediateHashHSopad MSin XATSin TkXAPPin TkCommit DHSin : List Nat) :
    Tls13SessionCommit :=
  { circuit with IntermediateHashHSopad := IntermediateHashHSopad, MSin := MSin,
                 XATSin := XATSin, TkXAPPin := TkXAPPin, TkCommit := TkCommit, DHSin := DHSin }

/-- Go source `(circuit *Tls13SessionCommit) SetAuthtagParams(ivCounter, zeros, ecb0, ecbk)`. -/
def SetAuthtagParams (circuit : Tls13SessionCommit) (ivCounter zeros ecb0 ecbk : List Nat) :
    Tls13SessionCommit :=
  { circuit with IvCounter := ivCounter, Zeros := zeros, ECB0 := ecb0, ECBK := ecbk }

/-- Go source `(circuit *Tls13SessionCommit) Assert()`. The hash computations are the
parameters `digest` and `shacal` as in `Tls13Kdc.Derive`; package `tls13_authtag`
is not among the sources and `authTag k ivCounter zeros a b` stands for
`tag13.New(api)`, `tag.SetParams(k, ivCounter, zeros, a, b)`, `tag.Assert()`. -/
def Assert (digest : List Nat → Circuit (List Nat))
    (shacal : List Nat → Nat → List Nat → Circuit (List Nat))
    (authTag : List Nat → List Nat → List Nat → List Nat → List Nat → Circuit Unit)
    (circuit : Tls13SessionCommit) : Circuit Unit := do
  let tls13_kdc := Tls13Kdc.SetParams circuit.IntermediateHashHSopad circuit.MSin
    circuit.XATSin circuit.TkXAPPin circuit.DHSin
  let tk ← Tls13Kdc.Derive digest shacal tls13_kdc
  let sha := sha256.New
  let sha := sha.Write tk
  let commit ← sha.Sum digest
  Circuit.forEach (List.range 32) (fun i => do
    let a ← goIndex circuit.TkCommit i
    let b ← goIndex commit i
    api.AssertIsEqual a b)
  let tk16 := goCopy 16 tk
  authTag tk16 circuit.IvCounter circuit.Zeros circuit.ECB0 circuit.ECBK

end Tls13SessionCommit

/-- Go type `Tls13SessionCommitWrapper`. -/
structure Tls13SessionCommitWrapper where
  DHSin : List Nat
  IntermediateHashHSopad : List Nat
  MSin : List Nat
  SATSin : List Nat
  TkSAPPin : List Nat
  TkCommit : List Nat
  IvCounter : List Nat
  Zeros : List Nat
  ECB0 : List Nat
  ECBK : List Nat

/-- Go source `(circuit *Tls13SessionCommitWrapper) Define(api)`. -/
def Tls13SessionCommitWrapper.Define (digest : List Nat → Circuit (List Nat))
    (shacal : List Nat → Nat → List Nat → Circuit (List Nat))
    (authTag : List Nat → List Nat → List Nat → List Nat → List Nat → Circuit Unit)
    (circuit : Tls13SessionCommitWrapper) : Circuit Unit :=
  let session_commit := Tls13SessionCommit.New
  let session_commit := session_commit.SetKdcParams circuit.IntermediateHashHSopad circuit.MSin
    circuit.SATSin circuit.TkSAPPin circuit.TkCommit circuit.DHSin
  let session_commit := session_commit.SetAuthtagParams circuit.IvCounter circuit.Zeros
    circuit.ECB0 circuit.ECBK
  session_commit.Assert digest shacal authTag

/-! ## tls13_oracle/gadget.go and evaluate.go -/

/-- Go type `Tls13Oracle` (without the builder handle); it has no key field. -/
structure Tls13Oracle where
  DHSin : List Nat
  IntermediateHashHSopad : List Nat
  MSin : List Nat
  XATSin : List Nat
  TkXAPPin : List Nat
  IvCounter : List Nat
  Zeros : List Nat
  ECB0 : List Nat
  ECBK : List Nat
  PlainChunks : List Nat
  Iv : List Nat
  CipherChunks : List Nat
  ChunkIndex : Nat
  Substring : List Nat
  SubstringStart : Int
  SubstringEnd : Int
  ValueStart : Int
  ValueEnd : Int
  Threshold : Nat

namespace Tls13Oracle

/-- Go source `New(api)` of package `tls13_oracle`: no field is set yet. -/
def New : Tls13Oracle :=
  { DHSin := [], IntermediateHashHSopad := [], MSin := [], XATSin := [], TkXAPPin := [],
    IvCounter := [], Zeros := [], ECB0 := [], ECBK := [], PlainChunks := [], Iv := [],
    CipherChunks := [], ChunkIndex := 0, Substring := [], SubstringStart := 0,
    SubstringEnd := 0, ValueStart := 0, ValueEnd := 0, Threshold := 0 }

/-- Go source `(circuit *Tls13Oracle) SetKdcParams(IntermediateHashHSopad, MSin, XATSin,
TkXAPPin, DHSin)`. -/
def SetKdcParams (circuit : Tls13Oracle)
    (IntermediateHashHSopad MSin XATSin TkXAPPin DHSin : List Nat) : Tls13Oracle :=
  { circuit with IntermediateHashHSopad := IntermediateHashHSopad, MSin := MSin,
                 XATSin := XATSin, TkXAPPin := TkXAPPin, DHSin := DHSin }

/-- Go source `(circuit *Tls13Oracle) SetAuthtagParams(ivCounter, zeros, ecb0, ecbk)`. -/
def SetAuthtagParams (circuit : Tls13Oracle) (ivCounter zeros ecb0 ecbk : List Nat) :
    Tls13Oracle :=
  { circuit with IvCounter := ivCounter, Zeros := zeros, ECB0 := ecb0, ECBK := ecbk }

/-- Go source `(circuit *Tls13Oracle) SetRecordParams(iv, plainChunks, cipherChunks,
substring, chunkIndex, threshold, substringStart, substringEnd, valueStart, valueEnd)`. -/
def SetRecordParams (circuit : Tls13Oracle) (iv plainChunks cipherChunks substring : List Nat)
    (chunkIndex threshold : Nat) (substringStart substringEnd valueStart valueEnd : Int) :
    Tls13Oracle :=
  { circuit with PlainChunks := plainChunks, Iv := iv, CipherChunks := cipherChunks,
                 ChunkIndex := chunkIndex, Substring := substring, Threshold := threshold,
                 SubstringStart := substringStart, SubstringEnd := substringEnd,
                 ValueStart := valueStart, ValueEnd := valueEnd }

/-- Go source `(circuit *Tls13Oracle) Assert()`; parameters as for
`Tls13SessionCommit.Assert`, `Encrypt` is the block cipher of the record gadget. -/
def Assert (digest : List Nat → Circuit (List Nat))
    (shacal : List Nat → Nat → List Nat → Circuit (List Nat))
    (authTag : List Nat → List Nat → List Nat → List Nat → List Nat → Circuit Unit)
    (Encrypt : List Nat → List Nat → Circuit (List Nat))
    (circuit : Tls13Oracle) : Circuit Unit := do
  let tls13_kdc := Tls13Kdc.SetParams circuit.IntermediateHashHSopad circuit.MSin
    circuit.XATSin circuit.TkXAPPin circuit.DHSin
  let tk ← Tls13Kdc.Derive digest shacal tls13_kdc
  let tk16 := goCopy 16 tk
  authTag tk16 circuit.IvCounter circuit.Zeros circuit.ECB0 circuit.ECBK
  let record := Tls13Record.SetParams tk16 circuit.Iv circuit.PlainChunks circuit.CipherChunks
    circuit.Substring circuit.ChunkIndex circuit.Threshold circuit.SubstringStart
    circuit.SubstringEnd circuit.ValueStart circuit.ValueEnd
  Tls13Record.Assert Encrypt record

end Tls13Oracle

/-- Go type `Tls13OracleWrapper`. -/
structure Tls13OracleWrapper where
  DHSin : List Nat
  IntermediateHashHSopad : List Nat
  MSin : List Nat
  SATSin : List Nat
  TkSAPPin : List Nat
  IvCounter : List Nat
  Zeros : List Nat
  ECB0 : List Nat
  ECBK : List Nat
  PlainChunks : List Nat
  Iv : List Nat
  CipherChunks : List Nat
  ChunkIndex : Nat
  Substring : List Nat
  SubstringStart : Int
  SubstringEnd : Int
  ValueStart : Int
  ValueEnd : Int
  Threshold : Nat

/-- Go source `(circuit *Tls13OracleWrapper) Define(api)`. -/
def Tls13OracleWrapper.Define (digest : List Nat → Circuit (List Nat))
    (shacal : List Nat → Nat → List Nat → Circuit (List Nat))
    (authTag : List Nat → List Nat → List Nat → List Nat → List Nat → Circuit Unit)
    (Encrypt : List Nat → List Nat → Circuit (List Nat))
    (circuit : Tls13OracleWrapper) : Circuit Unit :=
  let oracle := Tls13Oracle.New
  let oracle := oracle.SetKdcParams circuit.IntermediateHashHSopad circuit.MSin circuit.SATSin
    circuit.TkSAPPin circuit.DHSin
  let oracle := oracle.SetAuthtagParams circuit.IvCounter circuit.Zeros circuit.ECB0 circuit.ECBK
  let oracle := oracle.SetRecordParams circuit.Iv circuit.PlainChunks circuit.CipherChunks
    circuit.Substring circuit.ChunkIndex circuit.Threshold circuit.SubstringStart
    circuit.SubstringEnd circuit.ValueStart circuit.ValueEnd
  oracle.Assert digest shacal authTag Encrypt

/-! ## Package `gadgets`: record, session data and authenticated record -/

namespace gadgets

/-- Go source `(circuit *Tls13Record) Assert()` of package `gadgets`
(`circuits/gadgets/tls13_record.go`), on the same fields as `Tls13Record`. The
counter-mode check `NewGCMlu(api, aes).Assert2(key, iv, chunkIndex, plain, cipher)`
is not among the sources and is the parameter `gcm`; the package's
`SubstringMatch`, `StringToInt` and `GreaterThan` are those of `utils/utils.go`. -/
def Tls13Record_Assert (gcm : List Nat → List Nat → Nat → List Nat → List Nat → Circuit Unit)
    (circuit : Tls13Record) : Circuit Unit := do
  gcm circuit.Key circuit.Iv circuit.ChunkIndex circuit.PlainChunks circuit.CipherChunks
  let extractedSubstring ← goSlice circuit.PlainChunks circuit.SubstringStart circuit.SubstringEnd
  SubstringMatch circuit.Substring extractedSubstring 0 circuit.Substring.length
  let valueString ← goSlice circuit.PlainChunks circuit.ValueStart circuit.ValueEnd
  let valueInteger ← StringToInt valueString
  GreaterThan valueInteger circuit.Threshold

/-- Go type `Tls13SessionData` of package `gadgets` (without the builder handle). -/
structure Tls13SessionData where
  Key : List Nat
  PlainChunks : List Nat
  Iv : List Nat
  CipherChunks : List Nat
  ChunkIndex : Nat
  Substring : List Nat
  SubstringStart : Int
  SubstringEnd : Int
  ValueStart : Int
  ValueEnd : Int
  Threshold : Nat
  TkCommit : List Nat

/-- Go source `(circuit *Tls13SessionData) Assert()`. `digest` is
`NewSHA256(api)`, `Write`, `Sum`; the record gadget is `Tls13Record` of the package. -/
def Tls13SessionData.Assert (digest : List Nat → Circuit (List Nat))
    (gcm : List Nat → List Nat → Nat → List Nat → List Nat → Circuit Unit)
    (circuit : Tls13SessionData) : Circuit Unit := do
  let sha := sha256.New
  let sha := sha.Write circuit.Key
  let keyCommit ← sha.Sum digest
  Circuit.forEach (List.range circuit.TkCommit.length) (fun i => do
    let a ← goIndex circuit.TkCommit i
    let b ← goIndex keyCommit i
    api.AssertIsEqual a b)
  let record := Tls13Record.SetParams circuit.Key circuit.Iv circuit.PlainChunks
    circuit.CipherChunks circuit.Substring circuit.ChunkIndex circuit.Threshold
    circuit.SubstringStart circuit.SubstringEnd circuit.ValueStart circuit.ValueEnd
  Tls13Record_Assert gcm record

/-- Go type `Tls13DecoProxy` of package `gadgets` (without the builder handle). -/
structure Tls13DecoProxy where
  Key : List Nat
  PlainChunks : List Nat
  Iv : List Nat
  CipherChunks : List Nat
  ChunkIndex : Nat
  Substring : List Nat
  SubstringStart : Int
  SubstringEnd : Int
  ValueStart : Int
  ValueEnd : Int
  Threshold : Nat
  IvCounter : List Nat
  Zeros : List Nat
  ECB0 : List Nat
  ECBK : List Nat
  TkCommit : List Nat

namespace Tls13DecoProxy

/-- Go source `NewTls13DecoProxy(api)`: no field is set yet. -/
def New : Tls13DecoProxy :=
  { Key := [], PlainChunks := [], Iv := [], CipherChunks := [], ChunkIndex := 0,
    Substring := [], SubstringStart := 0, SubstringEnd := 0, ValueStart := 0, ValueEnd := 0,
    Threshold := 0, IvCounter := [], Zeros := [], ECB0 := [], ECBK := [], TkCommit := [] }

/-- Go source `(circuit *Tls13DecoProxy) SetRecordParams(key, iv, plainChunks,
cipherChunks, substring, chunkIndex, threshold, substringStart, substringEnd,
valueStart, valueEnd)`. -/
def SetRecordParams (circuit : Tls13DecoProxy)
    (key iv plainChunks cipherChunks substring : List Nat) (chunkIndex threshold : Nat)
    (substringStart substringEnd valueStart valueEnd : Int) : Tls13DecoProxy :=
  { circuit with Key := key, PlainChunks := plainChunks, Iv := iv,
                 CipherChunks := cipherChunks, ChunkIndex := chunkIndex,
                 Substring := substring, Threshold := threshold,
                 SubstringStart := substringStart, SubstringEnd := substringEnd,
                 ValueStart := valueStart, ValueEnd := valueEnd }

/-- Go source `(circuit *Tls13DecoProxy) SetAuthtagParams(ivCounter, zeros, ecb0, ecbk)`. -/
def SetAuthtagParams (circuit : Tls13DecoProxy) (ivCounter zeros ecb0 ecbk : List Nat) :
    Tls13DecoProxy :=
  { circuit with IvCounter := ivCounter, Zeros := zeros, ECB0 := ecb0, ECBK := ecbk }

/-- Go source `(circuit *Tls13DecoProxy) SetCommitParams(tkCommit)`. -/
def SetCommitParams (circuit : Tls13DecoProxy) (tkCommit : List Nat) : Tls13DecoProxy :=
  { circuit with TkCommit := tkCommit }

/-- Go source `(circuit *Tls13DecoProxy) Assert()`. `digest` is `NewSHA256(api)`,
`Write`, `Sum`; `Encrypt` is the block cipher of the auth-tag gadget and `gcm`
the counter-mode check of the record gadget. -/
def Assert (digest : List Nat → Circuit (List Nat))
    (Encrypt : List Nat → List Nat → Circuit (List Nat))
    (gcm : List Nat → List Nat → Nat → List Nat → List Nat → Circuit Unit)
    (circuit : Tls13DecoProxy) : Circuit Unit := do
  let sha := sha256.New
  let sha := sha.Write circuit.Key
  let keyCommit ← sha.Sum digest
  Circuit.forEach (List.range circuit.TkCommit.length) (fun i => do
    let a ← goIndex circuit.TkCommit i
    let b ← goIndex keyCommit i
    api.AssertIsEqual a b)
  let tag := Tls13AuthTag.SetParams circuit.Key circuit.IvCounter circuit.Zeros circuit.ECB0
    circuit.ECBK
  Tls13AuthTag.Assert Encrypt tag
  let record := Tls13Record.SetParams circuit.Key circuit.Iv circuit.PlainChunks
    circuit.CipherChunks circuit.Substring circuit.ChunkIndex circuit.Threshold
    circuit.SubstringStart circuit.SubstringEnd circuit.ValueStart circuit.ValueEnd
  Tls13Record_Assert gcm record

end Tls13DecoProxy

/-- Go type `Tls13DecoProxyWrapper` of package `gadgets`. -/
structure Tls13DecoProxyWrapper where
  Key : List Nat
  PlainChunks : List Nat
  Iv : List Nat
  CipherChunks : List Nat
  ChunkIndex : Nat
  Substring : List Nat
  SubstringStart : Int
  SubstringEnd : Int
  ValueStart : Int
  ValueEnd : Int
  Threshold : Nat
  TkCommit : List Nat
  IvCounter : List Nat
  Zeros : List Nat
  ECB0 : List Nat
  ECBK : List Nat

/-- Go source `(circuit *Tls13DecoProxyWrapper) Define(api)`. -/
def Tls13DecoProxyWrapper.Define (digest : List Nat → Circuit (List Nat))
    (Encrypt : List Nat → List Nat → Circuit (List Nat))
    (gcm : List Nat → List Nat → Nat → List Nat → List Nat → Circuit Unit)
    (circuit : Tls13DecoProxyWrapper) : Circuit Unit :=
  let session_data := Tls13DecoProxy.New
  let session_data := session_data.SetCommitParams circuit.TkCommit
  let session_data := session_data.SetAuthtagParams circuit.IvCounter circuit.Zeros circuit.ECB0
    circuit.ECBK
  let session_data := session_data.SetRecordParams circuit.Key circuit.Iv circuit.PlainChunks
    circuit.CipherChunks circuit.Substring circuit.ChunkIndex circuit.Threshold
    circuit.SubstringStart circuit.SubstringEnd circuit.ValueStart circuit.ValueEnd
  session_data.Assert digest Encrypt gcm

/-- The assignment built by `EvaluateDecoProxy`
(`circuits/gadgets/tls13_deco_proxy_evaluate.go`). -/
def EvaluateDecoProxy.assignment : Tls13DecoProxyWrapper :=
  { Key := EvaluateRecord.key, PlainChunks := EvaluateRecord.plainChunks,
    Iv := EvaluateRecord.iv, CipherChunks := EvaluateRecord.chipherChunks, ChunkIndex := 32,
    Substring := EvaluateRecord.substring, SubstringStart := 13, SubstringEnd := 20,
    ValueStart := 22, ValueEnd := 27, Threshold := 38001,
    TkCommit := EvaluateSessionCommit.tkCommit, IvCounter := EvaluateAuthTag.ivCounter,
    Zeros := EvaluateAuthTag.zeros, ECB0 := EvaluateAuthTag.ecb0, ECBK := EvaluateAuthTag.ecbk }

end gadgets

/-! ## Scenario assignments of the composed circuits -/

/-- The assignment built by `Evaluate` of package `tls13_session_commit`. -/
def EvaluateSessionCommit.assignment : Tls13SessionCommitWrapper :=
  { DHSin := EvaluateSessionCommit.dHSinPadded,
    IntermediateHashHSopad := EvaluateSessionCommit.intermediateHashHSopad,
    MSin := EvaluateSessionCommit.MSin, SATSin := EvaluateSessionCommit.SATSin,
    TkSAPPin := EvaluateSessionCommit.tkSAPPin, TkCommit := EvaluateSessionCommit.tkCommit,
    IvCounter := EvaluateAuthTag.ivCounter, Zeros := EvaluateAuthTag.zeros,
    ECB0 := EvaluateAuthTag.ecb0, ECBK := EvaluateAuthTag.ecbk }

/-- The assignment built by `Evaluate` of package `tls13_oracle`. -/
def EvaluateOracle.assignment : Tls13OracleWrapper :=
  { DHSin := EvaluateSessionCommit.dHSinPadded,
    IntermediateHashHSopad := EvaluateSessionCommit.intermediateHashHSopad,
    MSin := EvaluateSessionCommit.MSin, SATSin := EvaluateSessionCommit.SATSin,
    TkSAPPin := EvaluateSessionCommit.tkSAPPin,
    IvCounter := EvaluateAuthTag.ivCounter, Zeros := EvaluateAuthTag.zeros,
    ECB0 := EvaluateAuthTag.ecb0, ECBK := EvaluateAuthTag.ecbk,
    PlainChunks := EvaluateRecord.plainChunks, Iv := EvaluateRecord.iv,
    CipherChunks := EvaluateRecord.chipherChunks, ChunkIndex := 32,
    Substring := EvaluateRecord.substring, SubstringStart := 13, SubstringEnd := 20,
    ValueStart := 23, ValueEnd := 28, Threshold := 38003 }

/-- The auth-tag gadget of package `gadgets` in the place of `tag13.New(api)`,
`tag.SetParams(k, ivCounter, zeros, a, b)`, `tag.Assert()`, over AES-128. -/
def aesAuthTag (k ivCounter zeros a b : List Nat) : Circuit Unit :=
  Tls13AuthTag.Assert AES128.Encrypt (Tls13AuthTag.SetParams k ivCounter zeros a b)

/-- The session-data circuit on the values of the authenticated-record scenario. -/
def gadgets.EvaluateDecoProxy.sessionData : gadgets.Tls13SessionData :=
  { Key := EvaluateRecord.key, PlainChunks := EvaluateRecord.plainChunks,
    Iv := EvaluateRecord.iv, CipherChunks := EvaluateRecord.chipherChunks, ChunkIndex := 32,
    Substring := EvaluateRecord.substring, SubstringStart := 13, SubstringEnd := 20,
    ValueStart := 22, ValueEnd := 27, Threshold := 38001,
    TkCommit := EvaluateSessionCommit.tkCommit }

/-- Keystream block of the record scenario for counter 32 (plaintext XOR ciphertext). -/
def EvaluateRecord.keystream0 : List Nat :=
  [0x71, 0xb6, 0x36, 0x21, 0x65, 0x84, 0xcc, 0x0d, 0x74, 0x3c, 0x1e, 0x1d, 0x0c, 0xcb, 0x63, 0x7d]

/-- Keystream block of the record scenario for counter 33 (plaintext XOR ciphertext). -/
def EvaluateRecord.keystream1 : List Nat :=
  [0x09, 0xeb, 0x11, 0x59, 0xa5, 0xb8, 0x2d, 0x26, 0x8a, 0x7c, 0x82, 0x7f, 0xb8, 0x4f, 0x7a, 0xb0]

/-- The two keystream blocks of the record scenario by block number. -/
def EvaluateRecord.keystream (i : Nat) : List Nat :=
  if i = 0 then EvaluateRecord.keystream0 else EvaluateRecord.keystream1

/-! ## circuits/gadgets/lookup_aes128.go: the lookup AES-128 gadget -/

/-- A Go `for` loop that updates a local value `s` once per element of `l`. -/
def Circuit.foldList {α σ : Type} (l : List α) (s : σ) (f : σ → α → Circuit σ) : Circuit σ :=
  match l with
  | [] => Circuit.ret s
  | a :: rest => Circuit.andThen (f s a) (fun s2 => Circuit.foldList rest s2 f)

/-- Go statement `copy(dst, src)`: the first `min(len(dst), len(src))` entries of `dst`
are overwritten by those of `src`. -/
def goCopyInto (dst src : List Nat) : List Nat :=
  src.take dst.length ++ dst.drop src.length

/-- Go statement `copy(state[lo:hi], src)` on the array `state`. -/
def goCopyAt (state : List Nat) (lo hi : Nat) (src : List Nat) : List Nat :=
  state.take lo ++ goCopyInto ((state.drop lo).take (hi - lo)) src ++ state.drop hi

/-- Go type `LookUpAESGadget`, embedded in `LookUpAES128`. Its declaration and its
methods are not among the sources: the tables `sbox`, `RCon` and the methods
`Subws`, `XorSubWords`, `ShiftSub`, `VariableXor` that `ExpandKey` and `Encrypt`
call are the fields, to be given by the caller. -/
structure LookUpAESGadget where
  sbox : List Nat
  RCon : List Nat
  Subws : List Nat → Nat → Nat → Nat → Nat → Circuit (List Nat)
  XorSubWords : Nat → Nat → Nat → Nat → List Nat → Circuit (List Nat)
  ShiftSub : List Nat → Circuit (List Nat)
  VariableXor : Nat → Nat → Nat → Circuit Nat

namespace LookUpAES128

/-- One iteration of the first loop of `ExpandKey`. The array `expand` is filled in
increasing index order, four entries per iteration, so the list of the entries
written so far stands for it: at the iteration with offset `i` it has `i` entries. -/
def copyStep (key : List Nat) (expand : List Nat) (i : Nat) : Circuit (List Nat) := do
  let k0 ← goIndex key i
  let k1 ← goIndex key (i + 1)
  let k2 ← goIndex key (i + 2)
  let k3 ← goIndex key (i + 3)
  pure (expand ++ [k0, k1, k2, k3])

/-- The four assignments `expand[i+k] = VariableXor(expand[i-16+k], tk, 8)` that end an
iteration of the second loop of `ExpandKey`. -/
def writeWord (aes : LookUpAESGadget) (expand : List Nat) (i : Nat) (t0 t1 t2 t3 : Nat) :
    Circuit (List Nat) := do
  let e0 ← goIndex expand (i - 16)
  let x0 ← aes.VariableXor e0 t0 8
  let e1 ← goIndex expand (i - 16 + 1)
  let x1 ← aes.VariableXor e1 t1 8
  let e2 ← goIndex expand (i - 16 + 2)
  let x2 ← aes.VariableXor e2 t2 8
  let e3 ← goIndex expand (i - 16 + 3)
  let x3 ← aes.VariableXor e3 t3 8
  pure (expand ++ [x0, x1, x2, x3])

/-- One iteration of the second loop of `ExpandKey`. -/
def expandStep (aes : LookUpAESGadget) (expand : List Nat) (i : Nat) : Circuit (List Nat) := do
  let t0 ← goIndex expand (i - 4)
  let t1 ← goIndex expand (i - 3)
  let t2 ← goIndex expand (i - 2)
  let t3 ← goIndex expand (i - 1)
  if i % 16 = 0 then do
    let tt ← aes.Subws aes.sbox t1 t2 t3 t0
    let s0 ← goIndex tt 0
    let s1 ← goIndex tt 1
    let s2 ← goIndex tt 2
    let s3 ← goIndex tt 3
    let rc ← goIndex aes.RCon (i / 16)
    let s0 ← aes.VariableXor s0 rc 8
    writeWord aes expand i s0 s1 s2 s3
  else writeWord aes expand i t0 t1 t2 t3

/-- Go source `(aes *LookUpAES128) ExpandKey(key)`: the first loop runs over the
offsets 0, 4, 8, 12 and the second over 16, 20, ..., 172. -/
def ExpandKey (aes : LookUpAESGadget) (key : List Nat) : Circuit (List Nat) := do
  let expand ← Circuit.foldList [0, 4, 8, 12] [] (copyStep key)
  Circuit.foldList ((List.range 40).map (fun w => 16 + 4 * w)) expand (expandStep aes)

/-- One iteration of the round loop of `Encrypt`, with `k = i * 16`. -/
def roundStep (aes : LookUpAESGadget) (xk : List Nat) (state : List Nat) (i : Nat) :
    Circuit (List Nat) := do
  let k := i * 16
  let s0 ← goIndex state 0
  let s5 ← goIndex state 5
  let s10 ← goIndex state 10
  let s15 ← goIndex state 15
  let k0 ← goSlice xk ((k + 0 : Nat)) ((k + 4 : Nat))
  let t0 ← aes.XorSubWords s0 s5 s10 s15 k0
  let s4 ← goIndex state 4
  let s9 ← goIndex state 9
  let s14 ← goIndex state 14
  let s3 ← goIndex state 3
  let k1 ← goSlice xk ((k + 4 : Nat)) ((k + 8 : Nat))
  let t1 ← aes.XorSubWords s4 s9 s14 s3 k1
  let s8 ← goIndex state 8
  let s13 ← goIndex state 13
  let s2 ← goIndex state 2
  let s7 ← goIndex state 7
  let k2 ← goSlice xk ((k + 8 : Nat)) ((k + 12 : Nat))
  let t2 ← aes.XorSubWords s8 s13 s2 s7 k2
  let s12 ← goIndex state 12
  let s1 ← goIndex state 1
  let s6 ← goIndex state 6
  let s11 ← goIndex state 11
  let k3 ← goSlice xk ((k + 12 : Nat)) ((k + 16 : Nat))
  let t3 ← aes.XorSubWords s12 s1 s6 s11 k3
  let state := goCopyAt state 0 4 t0
  let state := goCopyAt state 4 8 t1
  let state := goCopyAt state 8 12 t2
  let state := goCopyAt state 12 16 t3
  pure state

/-- One iteration of the final loop of `Encrypt`, with `k = 10 * 16`. -/
def finalStep (aes : LookUpAESGadget) (xk : List Nat) (state : List Nat) (i : Nat) :
    Circuit (List Nat) := do
  let k := 10 * 16
  let a0 ← goIndex state (i + 0)
  let b0 ← goIndex xk (k + i + 0)
  let v0 ← aes.VariableXor a0 b0 8
  let state := state.set (i + 0) v0
  let a1 ← goIndex state (i + 4)
  let b1 ← goIndex xk (k + i + 4)
  let v1 ← aes.VariableXor a1 b1 8
  let state := state.set (i + 4) v1
  let a2 ← goIndex state (i + 8)
  let b2 ← goIndex xk (k + i + 8)
  let v2 ← aes.VariableXor a2 b2 8
  let state := state.set (i + 8) v2
  let a3 ← goIndex state (i + 12)
  let b3 ← goIndex xk (k + i + 12)
  let v3 ← aes.VariableXor a3 b3 8
  let state := state.set (i + 12) v3
  pure state

/-- Go source `(aes *LookUpAES128) Encrypt(key, pt)`. -/
def Encrypt (aes : LookUpAESGadget) (key pt : List Nat) : Circuit (List Nat) := do
  let xk ← ExpandKey aes key
  let state ← Circuit.mapList (List.range 16) (fun i => do
    let x ← goIndex xk i
    let p ← goIndex pt i
    aes.VariableXor x p 8)
  let state ← Circuit.foldList (List.range' 1 9) state (roundStep aes xk)
  let sub ← aes.ShiftSub state
  let state := goCopyInto state sub
  Circuit.foldList (List.range 4) state (finalStep aes xk)

end LookUpAES128

/-- Modelled from the spec: the tables and methods of `LookUpAESGadget` for AES-128
(§4.2): the S-box and round-constant tables, `Subws` substituting four bytes by
lookup, `XorSubWords` substituting four bytes, mixing them as one column and
XORing the four round-key bytes, and `ShiftSub` substituting all sixteen state
bytes and shifting the rows; a lookup constrains its input to the table range;
`VariableXor` is the bit-wise XOR of `utils.VariableXor`. Entry 0 of `RCon` is
not used by `ExpandKey`. -/
def LookUpAESGadget.standard : LookUpAESGadget :=
  { sbox := AES128.sbox,
    RCon := 0x8d :: AES128.rcon,
    Subws := fun sbox a b c d =>
      some ([sbox.getD a 0, sbox.getD b 0, sbox.getD c 0, sbox.getD d 0],
        [a, b, c, d].all (fun x => decide (x < 256))),
    XorSubWords := fun a b c d xk =>
      some (List.zipWith (fun x y => x ^^^ y)
          (AES128.mixColumn (AES128.subByte a) (AES128.subByte b) (AES128.subByte c)
            (AES128.subByte d)) xk,
        ([a, b, c, d] ++ xk).all (fun x => decide (x < 256))),
    ShiftSub := fun state =>
      some (AES128.shiftRows (state.map AES128.subByte),
        state.all (fun x => decide (x < 256))),
    VariableXor := GnarkLib.VariableXor }

/-- The key schedule on byte values for an S-box `S` and round constants `rc`:
appends `n` further 4-byte words to the expanded key `xk`. -/
def expandWordsWith (S : Nat → Nat) (rc : Nat → Nat) : Nat → List Nat → List Nat
  | 0, xk => xk
  | n + 1, xk =>
    let i := xk.length
    let t0 := xk.getD (i - 4) 0
    let t1 := xk.getD (i - 3) 0
    let t2 := xk.getD (i - 2) 0
    let t3 := xk.getD (i - 1) 0
    let w := if i % 16 = 0 then [S t1 ^^^ rc (i / 16), S t2, S t3, S t0] else [t0, t1, t2, t3]
    expandWordsWith S rc n
      (xk ++ [xk.getD (i - 16) 0 ^^^ w.getD 0 0, xk.getD (i - 16 + 1) 0 ^^^ w.getD 1 0,
        xk.getD (i - 16 + 2) 0 ^^^ w.getD 2 0, xk.getD (i - 16 + 3) 0 ^^^ w.getD 3 0])

/-- The recurrence of the key schedule at the word offset `i`, as the claim words it:
off a multiple of 16 each byte is the XOR of the bytes 16 and 4 places before;
at a multiple of 16 the word 16 places before is XORed with the substituted
previous word rotated left by one byte, `RCon[i/16]` entering the first byte
only. -/
def keyRecurrence (S : Nat → Nat) (RCon : List Nat) (e : List Nat) (i : Nat) : Prop :=
  (i % 16 ≠ 0 → ∀ k, k < 4 → e.getD (i + k) 0 = e.getD (i - 16 + k) 0 ^^^ e.getD (i - 4 + k) 0) ∧
  (i % 16 = 0 →
    e.getD i 0 = e.getD (i - 16) 0 ^^^ (S (e.getD (i - 3) 0) ^^^ RCon.getD (i / 16) 0) ∧
    e.getD (i + 1) 0 = e.getD (i - 15) 0 ^^^ S (e.getD (i - 2) 0) ∧
    e.getD (i + 2) 0 = e.getD (i - 14) 0 ^^^ S (e.getD (i - 1) 0) ∧
    e.getD (i + 3) 0 = e.getD (i - 13) 0 ^^^ S (e.getD (i - 4) 0))

instance (S : Nat → Nat) (RCon e : List Nat) (i : Nat) : Decidable (keyRecurrence S RCon e i) := by
  unfold keyRecurrence
  infer_instance

/-- One full round as the claim words it: the four columns are `XorSubWords` of the
state bytes in ShiftRows order with the round-key bytes `xk[16r .. 16r+15]`
taken four at a time. -/
def lookupRound (xsw : Nat → Nat → Nat → Nat → List Nat → List Nat) (xk : List Nat) (r : Nat)
    (s : List Nat) : List Nat :=
  xsw (s.getD 0 0) (s.getD 5 0) (s.getD 10 0) (s.getD 15 0) ((xk.drop (16 * r)).take 4) ++
  xsw (s.getD 4 0) (s.getD 9 0) (s.getD 14 0) (s.getD 3 0) ((xk.drop (16 * r + 4)).take 4) ++
  xsw (s.getD 8 0) (s.getD 13 0) (s.getD 2 0) (s.getD 7 0) ((xk.drop (16 * r + 8)).take 4) ++
  xsw (s.getD 12 0) (s.getD 1 0) (s.getD 6 0) (s.getD 11 0) ((xk.drop (16 * r + 12)).take 4)

/-- The round structure as the claim words it: the state starts as `pt[i] XOR xk[i]`,
the nine rounds `r = 1..9` are written out, then `ShiftSub` is applied and
every state byte is XORed with `xk[160 + i]`. -/
def roundStructure (xsw : Nat → Nat → Nat → Nat → List Nat → List Nat)
    (ss : List Nat → List Nat) (xk pt : List Nat) : List Nat :=
  let s0 := (List.range 16).map (fun i => pt.getD i 0 ^^^ xk.getD i 0)
  let s1 := lookupRound xsw xk 1 s0
  let s2 := lookupRound xsw xk 2 s1
  let s3 := lookupRound xsw xk 3 s2
  let s4 := lookupRound xsw xk 4 s3
  let s5 := lookupRound xsw xk 5 s4
  let s6 := lookupRound xsw xk 6 s5
  let s7 := lookupRound xsw xk 7 s6
  let s8 := lookupRound xsw xk 8 s7
  let s9 := lookupRound xsw xk 9 s8
  (List.range 16).map (fun i => (ss s9).getD i 0 ^^^ xk.getD (160 + i) 0)

/-- The state after one iteration of the final loop of `Encrypt`: the entries
`i`, `i + 4`, `i + 8`, `i + 12` are XORed with the round-key bytes at `160 + i`,
`160 + i + 4`, `160 + i + 8`, `160 + i + 12`. -/
def finalStepValue (xk st : List Nat) (i : Nat) : List Nat :=
  (((st.set i (st.getD i 0 ^^^ xk.getD (10 * 16 + i) 0)).set (i + 4)
    (st.getD (i + 4) 0 ^^^ xk.getD (10 * 16 + i + 4) 0)).set (i + 8)
    (st.getD (i + 8) 0 ^^^ xk.getD (10 * 16 + i + 8) 0)).set (i + 12)
    (st.getD (i + 12) 0 ^^^ xk.getD (10 * 16 + i + 12) 0)

/-! ## Reference value of `StringToInt` on arbitrary bytes -/

/-- The sum over `i` of `(b_i - 48) * 10^(n-1-i)` computed in the prime field:
`api.Sub b 48` is `b - 48` in the field. -/
def fieldDecimalValue (bs : List Nat) : Nat :=
  (Finset.sum (Finset.range bs.length)
    (fun i => api.Sub (bs.getD i 0) 48 * 10 ^ (bs.length - 1 - i))) % fieldModulus

/-- The same sum for bytes given last byte first, without the final reduction. -/
def revFieldValue : List Nat → Nat
  | [] => 0
  | b :: rest => api.Sub b 48 + 10 * revFieldValue rest

/-! ## circuits/gadgets/sha256_uint8api.go and sha256_uint64api.go

The types `xuint8` and `xuint64` are arrays of 8 and 64 variables, least
significant bit first; they are lists here. The two files hold the same code
for the two widths, so the shared bodies take the width as `n`. -/

/-- Boolean conjunction `api.And(a, b) = a * b`, both operands constrained to be
boolean. -/
def api.And (a b : Nat) : Circuit Nat :=
  some (api.Mul a b, decide (a ≤ 1) && decide (b ≤ 1))

/-- gnark `bits.FromBinary(api, b, bits.WithUnconstrainedInputs())`: the little-endian
sum of the entries, which are not constrained to be boolean. -/
def bits.FromBinaryUnconstrained (b : List Nat) : Nat := api.packBits b % fieldModulus

/-- Go index expression `s[i]` with an `int` index: panics when `i` is negative or
out of range. -/
def goIndexInt {α : Type} (s : List α) (i : Int) : Circuit α :=
  if 0 ≤ i then goIndex s i.toNat else Circuit.goPanic

/-- Go assignment `s[i] = v` on an array, with an `int` index. -/
def goAssign {α : Type} (s : List α) (i : Int) (v : α) : Circuit (List α) :=
  if 0 ≤ i ∧ i < (s.length : Int) then Circuit.ret (s.set i.toNat v) else Circuit.goPanic

/-- The values of `i` in the Go loop `for i := lo; i < hi; i++`. -/
def goFor (lo hi : Int) : List Int :=
  (List.range (hi - lo).toNat).map (fun (k : Nat) => lo + (k : Int))

/-- Every entry is a bit. -/
def IsBits (l : List Nat) : Prop := ∀ x ∈ l, x ≤ 1

instance : DecidablePred IsBits :=
  fun l => inferInstanceAs (Decidable (∀ x ∈ l, x ≤ 1))

/-- Go source `constUint8(a uint8)`: entry `i` is `(a >> i) & 1`. -/
def constUint8 (a : Nat) : List Nat := (List.range 8).map (fun i => (a >>> i) &&& 1)

/-- Go source `constUint64(a uint64)`: entry `i` is `(a >> i) & 1`. -/
def constUint64 (a : Nat) : List Nat := (List.range 64).map (fun i => (a >>> i) &&& 1)

/-- Body of `uint8api.and` and `uint64api.and`: every entry of the result starts as 1
and is combined by `api.And` with the entry of each argument in turn. -/
def wideAnd (n : Nat) (ins : List (List Nat)) : Circuit (List Nat) :=
  Circuit.mapList (List.range n) (fun i =>
    Circuit.foldList ins 1 (fun r v => do
      let x ← goIndex v i
      api.And r x))

/-- Body of `uint8api.xor` and `uint64api.xor`: every entry of the result starts as 0
and is combined by `api.Xor` with the entry of each argument in turn. -/
def wideXor (n : Nat) (ins : List (List Nat)) : Circuit (List Nat) :=
  Circuit.mapList (List.range n) (fun i =>
    Circuit.foldList ins 0 (fun r v => do
      let x ← goIndex v i
      api.Xor r x))

/-- Body of `uint8api.not` and `uint64api.not`: `res[i] = api.Xor(in[i], 1)`. -/
def wideNot (n : Nat) (inp : List Nat) : Circuit (List Nat) :=
  Circuit.mapList (List.range n) (fun i => do
    let x ← goIndex inp i
    api.Xor x 1)

/-- Body of `uint8api.lrot` and `uint64api.lrot`: `res[i] = in[(i-shift+n)%n]`, where
`%` is Go's remainder, truncated towards zero. -/
def wideLrot (n : Nat) (inp : List Nat) (shift : Int) : Circuit (List Nat) :=
  Circuit.mapList (List.range n) (fun i =>
    goIndexInt inp (Int.tmod ((i : Int) - shift + (n : Int)) (n : Int)))

namespace uint8api

/-- Go source `(w *uint8api) asUint8(in)`: `bits.ToBinary` with 8 digits, copied into
the array. -/
def asUint8 (inp : Nat) : Circuit (List Nat) := do
  let bits ← api.ToBinary inp 8
  pure (goCopy 8 bits)

/-- Go source `(w *uint8api) fromUint8(in)`. -/
def fromUint8 (inp : List Nat) : Nat := bits.FromBinaryUnconstrained inp

/-- Go source `(w *uint8api) and(in ...xuint8)`. -/
def and (ins : List (List Nat)) : Circuit (List Nat) := wideAnd 8 ins

/-- Go source `(w *uint8api) xor(in ...xuint8)`. -/
def xor (ins : List (List Nat)) : Circuit (List Nat) := wideXor 8 ins

/-- Go source `(w *uint8api) lrot(in, shift)`. -/
def lrot (inp : List Nat) (shift : Int) : Circuit (List Nat) := wideLrot 8 inp shift

/-- Go source `(w *uint8api) not(in)`. -/
def not (inp : List Nat) : Circuit (List Nat) := wideNot 8 inp

end uint8api

namespace uint64api

/-- Go source `(w *uint64api) asUint64(in)`. -/
def asUint64 (inp : Nat) : Circuit (List Nat) := do
  let bits ← api.ToBinary inp 64
  pure (goCopy 64 bits)

/-- Go source `(w *uint64api) fromUint64(in)`. -/
def fromUint64 (inp : List Nat) : Nat := bits.FromBinaryUnconstrained inp

/-- Go source `(w *uint64api) and(in ...xuint64)`. -/
def and (ins : List (List Nat)) : Circuit (List Nat) := wideAnd 64 ins

/-- Go source `(w *uint64api) xor(in ...xuint64)`. -/
def xor (ins : List (List Nat)) : Circuit (List Nat) := wideXor 64 ins

/-- Go source `(w *uint64api) lrot(in, shift)`. -/
def lrot (inp : List Nat) (shift : Int) : Circuit (List Nat) := wideLrot 64 inp shift

/-- Go source `(w *uint64api) not(in)`. -/
def not (inp : List Nat) : Circuit (List Nat) := wideNot 64 inp

/-- Go source `(w *uint64api) rshift(in, shift)`. The entries of the fresh array `res`
stand as 0 until written; for `0 ≤ shift ≤ 64` the two loops write every entry. -/
def rshift (inp : List Nat) (shift : Int) : Circuit (List Nat) := do
  let res ← Circuit.foldList (goFor 0 (64 - shift)) (List.replicate 64 0) (fun res i => do
    let x ← goIndexInt inp (i + shift)
    goAssign res i x)
  Circuit.foldList (goFor (64 - shift) 64) res (fun res i => goAssign res i 0)

/-- Go source `(w *uint64api) lshift(in, shift)`. -/
def lshift (inp : List Nat) (shift : Int) : Circuit (List Nat) := do
  let res ← Circuit.foldList (goFor 0 shift) (List.replicate 64 0) (fun res i =>
    goAssign res i 0)
  Circuit.foldList (goFor shift 64) res (fun res i => do
    let x ← goIndexInt inp (i - shift)
    goAssign res i x)

end uint64api

/-- Go source `(a xuint8) toUint32()`: the 8 entries followed by 24 zero entries. -/
def xuint8.toUint32 (a : List Nat) : Circuit (List Nat) := do
  let low ← Circuit.mapList (List.range 8) (fun i => goIndex a i)
  pure (low ++ List.replicate 24 0)

/-- Go source `(in xuint64) toxUnit8()`: the first 8 entries. -/
def xuint64.toxUnit8 (inp : List Nat) : Circuit (List Nat) :=
  Circuit.mapList (List.range 8) (fun i => goIndex inp i)

/-! ## Lemmas on circuit outcomes -/

set_option maxRecDepth 100000

theorem Circuit.bind_def {α β : Type} (x : Circuit α) (f : α → Circuit β) :
    (x >>= f) = Circuit.andThen x f := rfl

theorem Circuit.pure_def {α : Type} (a : α) : (pure a : Circuit α) = Circuit.ret a := rfl

@[simp] theorem Circuit.some_eq_some {α : Type} (a b : α × Bool) :
    @Eq (Circuit α) (some a) (some b) ↔ a = b := Option.some_inj

@[simp] theorem Circuit.some_ne_none {α : Type} (a : α × Bool) :
    @Eq (Circuit α) (some a) none ↔ False := by
  constructor
  · intro h; exact Option.noConfusion h
  · exact False.elim

@[simp] theorem Circuit.none_ne_some {α : Type} (a : α × Bool) :
    @Eq (Circuit α) none (some a) ↔ False := by
  constructor
  · intro h; exact Option.noConfusion h
  · exact False.elim

theorem Circuit.andThen_some {α β : Type} (a : α) (f : α → Circuit β) :
    Circuit.andThen (some (a, true)) f = f a := by
  unfold Circuit.andThen
  cases h : f a with
  | none => simp [h]
  | some r => cases r; simp [h]

theorem Circuit.andThen_ret {α β : Type} (a : α) (f : α → Circuit β) :
    Circuit.andThen (Circuit.ret a) f = f a := Circuit.andThen_some a f

theorem Circuit.satisfied_iff {α : Type} (x : Circuit α) :
    x.satisfied = true ↔ ∃ a, x = some (a, true) := by
  cases x with
  | none => simp [Circuit.satisfied]
  | some r =>
    obtain ⟨a, ok⟩ := r
    cases ok <;> simp [Circuit.satisfied]

theorem Circuit.satisfied_andThen {α β : Type} (x : Circuit α) (f : α → Circuit β) :
    (Circuit.andThen x f).satisfied = true ↔
      ∃ a, x = some (a, true) ∧ (f a).satisfied = true := by
  cases x with
  | none => simp [Circuit.andThen, Circuit.satisfied]
  | some r =>
    obtain ⟨a, ok⟩ := r
    cases h : f a with
    | none => simp [Circuit.andThen, Circuit.satisfied, h]
    | some r2 =>
      obtain ⟨b, ok2⟩ := r2
      cases ok <;> cases ok2 <;> simp [Circuit.andThen, Circuit.satisfied, h]

theorem Circuit.satisfied_andThen_unit {β : Type} (x : Circuit Unit) (f : Unit → Circuit β) :
    (Circuit.andThen x f).satisfied = true ↔
      x.satisfied = true ∧ (f ()).satisfied = true := by
  rw [Circuit.satisfied_andThen, Circuit.satisfied_iff]
  constructor
  · rintro ⟨a, h1, h2⟩
    exact ⟨⟨a, h1⟩, h2⟩
  · rintro ⟨⟨a, h1⟩, h2⟩
    exact ⟨a, h1, h2⟩

theorem Circuit.panics_andThen {α β : Type} (x : Circuit α) (f : α → Circuit β) :
    (Circuit.andThen x f).panics = true ↔
      x.panics = true ∨ ∃ a ok, x = some (a, ok) ∧ (f a).panics = true := by
  cases x with
  | none => simp [Circuit.andThen, Circuit.panics]
  | some r =>
    obtain ⟨a, ok⟩ := r
    cases h : f a with
    | none => simp [Circuit.andThen, Circuit.panics, h]
    | some r2 => simp [Circuit.andThen, Circuit.panics, h]

theorem Circuit.satisfied_forEach {α : Type} (l : List α) (f : α → Circuit Unit) :
    (Circuit.forEach l f).satisfied = true ↔ ∀ a ∈ l, (f a).satisfied = true := by
  induction l with
  | nil => simp [Circuit.forEach, Circuit.ret, Circuit.satisfied]
  | cons a rest ih =>
    rw [Circuit.forEach, Circuit.satisfied_andThen_unit, ih]
    simp

theorem Circuit.panics_forEach {α : Type} (l : List α) (f : α → Circuit Unit) :
    (Circuit.forEach l f).panics = true ↔ ∃ a ∈ l, (f a).panics = true := by
  induction l with
  | nil => simp [Circuit.forEach, Circuit.ret, Circuit.panics]
  | cons a rest ih =>
    rw [Circuit.forEach, Circuit.panics_andThen, ih]
    constructor
    · rintro (h | ⟨u, ok, _, h⟩)
      · exact ⟨a, by simp, h⟩
      · obtain ⟨b, hb, hp⟩ := h
        exact ⟨b, by simp [hb], hp⟩
    · rintro ⟨b, hb, hp⟩
      rcases List.mem_cons.mp hb with rfl | hb
      · exact Or.inl hp
      · cases hfa : f a with
        | none => left; simp [Circuit.panics]
        | some r =>
          right
          exact ⟨r.1, r.2, rfl, b, hb, hp⟩

theorem Circuit.mapList_eq_of_forall {α β : Type} (l : List α) (f : α → Circuit β) (g : α → β)
    (h : ∀ a ∈ l, f a = some (g a, true)) :
    Circuit.mapList l f = some (l.map g, true) := by
  induction l with
  | nil => rfl
  | cons a rest ih =>
    have h1 := h a (by simp)
    have h2 := ih (fun b hb => h b (by simp [hb]))
    rw [Circuit.mapList, h1, Circuit.andThen_some, h2, Circuit.andThen_some]
    rfl

theorem goIndex_eq_of_lt {α : Type} (s : List α) (i : Nat) (h : i < s.length) :
    goIndex s i = some (s[i], true) := by
  simp [goIndex, List.getElem?_eq_getElem h, Circuit.ret]

theorem goIndex_panics_iff {α : Type} (s : List α) (i : Nat) :
    (goIndex s i).panics = true ↔ s.length ≤ i := by
  unfold goIndex
  cases h : s[i]? with
  | none => simpa [Circuit.goPanic, Circuit.panics] using List.getElem?_eq_none_iff.mp h
  | some a =>
    have := List.getElem?_eq_some_iff.mp h
    obtain ⟨hlt, _⟩ := this
    simp [Circuit.ret, Circuit.panics]
    omega

theorem goIndex_not_satisfied_of_le {α : Type} (s : List α) (i : Nat) (h : s.length ≤ i) :
    goIndex s i = none := by
  simp [goIndex, List.getElem?_eq_none_iff.mpr h, Circuit.goPanic]

/-! ## Selective disclosure: comparison and substring -/

theorem GreaterThan_eq (v1 v2 : Nat) :
    GreaterThan v1 v2 = some ((), decide (v2 ≤ v1)) := rfl

/-- C5: the constraint emitted by `GreaterThan(value, threshold)` is satisfied if and
only if `value ≥ threshold`; it is satisfied at `value = threshold` and not
satisfied at `value = threshold - 1` when `threshold ≥ 1`. -/
theorem GreaterThan_satisfied_iff (value threshold : Nat) :
    ((GreaterThan value threshold).satisfied = true ↔ threshold ≤ value) ∧
    (GreaterThan threshold threshold).satisfied = true ∧
    (1 ≤ threshold → (GreaterThan (threshold - 1) threshold).satisfied = false) := by
  refine ⟨?_, ?_, ?_⟩
  · simp [GreaterThan_eq, Circuit.satisfied]
  · simp [GreaterThan_eq, Circuit.satisfied]
  · intro h
    simp [GreaterThan_eq, Circuit.satisfied]
    omega

/-- C5, at the value and threshold next to the evaluation scenario. -/
theorem GreaterThan_satisfied_iff_witness :
    (1 : Nat) ≤ 38003 ∧ (GreaterThan (38003 - 1) 38003).satisfied = false :=
  ⟨by decide, (GreaterThan_satisfied_iff 38003 38003).2.2 (by decide)⟩

/-- C6: `GreaterThan(v1, v2)` with `v1 = v2` is accepted by the code, although the
doc comment of the function requires `v1 > v2`. -/
theorem GreaterThan_accepts_equal :
    (GreaterThan 38003 38003).satisfied = true ∧ ¬ (38003 < 38003) := by
  constructor
  · rfl
  · decide

theorem SubstringMatch_body_satisfied (substring totalString : List Nat) (i : Nat)
    (hi : i < substring.length) :
    (goIndex substring i >>= fun s => goIndex totalString i >>= fun t =>
        api.AssertIsEqual s t).satisfied = true ↔ totalString[i]? = substring[i]? := by
  rw [Circuit.bind_def, goIndex_eq_of_lt substring i hi, Circuit.andThen_some, Circuit.bind_def]
  rw [List.getElem?_eq_getElem hi]
  by_cases ht : i < totalString.length
  · rw [goIndex_eq_of_lt totalString i ht, Circuit.andThen_some, List.getElem?_eq_getElem ht]
    simp [api.AssertIsEqual, Circuit.assert, Circuit.satisfied, eq_comm]
  · have hle : totalString.length ≤ i := by omega
    rw [goIndex_not_satisfied_of_le totalString i hle, List.getElem?_eq_none_iff.mpr hle]
    simp [Circuit.andThen, Circuit.satisfied]

theorem SubstringMatch_satisfied (substring totalString : List Nat) (lo hi : Int) :
    (SubstringMatch substring totalString lo hi).satisfied = true ↔
      ∀ i, i < substring.length → totalString[i]? = substring[i]? := by
  unfold SubstringMatch
  rw [Circuit.satisfied_forEach]
  constructor
  · intro h i hi
    exact (SubstringMatch_body_satisfied substring totalString i hi).mp
      (h i (List.mem_range.mpr hi))
  · intro h i hi
    have hi2 := List.mem_range.mp hi
    exact (SubstringMatch_body_satisfied substring totalString i hi2).mpr (h i hi2)

theorem SubstringMatch_panics (substring totalString : List Nat) (lo hi : Int) :
    (SubstringMatch substring totalString lo hi).panics = true ↔
      totalString.length < substring.length := by
  unfold SubstringMatch
  rw [Circuit.panics_forEach]
  constructor
  · rintro ⟨i, hi, hp⟩
    have hi2 := List.mem_range.mp hi
    rw [Circuit.bind_def, goIndex_eq_of_lt substring i hi2, Circuit.andThen_some,
      Circuit.bind_def] at hp
    by_contra hcon
    have ht : i < totalString.length := by omega
    rw [goIndex_eq_of_lt totalString i ht, Circuit.andThen_some] at hp
    simp [api.AssertIsEqual, Circuit.assert, Circuit.panics] at hp
  · intro h
    refine ⟨totalString.length, List.mem_range.mpr h, ?_⟩
    rw [Circuit.bind_def, goIndex_eq_of_lt substring _ h, Circuit.andThen_some,
      Circuit.bind_def, goIndex_not_satisfied_of_le totalString _ (le_refl _)]
    rfl

theorem take_eq_iff_getElem? (p t : List Nat) :
    t.take p.length = p ↔ ∀ i, i < p.length → t[i]? = p[i]? := by
  constructor
  · intro h i hi
    rw [← h, List.getElem?_take]
    have : i < p.length := hi
    simp [this]
  · intro h
    apply List.ext_getElem?
    intro i
    by_cases hi : i < p.length
    · rw [List.getElem?_take, if_pos hi, h i hi]
    · rw [List.getElem?_take, if_neg hi]
      exact (List.getElem?_eq_none_iff.mpr (by omega)).symm

/-- C8 (counterexample): the 7-byte pattern `"price"` (with its quotes) is accepted
against the 8-byte slice `plainChunks[13:21]`, which is longer than the pattern
and therefore not byte-wise equal to it. -/
theorem SubstringMatch_accepts_longer_slice :
    (goSlice EvaluateRecord.plainChunks 13 21 >>= fun slice =>
        SubstringMatch EvaluateRecord.substring slice 0 7).satisfied = true ∧
    (goSlice EvaluateRecord.plainChunks 13 21).result [] ≠ EvaluateRecord.substring ∧
    ((goSlice EvaluateRecord.plainChunks 13 21).result []).length = 8 := by
  refine ⟨?_, ?_, ?_⟩
  · decide
  · decide
  · decide

/-- C8 (amended): `SubstringMatch(pattern, haystackSlice, from, to)` is satisfied if
and only if the first `len(pattern)` bytes of the slice are the pattern; bytes of
the slice beyond the pattern are not constrained, so for a slice of the
pattern's length this is byte-wise equality; a slice shorter than the pattern
makes the construction panic, and `from`, `to` play no role. -/
theorem SubstringMatch_satisfied_iff_take (pattern haystackSlice : List Nat) (lo hi : Int) :
    ((SubstringMatch pattern haystackSlice lo hi).satisfied = true ↔
      haystackSlice.take pattern.length = pattern) ∧
    (haystackSlice.length = pattern.length →
      ((SubstringMatch pattern haystackSlice lo hi).satisfied = true ↔
        haystackSlice = pattern)) ∧
    ((SubstringMatch pattern haystackSlice lo hi).panics = true ↔
      haystackSlice.length < pattern.length) ∧
    SubstringMatch pattern haystackSlice lo hi = SubstringMatch pattern haystackSlice 0 0 := by
  have h1 : (SubstringMatch pattern haystackSlice lo hi).satisfied = true ↔
      haystackSlice.take pattern.length = pattern := by
    rw [SubstringMatch_satisfied, take_eq_iff_getElem?]
  refine ⟨h1, ?_, SubstringMatch_panics _ _ _ _, rfl⟩
  intro hlen
  rw [h1, ← hlen, List.take_length]

/-- C8 (amended), on the evaluation scenario: pattern `"price"` against
`plainChunks[13:20]`. -/
theorem SubstringMatch_satisfied_iff_take_witness :
    (SubstringMatch EvaluateRecord.substring ((goSlice EvaluateRecord.plainChunks 13 20).result [])
        0 7).satisfied = true ↔
      (goSlice EvaluateRecord.plainChunks 13 20).result [] = EvaluateRecord.substring :=
  (SubstringMatch_satisfied_iff_take EvaluateRecord.substring
    ((goSlice EvaluateRecord.plainChunks 13 20).result []) 0 7).2.1 (by decide)

/-! ## Binary decomposition and decimal parsing -/

theorem fieldModulus_pos : 0 < fieldModulus := by decide

theorem two_pow_lt_fieldModulus : 2 ^ 64 < fieldModulus := by decide

theorem packBits_bits (n v : Nat) :
    api.packBits ((List.range n).map (fun i => v / 2 ^ i % 2)) = v % 2 ^ n := by
  induction n generalizing v with
  | zero => simp [api.packBits, Nat.mod_one]
  | succ n ih =>
    rw [List.range_succ_eq_map, List.map_cons, List.map_map, api.packBits]
    have hfun : ((fun i => v / 2 ^ i % 2) ∘ Nat.succ) = (fun i => (v / 2) / 2 ^ i % 2) := by
      funext i
      simp only [Function.comp, Nat.succ_eq_add_one]
      rw [pow_succ, mul_comm, Nat.div_div_eq_div_mul]
    rw [hfun, ih (v / 2)]
    simp only [pow_zero, Nat.div_one]
    rw [pow_succ', Nat.mod_mul]

theorem bits_all_le_one (n v : Nat) :
    ((List.range n).map (fun i => v / 2 ^ i % 2)).all (fun b => decide (b ≤ 1)) = true := by
  rw [List.all_eq_true]
  intro b hb
  obtain ⟨i, _, rfl⟩ := List.mem_map.mp hb
  have : v / 2 ^ i % 2 < 2 := Nat.mod_lt _ (by decide)
  simp
  omega

theorem ToBinary_FromBinary (v n : Nat) (hv : v < 2 ^ n) (hp : v < fieldModulus) :
    (api.ToBinary v n >>= api.FromBinary) = some (v, true) := by
  rw [Circuit.bind_def]
  unfold api.ToBinary
  rw [decide_eq_true hv, Circuit.andThen_some]
  unfold api.FromBinary
  rw [packBits_bits, bits_all_le_one, Nat.mod_eq_of_lt hv, Nat.mod_eq_of_lt hp]

theorem ofInt_pow10Int (idx : Nat) (h : idx ≤ 18) : api.ofInt (pow10Int idx) = 10 ^ idx := by
  unfold api.ofInt pow10Int
  rw [if_pos h]
  have hlt : 10 ^ idx < fieldModulus := by
    calc 10 ^ idx ≤ 10 ^ 18 := Nat.pow_le_pow_right (by decide) h
      _ < fieldModulus := by decide
  have hcast : ((10 : Int) ^ idx) = ((10 ^ idx : Nat) : Int) := by push_cast; rfl
  rw [hcast, ← Int.natCast_mod, Int.toNat_natCast, Nat.mod_eq_of_lt hlt]

theorem Sub_48 (b : Nat) (h1 : 48 ≤ b) (h2 : b < fieldModulus) : api.Sub b 48 = b - 48 := by
  unfold api.Sub
  have h48 : 48 % fieldModulus = 48 := by decide
  rw [h48]
  have hp : (48 : Nat) ≤ fieldModulus := by decide
  have : b + (fieldModulus - 48) = (b - 48) + fieldModulus := by omega
  rw [this, Nat.add_mod_right, Nat.mod_eq_of_lt (by omega)]

theorem StringToInt_loop_eq (rev : List Nat) :
    ∀ (idx sum : Nat), (∀ b ∈ rev, 48 ≤ b ∧ b ≤ 57) → idx + rev.length ≤ 19 →
      sum + 10 ^ idx * revValue rev < fieldModulus →
      StringToInt.loop rev idx sum = some (sum + 10 ^ idx * revValue rev, true) := by
  induction rev with
  | nil =>
    intro idx sum _ _ _
    simp [StringToInt.loop, revValue, Circuit.ret]
  | cons b rest ih =>
    intro idx sum hd hlen hlt
    have hb := hd b (by simp)
    have hidx : idx ≤ 18 := by simp at hlen; omega
    have hb256 : b < 2 ^ 8 := by norm_num; omega
    have hbp : b < fieldModulus := by
      have := two_pow_lt_fieldModulus
      have h2 : (2 : Nat) ^ 8 < 2 ^ 64 := by decide
      omega
    have hstep : StringToInt.loop (b :: rest) idx sum =
        ((api.ToBinary b 8 >>= api.FromBinary) >>= fun v =>
          StringToInt.loop rest (idx + 1)
            (api.MulAcc sum (api.Sub v 48) (pow10Int idx))) := by
      rw [StringToInt.loop]
      simp only [Circuit.bind_def]
      cases h1 : api.ToBinary b 8 with
      | none => rfl
      | some r =>
        obtain ⟨bits, ok⟩ := r
        cases h2 : api.FromBinary bits with
        | none => simp [Circuit.andThen, h2]
        | some r2 =>
          obtain ⟨v, ok2⟩ := r2
          cases h3 : StringToInt.loop rest (idx + 1)
              (api.MulAcc sum (api.Sub v 48) (pow10Int idx)) with
          | none => simp [Circuit.andThen, h2, h3]
          | some r3 =>
            obtain ⟨w, ok3⟩ := r3
            simp [Circuit.andThen, h2, h3, Bool.and_assoc]
    rw [hstep, ToBinary_FromBinary b 8 hb256 hbp, Circuit.bind_def, Circuit.andThen_some,
      Sub_48 b hb.1 hbp]
    have hval : revValue (b :: rest) = (b - 48) + 10 * revValue rest := rfl
    have htot : sum + 10 ^ idx * revValue (b :: rest) =
        (sum + (b - 48) * 10 ^ idx) + 10 ^ (idx + 1) * revValue rest := by
      rw [hval, pow_succ]; ring
    have hacc : api.MulAcc sum (b - 48) (pow10Int idx) = sum + (b - 48) * 10 ^ idx := by
      unfold api.MulAcc
      rw [ofInt_pow10Int idx hidx]
      apply Nat.mod_eq_of_lt
      rw [htot] at hlt
      omega
    rw [hacc, htot]
    apply ih
    · intro c hc
      exact hd c (by simp [hc])
    · simp at hlen ⊢
      omega
    · rw [← htot]
      exact hlt

theorem revValue_lt (rev : List Nat) (hd : ∀ b ∈ rev, 48 ≤ b ∧ b ≤ 57) :
    revValue rev < 10 ^ rev.length := by
  induction rev with
  | nil => simp [revValue]
  | cons b rest ih =>
    have hb := hd b (by simp)
    have h := ih (fun c hc => hd c (by simp [hc]))
    rw [revValue, List.length_cons, pow_succ]
    omega

theorem revValue_append_zero (rev : List Nat) : revValue (rev ++ [48]) = revValue rev := by
  induction rev with
  | nil => rfl
  | cons b rest ih => rw [List.cons_append, revValue, ih, revValue]

theorem decimalValue_append_singleton (init : List Nat) (b : Nat) :
    decimalValue (init ++ [b]) = (b - 48) + 10 * decimalValue init := by
  unfold decimalValue
  rw [List.length_append, List.length_singleton, Finset.sum_range_succ, Finset.mul_sum]
  have hlast : (init ++ [b]).getD init.length 0 = b := by
    simp [List.getD_eq_getElem?_getD]
  rw [hlast]
  have hsum : ∀ i ∈ Finset.range init.length,
      ((init ++ [b]).getD i 0 - 48) * 10 ^ (init.length + 1 - 1 - i) =
        10 * ((init.getD i 0 - 48) * 10 ^ (init.length - 1 - i)) := by
    intro i hi
    have hi2 : i < init.length := Finset.mem_range.mp hi
    have hget : (init ++ [b]).getD i 0 = init.getD i 0 := by
      simp [List.getD_eq_getElem?_getD, List.getElem?_append_left hi2]
    have hexp : init.length + 1 - 1 - i = (init.length - 1 - i) + 1 := by omega
    rw [hget, hexp, pow_succ]
    ring
  rw [Finset.sum_congr rfl hsum]
  simp
  ring

theorem revValue_reverse (bs : List Nat) : revValue bs.reverse = decimalValue bs := by
  induction bs using List.reverseRecOn with
  | nil => simp [revValue, decimalValue]
  | append_singleton init b ih =>
    rw [List.reverse_append, List.reverse_singleton, List.singleton_append, revValue, ih,
      decimalValue_append_singleton]

theorem StringToInt_digits (bs : List Nat) (hd : ∀ b ∈ bs, 48 ≤ b ∧ b ≤ 57)
    (hlen : bs.length ≤ 19) : StringToInt bs = some (decimalValue bs, true) := by
  unfold StringToInt
  have hd2 : ∀ b ∈ bs.reverse, 48 ≤ b ∧ b ≤ 57 := fun b hb => hd b (List.mem_reverse.mp hb)
  have hlt := revValue_lt bs.reverse hd2
  have hbound : revValue bs.reverse < fieldModulus := by
    have h19 : 10 ^ bs.reverse.length ≤ 10 ^ 19 :=
      Nat.pow_le_pow_right (by decide) (by simpa using hlen)
    have hp : 10 ^ 19 < fieldModulus := by decide
    omega
  have h := StringToInt_loop_eq bs.reverse 0 0 hd2 (by simpa using hlen) (by simpa using hbound)
  rw [h, ← revValue_reverse]
  simp

/-- C7: on ASCII decimal digit bytes (each in 48..57) of length at most 19,
`StringToInt` returns the number the digits denote in base 10, first byte most
significant, with all its constraints satisfied; the empty sequence gives 0,
leading `'0'` bytes do not change the value, and bytes [22,27) of the
evaluation plaintext give 38002. -/
theorem StringToInt_decimal :
    (∀ bs : List Nat, (∀ b ∈ bs, 48 ≤ b ∧ b ≤ 57) → bs.length ≤ 19 →
      StringToInt bs = some (decimalValue bs, true)) ∧
    StringToInt [] = some (0, true) ∧
    (∀ bs : List Nat, (∀ b ∈ bs, 48 ≤ b ∧ b ≤ 57) → bs.length + 1 ≤ 19 →
      StringToInt (48 :: bs) = StringToInt bs) ∧
    (goSlice EvaluateRecord.plainChunks 22 27 >>= StringToInt) = some (38002, true) := by
  refine ⟨StringToInt_digits, ?_, ?_, ?_⟩
  · rfl
  · intro bs hd hlen
    have hd0 : ∀ b ∈ (48 :: bs), 48 ≤ b ∧ b ≤ 57 := by
      intro b hb
      rcases List.mem_cons.mp hb with rfl | hb
      · decide
      · exact hd b hb
    rw [StringToInt_digits (48 :: bs) hd0 (by simpa using hlen),
      StringToInt_digits bs hd (by omega), ← revValue_reverse, ← revValue_reverse,
      List.reverse_cons, revValue_append_zero]
  · decide

/-- C7, on the digits `"38002"` of the evaluation plaintext. -/
theorem StringToInt_decimal_witness :
    StringToInt [0x33, 0x38, 0x30, 0x30, 0x32] =
      some (decimalValue [0x33, 0x38, 0x30, 0x30, 0x32], true) :=
  StringToInt_decimal.1 [0x33, 0x38, 0x30, 0x30, 0x32] (by decide) (by decide)

/-! ## Counter block construction -/

theorem bits_slice (v n k m : Nat) (h : k + m ≤ n) :
    (((List.range n).map (fun i => v / 2 ^ i % 2)).drop k).take m =
      (List.range m).map (fun i => (v / 2 ^ k) / 2 ^ i % 2) := by
  apply List.ext_getElem?
  intro i
  by_cases hi : i < m
  · have h1 : k + i < n := by omega
    simp [List.getElem?_take, List.getElem?_drop, hi, h1, List.getElem?_range,
      Nat.div_div_eq_div_mul, pow_add]
  · have hnone : (List.range m)[i]? = none :=
      List.getElem?_eq_none_iff.mpr (by simp; omega)
    simp [List.getElem?_take, hi, hnone]

theorem goSlice_bits (v n k m : Nat) (h : k + m ≤ n) :
    goSlice ((List.range n).map (fun i => v / 2 ^ i % 2)) (k : Nat) ((k + m : Nat)) =
      some ((List.range m).map (fun i => (v / 2 ^ k) / 2 ^ i % 2), true) := by
  unfold goSlice
  have hcond : (0 : Int) ≤ (k : Nat) ∧ ((k : Nat) : Int) ≤ ((k + m : Nat) : Int) ∧
      ((k + m : Nat) : Int) ≤
        (((List.range n).map (fun i => v / 2 ^ i % 2)).length : Int) := by
    simp
    omega
  rw [if_pos hcond]
  simp only [Int.toNat_ofNat]
  have hm : k + m - k = m := by omega
  rw [hm, bits_slice v n k m h]
  rfl

theorem GetIV_chunk (ctr j : Nat) (hj : 8 * j + 8 ≤ 32) :
    (goSlice ((List.range 32).map (fun i => ctr / 2 ^ i % 2)) ((8 * j : Nat))
        ((8 * j + 8 : Nat)) >>= api.FromBinary) =
      some ((ctr >>> (8 * j)) &&& 0xff, true) := by
  rw [goSlice_bits ctr 32 (8 * j) 8 hj, Circuit.bind_def, Circuit.andThen_some]
  unfold api.FromBinary
  rw [packBits_bits, bits_all_le_one]
  have hlt : ctr / 2 ^ (8 * j) % 2 ^ 8 < fieldModulus := by
    have h1 : ctr / 2 ^ (8 * j) % 2 ^ 8 < 2 ^ 8 := Nat.mod_lt _ (by decide)
    have h2 : (2 : Nat) ^ 8 < fieldModulus := by decide
    omega
  rw [Nat.mod_eq_of_lt hlt, Nat.shiftRight_eq_div_pow]
  have h255 : (0xff : Nat) = 2 ^ 8 - 1 := by decide
  rw [h255, Nat.and_pow_two_sub_one_eq_mod]

theorem AES128.GetIV_eq (nonce : List Nat) (ctr : Nat) (hc : ctr < 2 ^ 32) :
    AES128.GetIV nonce ctr = some (nonce ++ be32 ctr, true) := by
  unfold AES128.GetIV
  rw [Circuit.bind_def]
  unfold api.ToBinary
  rw [decide_eq_true hc, Circuit.andThen_some]
  have hmap : Circuit.mapList [3, 2, 1, 0] (fun (j : Nat) =>
      (goSlice ((List.range 32).map (fun i => ctr / 2 ^ i % 2)) ((8 * j : Nat))
        ((8 * j + 8 : Nat)) >>= api.FromBinary)) =
      some ([3, 2, 1, 0].map (fun j => (ctr >>> (8 * j)) &&& 0xff), true) := by
    apply Circuit.mapList_eq_of_forall
    intro j hj
    apply GetIV_chunk ctr j
    simp at hj
    omega
  simp only [Circuit.bind_def] at hmap ⊢
  rw [hmap, Circuit.andThen_some]
  rfl

theorem gadgets.GetIV_eq_method (nonce : List Nat) (ctr : Nat) :
    gadgets.GetIV nonce ctr = AES128.GetIV nonce ctr := rfl

/-- C9: for a 12-byte nonce and a counter `c < 2^32`, `GetIV(nonce, c)` returns a
16-byte block whose bytes 0..11 are the nonce and whose bytes 12..15 are the
big-endian encoding of `c`, with its decomposition constraint satisfied; the
method `AES128.GetIV` and the free function `gadgets.GetIV` return the same block. -/
theorem GetIV_counter_block (nonce : List Nat) (c : Nat) (hn : nonce.length = 12)
    (hc : c < 2 ^ 32) :
    ∃ out : List Nat, AES128.GetIV nonce c = some (out, true) ∧
      gadgets.GetIV nonce c = some (out, true) ∧
      out.length = 16 ∧ out.take 12 = nonce ∧
      out[12]? = some ((c >>> 24) &&& 0xff) ∧ out[13]? = some ((c >>> 16) &&& 0xff) ∧
      out[14]? = some ((c >>> 8) &&& 0xff) ∧ out[15]? = some (c &&& 0xff) := by
  refine ⟨nonce ++ be32 c, AES128.GetIV_eq nonce c hc, ?_, ?_, ?_, ?_, ?_, ?_, ?_⟩
  · rw [gadgets.GetIV_eq_method, AES128.GetIV_eq nonce c hc]
  · simp [be32, hn]
  · rw [← hn, List.take_left]
  · rw [List.getElem?_append_right (by omega), hn]; rfl
  · rw [List.getElem?_append_right (by omega), hn]; rfl
  · rw [List.getElem?_append_right (by omega), hn]; rfl
  · rw [List.getElem?_append_right (by omega), hn]; rfl

/-- C9, on the nonce and chunk index of the evaluation scenario. -/
theorem GetIV_counter_block_witness :
    ∃ out : List Nat, AES128.GetIV EvaluateRecord.iv 32 = some (out, true) ∧
      gadgets.GetIV EvaluateRecord.iv 32 = some (out, true) ∧
      out.length = 16 ∧ out.take 12 = EvaluateRecord.iv ∧
      out[12]? = some ((32 >>> 24) &&& 0xff) ∧ out[13]? = some ((32 >>> 16) &&& 0xff) ∧
      out[14]? = some ((32 >>> 8) &&& 0xff) ∧ out[15]? = some (32 &&& 0xff) :=
  GetIV_counter_block EvaluateRecord.iv 32 (by decide) (by decide)

/-! ## Evaluated blocks of the scenarios -/

theorem AES128_Encrypt_eq (key b : List Nat) (hk : IsBytes key) (hb : IsBytes b) :
    AES128.Encrypt key b = some (AES128.encryptBlock key b, true) := by
  unfold AES128.Encrypt
  have h : (key ++ b).all (fun x => decide (x < 256)) = true := by
    rw [List.all_eq_true]
    intro x hx
    rcases List.mem_append.mp hx with h | h
    · exact decide_eq_true (hk x h)
    · exact decide_eq_true (hb x h)
  rw [h]

theorem sha256_Sum_eq (data : List Nat) (h : IsBytes data) :
    sha256.Sum data = some (sha256.sumValue data, true) := by
  unfold sha256.Sum
  have h2 : data.all (fun x => decide (x < 256)) = true := by
    rw [List.all_eq_true]
    intro x hx
    exact decide_eq_true (h x hx)
  rw [h2]

theorem sha256_WriteReturn_eq (st data : List Nat) (n : Nat) (hs : IsBytes st)
    (hd : IsBytes data) :
    sha256.WriteReturn st n data = some (sha256.writeReturnValue st n data, true) := by
  unfold sha256.WriteReturn
  have h : (st ++ data).all (fun x => decide (x < 256)) = true := by
    rw [List.all_eq_true]
    intro x hx
    rcases List.mem_append.mp hx with h | h
    · exact decide_eq_true (hs x h)
    · exact decide_eq_true (hd x h)
  rw [h]

theorem AES_zeros :
    AES128.encryptBlock EvaluateRecord.key EvaluateAuthTag.zeros = EvaluateAuthTag.ecbk := rfl

theorem AES_ivCounter :
    AES128.encryptBlock EvaluateRecord.key EvaluateAuthTag.ivCounter = EvaluateAuthTag.ecb0 := rfl

theorem AES_ctr32 :
    AES128.encryptBlock EvaluateRecord.key (EvaluateRecord.iv ++ be32 32) =
      EvaluateRecord.keystream0 := rfl

theorem AES_ctr33 :
    AES128.encryptBlock EvaluateRecord.key (EvaluateRecord.iv ++ be32 33) =
      EvaluateRecord.keystream1 := rfl

theorem Encrypt_zeros :
    AES128.Encrypt EvaluateRecord.key EvaluateAuthTag.zeros =
      some (EvaluateAuthTag.ecbk, true) := by
  rw [AES128_Encrypt_eq _ _ (by decide) (by decide), AES_zeros]

theorem Encrypt_ivCounter :
    AES128.Encrypt EvaluateRecord.key EvaluateAuthTag.ivCounter =
      some (EvaluateAuthTag.ecb0, true) := by
  rw [AES128_Encrypt_eq _ _ (by decide) (by decide), AES_ivCounter]

theorem Encrypt_keystream (i : Nat) (hi : i < 2) :
    AES128.Encrypt EvaluateRecord.key (EvaluateRecord.iv ++ be32 (32 + i)) =
      some (EvaluateRecord.keystream i, true) := by
  have hi2 : i = 0 ∨ i = 1 := by omega
  rcases hi2 with rfl | rfl
  · rw [AES128_Encrypt_eq _ _ (by decide) (by decide)]
    exact congrArg (fun x => some (x, true)) AES_ctr32
  · rw [AES128_Encrypt_eq _ _ (by decide) (by decide)]
    exact congrArg (fun x => some (x, true)) AES_ctr33

theorem sha_key : sha256.sumValue EvaluateRecord.key = EvaluateSessionCommit.tkCommit := rfl

theorem sha_dHS :
    sha256.writeReturnValue EvaluateSessionCommit.intermediateHashHSopad 64
      EvaluateSessionCommit.dHSinPadded = EvaluateSessionCommit.dHS := rfl

theorem sha_MS :
    sha256.sumValue (opadConcatValue EvaluateSessionCommit.dHS EvaluateSessionCommit.MSin) =
      EvaluateSessionCommit.MS := rfl

theorem sha_SATS :
    sha256.sumValue (opadConcatValue EvaluateSessionCommit.MS EvaluateSessionCommit.SATSin) =
      EvaluateSessionCommit.SATS := rfl

theorem sha_tkXAPP :
    sha256.sumValue (opadConcatValue EvaluateSessionCommit.SATS EvaluateSessionCommit.tkSAPPin) =
      EvaluateSessionCommit.tkXAPP := rfl

/-! ## Composition: record and authentication tag -/

theorem Circuit.andThen_assoc {α β γ : Type} (x : Circuit α) (f : α → Circuit β)
    (g : β → Circuit γ) :
    Circuit.andThen (Circuit.andThen x f) g =
      Circuit.andThen x (fun a => Circuit.andThen (f a) g) := by
  cases x with
  | none => rfl
  | some r =>
    obtain ⟨a, ok⟩ := r
    cases h1 : f a with
    | none => simp [Circuit.andThen, h1]
    | some r1 =>
      obtain ⟨b, ok1⟩ := r1
      cases h2 : g b with
      | none => simp [Circuit.andThen, h1, h2]
      | some r2 =>
        obtain ⟨c, ok2⟩ := r2
        simp [Circuit.andThen, h1, h2, Bool.and_assoc]

theorem Circuit.satisfied_andThen_of_eq {α β : Type} (x : Circuit α) (f : α → Circuit β)
    (a : α) (ok : Bool) (h : x = some (a, ok)) :
    (Circuit.andThen x f).satisfied = true ↔ ok = true ∧ (f a).satisfied = true := by
  rw [Circuit.satisfied_andThen, h]
  constructor
  · rintro ⟨a2, h1, h2⟩
    simp at h1
    obtain ⟨rfl, rfl⟩ := h1
    exact ⟨rfl, h2⟩
  · rintro ⟨rfl, h2⟩
    exact ⟨a, rfl, h2⟩

theorem Tls13Record_Assert_eq_parts (Encrypt : List Nat → List Nat → Circuit (List Nat))
    (c : Tls13Record) :
    Tls13Record.Assert Encrypt c =
      Circuit.andThen
        (AES128.GCM Encrypt c.Key c.Iv c.ChunkIndex c.PlainChunks c.CipherChunks)
        (fun _ => Circuit.andThen (Tls13Record.substringPart c)
          (fun _ => Tls13Record.thresholdPart c)) := by
  unfold Tls13Record.Assert Tls13Record.substringPart Tls13Record.thresholdPart
  simp only [Circuit.bind_def, Circuit.andThen_assoc]

theorem Tls13Record_Assert_satisfied (Encrypt : List Nat → List Nat → Circuit (List Nat))
    (c : Tls13Record) :
    (Tls13Record.Assert Encrypt c).satisfied = true ↔
      (AES128.GCM Encrypt c.Key c.Iv c.ChunkIndex c.PlainChunks c.CipherChunks).satisfied = true ∧
      (Tls13Record.substringPart c).satisfied = true ∧
      (Tls13Record.thresholdPart c).satisfied = true := by
  rw [Tls13Record_Assert_eq_parts, Circuit.satisfied_andThen_unit,
    Circuit.satisfied_andThen_unit]

/-- C2: the constraints emitted by `Tls13Record.Assert` are the GCM keystream
constraints, then `SubstringMatch` on `PlainChunks[SubstringStart:SubstringEnd]`,
then `GreaterThan(StringToInt(PlainChunks[ValueStart:ValueEnd]), Threshold)`; the
record circuit is satisfied if and only if all three parts are, and the wrapper
`RecordWrapper.Define` hands every field to the parameter of the same name. -/
theorem Tls13Record_Assert_conjunction (Encrypt : List Nat → List Nat → Circuit (List Nat))
    (c : Tls13Record) (w : RecordWrapper) :
    Tls13Record.Assert Encrypt c =
      (AES128.GCM Encrypt c.Key c.Iv c.ChunkIndex c.PlainChunks c.CipherChunks >>= fun _ =>
        (goSlice c.PlainChunks c.SubstringStart c.SubstringEnd >>= fun sub =>
          SubstringMatch c.Substring sub 0 c.Substring.length) >>= fun _ =>
        (goSlice c.PlainChunks c.ValueStart c.ValueEnd >>= fun v =>
          StringToInt v >>= fun n => GreaterThan n c.Threshold)) ∧
    ((Tls13Record.Assert Encrypt c).satisfied = true ↔
      (AES128.GCM Encrypt c.Key c.Iv c.ChunkIndex c.PlainChunks c.CipherChunks).satisfied = true ∧
      (goSlice c.PlainChunks c.SubstringStart c.SubstringEnd >>= fun sub =>
          SubstringMatch c.Substring sub 0 c.Substring.length).satisfied = true ∧
      (goSlice c.PlainChunks c.ValueStart c.ValueEnd >>= fun v =>
          StringToInt v >>= fun n => GreaterThan n c.Threshold).satisfied = true) ∧
    RecordWrapper.Define Encrypt w =
      Tls13Record.Assert Encrypt
        { Key := w.Key, PlainChunks := w.PlainChunks, Iv := w.Iv,
          CipherChunks := w.CipherChunks, ChunkIndex := w.ChunkIndex,
          Substring := w.Substring, SubstringStart := w.SubstringStart,
          SubstringEnd := w.SubstringEnd, ValueStart := w.ValueStart,
          ValueEnd := w.ValueEnd, Threshold := w.Threshold } := by
  refine ⟨?_, ?_, rfl⟩
  · exact Tls13Record_Assert_eq_parts Encrypt c
  · exact Tls13Record_Assert_satisfied Encrypt c

theorem assertEach_satisfied (xs ys : List Nat) :
    (Circuit.forEach (List.range xs.length) (fun i => do
        let a ← goIndex xs i
        let b ← goIndex ys i
        api.AssertIsEqual a b)).satisfied = true ↔
      ∀ i, i < xs.length → xs[i]? = ys[i]? := by
  have h := SubstringMatch_satisfied xs ys 0 0
  unfold SubstringMatch at h
  rw [h]
  constructor
  · intro h2 i hi; exact (h2 i hi).symm
  · intro h2 i hi; exact (h2 i hi).symm

theorem Tls13AuthTag_Assert_satisfied (Encrypt : List Nat → List Nat → Circuit (List Nat))
    (c : Tls13AuthTag) (e0 e1 : List Nat) (ok0 ok1 : Bool)
    (he0 : Encrypt c.Key c.Zeros = some (e0, ok0))
    (he1 : Encrypt c.Key c.IvCounter = some (e1, ok1)) :
    (Tls13AuthTag.Assert Encrypt c).satisfied = true ↔
      ok0 = true ∧ ok1 = true ∧ (∀ i, i < c.ECB0.length → c.ECB0[i]? = e0[i]?) ∧
        (∀ i, i < c.ECB1.length → c.ECB1[i]? = e1[i]?) := by
  unfold Tls13AuthTag.Assert
  simp only [Circuit.bind_def]
  rw [Circuit.satisfied_andThen_of_eq _ _ e0 ok0 he0, Circuit.satisfied_andThen_unit,
    Circuit.satisfied_andThen_of_eq _ _ e1 ok1 he1]
  have h0 := assertEach_satisfied c.ECB0 e0
  have h1 := assertEach_satisfied c.ECB1 e1
  simp only [Circuit.bind_def] at h0 h1
  rw [h0, h1]
  tauto

/-- C10: with `ECB0`, `ECB1` of the array length 16 and `Encrypt` returning the
blocks `e0` on `(Key, Zeros)` and `e1` on `(Key, IvCounter)`, the constraints
emitted by `Tls13AuthTag.Assert` hold if and only if the constraints of both
encryptions hold and `ECB0[i] = e0[i]`, `ECB1[i] = e1[i]` for every `i < 16`;
`AuthTagWrapper.Define` of package `gadgets` emits the same constraints on its
fields of the same names. -/
theorem Tls13AuthTag_Assert_iff (Encrypt : List Nat → List Nat → Circuit (List Nat))
    (w : gadgets.AuthTagWrapper) (e0 e1 : List Nat) (ok0 ok1 : Bool)
    (hlen0 : w.ECB0.length = 16) (hlen1 : w.ECB1.length = 16)
    (he0 : Encrypt w.Key w.Zeros = some (e0, ok0))
    (he1 : Encrypt w.Key w.IvCounter = some (e1, ok1)) :
    ((Tls13AuthTag.Assert Encrypt
        { Key := w.Key, IvCounter := w.IvCounter, Zeros := w.Zeros, ECB1 := w.ECB1,
          ECB0 := w.ECB0 }).satisfied = true ↔
      ok0 = true ∧ ok1 = true ∧
        ∀ i, i < 16 → w.ECB0[i]? = e0[i]? ∧ w.ECB1[i]? = e1[i]?) ∧
    gadgets.AuthTagWrapper.Define Encrypt w =
      Tls13AuthTag.Assert Encrypt
        { Key := w.Key, IvCounter := w.IvCounter, Zeros := w.Zeros, ECB1 := w.ECB1,
          ECB0 := w.ECB0 } := by
  refine ⟨?_, rfl⟩
  rw [Tls13AuthTag_Assert_satisfied Encrypt _ e0 e1 ok0 ok1 he0 he1]
  simp only [hlen0, hlen1]
  constructor
  · rintro ⟨h0, h1, h2, h3⟩
    exact ⟨h0, h1, fun i hi => ⟨h2 i hi, h3 i hi⟩⟩
  · rintro ⟨h0, h1, h2⟩
    exact ⟨h0, h1, fun i hi => (h2 i hi).1, fun i hi => (h2 i hi).2⟩

/-- C10, on the key, blocks and expected outputs of `EvaluateAuthTag`, the block
cipher being AES-128. -/
theorem Tls13AuthTag_Assert_iff_witness :
    (Tls13AuthTag.Assert AES128.Encrypt
        { Key := EvaluateRecord.key, IvCounter := EvaluateAuthTag.ivCounter,
          Zeros := EvaluateAuthTag.zeros, ECB1 := EvaluateAuthTag.ecb0,
          ECB0 := EvaluateAuthTag.ecbk }).satisfied = true ↔
      true = true ∧ true = true ∧
        ∀ i, i < 16 → EvaluateAuthTag.ecbk[i]? = EvaluateAuthTag.ecbk[i]? ∧
          EvaluateAuthTag.ecb0[i]? = EvaluateAuthTag.ecb0[i]? :=
  (Tls13AuthTag_Assert_iff AES128.Encrypt
    { Key := EvaluateRecord.key, IvCounter := EvaluateAuthTag.ivCounter,
      Zeros := EvaluateAuthTag.zeros, ECB1 := EvaluateAuthTag.ecb0,
      ECB0 := EvaluateAuthTag.ecbk }
    EvaluateAuthTag.ecbk EvaluateAuthTag.ecb0 true true (by decide) (by decide)
    Encrypt_zeros Encrypt_ivCounter).1

/-! ## Counter-mode keystream -/

theorem api_Xor_bits (x y : Nat) (hx : x ≤ 1) (hy : y ≤ 1) :
    api.Xor x y = some ((x + y) % 2, true) := by
  have hx2 : x = 0 ∨ x = 1 := by omega
  have hy2 : y = 0 ∨ y = 1 := by omega
  rcases hx2 with rfl | rfl <;> rcases hy2 with rfl | rfl <;> decide

theorem xor_bit (a b i : Nat) :
    (a / 2 ^ i % 2 + b / 2 ^ i % 2) % 2 = (a ^^^ b) / 2 ^ i % 2 := by
  rw [← Nat.toNat_testBit a i, ← Nat.toNat_testBit b i, ← Nat.toNat_testBit (a ^^^ b) i,
    Nat.testBit_xor]
  cases a.testBit i <;> cases b.testBit i <;> rfl

theorem goIndex_bits (v n i : Nat) (hi : i < n) :
    goIndex ((List.range n).map (fun i => v / 2 ^ i % 2)) i = some (v / 2 ^ i % 2, true) := by
  rw [goIndex_eq_of_lt _ i (by simpa using hi)]
  simp

theorem VariableXor_eq (a b n : Nat) (ha : a < 2 ^ n) (hb : b < 2 ^ n)
    (hn : 2 ^ n ≤ fieldModulus) : VariableXor a b n = some (a ^^^ b, true) := by
  unfold VariableXor
  simp only [Circuit.bind_def]
  unfold api.ToBinary
  rw [decide_eq_true ha, decide_eq_true hb, Circuit.andThen_some, Circuit.andThen_some]
  have hmap : Circuit.mapList (List.range n) (fun i =>
      Circuit.andThen (goIndex ((List.range n).map (fun i => a / 2 ^ i % 2)) i) (fun ba =>
        Circuit.andThen (goIndex ((List.range n).map (fun i => b / 2 ^ i % 2)) i) (fun bb =>
          api.Xor ba bb))) =
      some ((List.range n).map (fun i => (a ^^^ b) / 2 ^ i % 2), true) := by
    apply Circuit.mapList_eq_of_forall
    intro i hi
    have hi2 : i < n := List.mem_range.mp hi
    rw [goIndex_bits a n i hi2, Circuit.andThen_some, goIndex_bits b n i hi2,
      Circuit.andThen_some, api_Xor_bits _ _ (by omega) (by omega), xor_bit]
  rw [hmap, Circuit.andThen_some]
  unfold api.FromBinary
  have hlt : a ^^^ b < 2 ^ n := Nat.xor_lt_two_pow ha hb
  rw [packBits_bits, bits_all_le_one, Nat.mod_eq_of_lt hlt, Nat.mod_eq_of_lt (by omega)]

theorem goIndex_eq_getD (s : List Nat) (i : Nat) (h : i < s.length) :
    goIndex s i = some (s.getD i 0, true) := by
  rw [goIndex_eq_of_lt s i h, List.getD_eq_getElem?_getD, List.getElem?_eq_getElem h]
  rfl

theorem mapList_goIndex (s : List Nat) (off : Nat) (h : off + 16 ≤ s.length) :
    Circuit.mapList (List.range 16) (fun j => goIndex s (off + j)) =
      some ((List.range 16).map (fun j => s.getD (off + j) 0), true) := by
  apply Circuit.mapList_eq_of_forall
  intro j hj
  have hj2 : j < 16 := List.mem_range.mp hj
  exact goIndex_eq_getD s (off + j) (by omega)

theorem getD_map_range (f : Nat → Nat) (n i : Nat) (h : i < n) :
    ((List.range n).map f).getD i 0 = f i := by
  simp [List.getD_eq_getElem?_getD, List.getElem?_range h]

theorem Xor16_eq (a b : List Nat) (ha : a.length = 16) (hb : b.length = 16)
    (hab : IsBytes a) (hbb : IsBytes b) :
    AES128.Xor16 a b = some ((List.range 16).map (fun i => a.getD i 0 ^^^ b.getD i 0), true) := by
  unfold AES128.Xor16
  apply Circuit.mapList_eq_of_forall
  intro i hi
  have hi2 : i < 16 := List.mem_range.mp hi
  rw [Circuit.bind_def, goIndex_eq_getD a i (by omega), Circuit.andThen_some, Circuit.bind_def,
    goIndex_eq_getD b i (by omega), Circuit.andThen_some]
  unfold AES128.variableXor
  have hx : a.getD i 0 < 2 ^ 8 := by
    rw [List.getD_eq_getElem?_getD, List.getElem?_eq_getElem (by omega)]
    exact hab _ (List.getElem_mem _)
  have hy : b.getD i 0 < 2 ^ 8 := by
    rw [List.getD_eq_getElem?_getD, List.getElem?_eq_getElem (by omega)]
    exact hbb _ (List.getElem_mem _)
  exact VariableXor_eq _ _ 8 hx hy (by decide)

theorem api_Add_small (c i : Nat) (h : c + i < 2 ^ 32) : api.Add c i = c + i := by
  unfold api.Add
  apply Nat.mod_eq_of_lt
  have hp : (2 : Nat) ^ 32 < fieldModulus := by decide
  omega

theorem assertEach16_satisfied (f g : Nat → Nat) :
    (Circuit.forEach (List.range 16) (fun i =>
        Circuit.andThen (goIndex ((List.range 16).map f) i) (fun a =>
          Circuit.andThen (goIndex ((List.range 16).map g) i) (fun b =>
            api.AssertIsEqual a b)))).satisfied = true ↔
      ∀ j, j < 16 → f j = g j := by
  have h := assertEach_satisfied ((List.range 16).map f) ((List.range 16).map g)
  simp only [Circuit.bind_def, List.length_map, List.length_range] at h
  rw [h]
  constructor
  · intro h2 j hj
    have := h2 j hj
    simpa [List.getElem?_range hj] using this
  · intro h2 j hj
    simp [List.getElem?_range hj, h2 j hj]

theorem GCM_satisfied_getD (Encrypt : List Nat → List Nat → Circuit (List Nat))
    (key nonce : List Nat) (c : Nat) (pt ct : List Nat) (n : Nat) (ks : Nat → List Nat)
    (hpt : pt.length = 16 * n) (hct : ct.length = 16 * n) (hptb : IsBytes pt)
    (hc : c + n ≤ 2 ^ 32)
    (hEnc : ∀ i, i < n → Encrypt key (nonce ++ be32 (c + i)) = some (ks i, true) ∧
      (ks i).length = 16 ∧ IsBytes (ks i)) :
    (AES128.GCM Encrypt key nonce c pt ct).satisfied = true ↔
      ∀ i, i < n → ∀ j, j < 16 →
        ct.getD (i * 16 + j) 0 = (ks i).getD j 0 ^^^ pt.getD (i * 16 + j) 0 := by
  unfold AES128.GCM
  have hn : pt.length / 16 = n := by omega
  rw [Circuit.satisfied_forEach]
  dsimp only
  rw [hn]
  refine forall_congr' (fun epoch => ?_)
  rw [List.mem_range]
  refine imp_congr_right (fun hep => ?_)
  obtain ⟨hks, hkl, hkb⟩ := hEnc epoch hep
  have hblockb : IsBytes ((List.range 16).map (fun j => pt.getD (epoch * 16 + j) 0)) := by
    intro x hx
    obtain ⟨j, hj, rfl⟩ := List.mem_map.mp hx
    have hj2 : j < 16 := List.mem_range.mp hj
    rw [List.getD_eq_getElem?_getD, List.getElem?_eq_getElem (by omega)]
    exact hptb _ (List.getElem_mem _)
  simp only [Circuit.bind_def]
  rw [mapList_goIndex pt (epoch * 16) (by omega), Circuit.andThen_some,
    mapList_goIndex ct (epoch * 16) (by omega), Circuit.andThen_some,
    api_Add_small c epoch (by omega), AES128.GetIV_eq nonce (c + epoch) (by omega),
    Circuit.andThen_some, hks, Circuit.andThen_some,
    Xor16_eq (ks epoch) _ hkl (by simp) hkb hblockb, Circuit.andThen_some,
    assertEach16_satisfied]
  refine forall_congr' (fun j => ?_)
  refine imp_congr_right (fun hj => ?_)
  rw [getD_map_range _ 16 j hj]

theorem ctrCiphertext_length (ks : Nat → List Nat) (pt : List Nat) :
    (ctrCiphertext ks pt).length = pt.length := by
  simp [ctrCiphertext]

theorem ctrCiphertext_getD (ks : Nat → List Nat) (pt : List Nat) (k : Nat) (h : k < pt.length) :
    (ctrCiphertext ks pt).getD k 0 = (ks (k / 16)).getD (k % 16) 0 ^^^ pt.getD k 0 := by
  unfold ctrCiphertext
  rw [getD_map_range _ _ k h]

theorem blockwise_iff_eq_ctrCiphertext (ks : Nat → List Nat) (pt ct : List Nat) (n : Nat)
    (hpt : pt.length = 16 * n) (hct : ct.length = 16 * n) :
    (∀ i, i < n → ∀ j, j < 16 →
        ct.getD (i * 16 + j) 0 = (ks i).getD j 0 ^^^ pt.getD (i * 16 + j) 0) ↔
      ct = ctrCiphertext ks pt := by
  constructor
  · intro h
    apply List.ext_getElem
    · rw [ctrCiphertext_length, hpt, hct]
    · intro k h1 h2
      have hk : k < 16 * n := by omega
      have e1 : ct[k] = ct.getD k 0 := by
        rw [List.getD_eq_getElem?_getD, List.getElem?_eq_getElem h1]; rfl
      have e2 : (ctrCiphertext ks pt)[k] = (ctrCiphertext ks pt).getD k 0 := by
        rw [List.getD_eq_getElem?_getD, List.getElem?_eq_getElem h2]; rfl
      rw [e1, e2, ctrCiphertext_getD ks pt k (by omega)]
      have hdiv : k / 16 < n := by omega
      have hmod : k % 16 < 16 := Nat.mod_lt _ (by decide)
      have hk2 : k / 16 * 16 + k % 16 = k := by omega
      have := h (k / 16) hdiv (k % 16) hmod
      rw [hk2] at this
      exact this
  · intro h i hi j hj
    have hk : i * 16 + j < pt.length := by omega
    have hdiv : (i * 16 + j) / 16 = i := by omega
    have hmod : (i * 16 + j) % 16 = j := by omega
    rw [h, ctrCiphertext_getD ks pt _ hk, hdiv, hmod]

theorem keystreamBlock_eq (Encrypt : List Nat → List Nat → Circuit (List Nat))
    (key nonce : List Nat) (c i : Nat) (hc : c + i < 2 ^ 32) :
    keystreamBlock Encrypt key nonce c i =
      (Encrypt key (nonce ++ be32 (c + i))).result [] := by
  unfold keystreamBlock
  rw [AES128.GetIV_eq nonce (c + i) hc]
  rfl

theorem getD_set_self (l : List Nat) (k v : Nat) (h : k < l.length) :
    (l.set k v).getD k 0 = v := by
  simp [List.getD_eq_getElem?_getD, List.getElem?_set, h]

/-- C1: for plaintext and ciphertext of length `16 * n`, plaintext bytes below 256,
`c + n ≤ 2^32` and a block cipher that returns a 16-byte block with its own
constraints satisfied on every counter block used, the assertions emitted by
`AES128.GCM` all hold if and only if
`ciphertext[16i+j] = Encrypt(key, GetIV(nonce, c+i))[j] XOR plaintext[16i+j]` for
every block `i < n` and `j < 16`; exactly one ciphertext of that length is
accepted, and flipping any single bit of an accepted ciphertext makes the
constraints unsatisfied. -/
theorem GCM_keystream_iff (Encrypt : List Nat → List Nat → Circuit (List Nat))
    (key nonce : List Nat) (c : Nat) (pt ct : List Nat) (n : Nat)
    (hpt : pt.length = 16 * n) (hct : ct.length = 16 * n) (hptb : IsBytes pt)
    (hc : c + n ≤ 2 ^ 32)
    (hEnc : ∀ i, i < n → ∃ ks : List Nat,
      Encrypt key ((AES128.GetIV nonce (c + i)).result []) = some (ks, true) ∧
        ks.length = 16 ∧ IsBytes ks) :
    ((AES128.GCM Encrypt key nonce c pt ct).satisfied = true ↔
      ∀ i, i < n → ∀ j, j < 16 →
        ct.getD (16 * i + j) 0 =
          (keystreamBlock Encrypt key nonce c i).getD j 0 ^^^ pt.getD (16 * i + j) 0) ∧
    (∃! ct2 : List Nat, ct2.length = 16 * n ∧
      (AES128.GCM Encrypt key nonce c pt ct2).satisfied = true) ∧
    (∀ k b, k < 16 * n → (AES128.GCM Encrypt key nonce c pt ct).satisfied = true →
      (AES128.GCM Encrypt key nonce c pt (ct.set k (ct.getD k 0 ^^^ 2 ^ b))).satisfied
        = false) := by
  have hks : ∀ i, i < n →
      Encrypt key (nonce ++ be32 (c + i)) = some (keystreamBlock Encrypt key nonce c i, true) ∧
        (keystreamBlock Encrypt key nonce c i).length = 16 ∧
        IsBytes (keystreamBlock Encrypt key nonce c i) := by
    intro i hi
    obtain ⟨ks, h1, h2, h3⟩ := hEnc i hi
    rw [AES128.GetIV_eq nonce (c + i) (by omega)] at h1
    have h1b : Encrypt key (nonce ++ be32 (c + i)) = some (ks, true) := h1
    have hk : keystreamBlock Encrypt key nonce c i = ks := by
      rw [keystreamBlock_eq Encrypt key nonce c i (by omega), h1b]
      rfl
    rw [hk]
    exact ⟨h1b, h2, h3⟩
  have hsat : ∀ ct2 : List Nat, ct2.length = 16 * n →
      ((AES128.GCM Encrypt key nonce c pt ct2).satisfied = true ↔
        ct2 = ctrCiphertext (keystreamBlock Encrypt key nonce c) pt) := by
    intro ct2 h2
    rw [GCM_satisfied_getD Encrypt key nonce c pt ct2 n (keystreamBlock Encrypt key nonce c)
      hpt h2 hptb hc hks]
    exact blockwise_iff_eq_ctrCiphertext _ pt ct2 n hpt h2
  refine ⟨?_, ?_, ?_⟩
  · rw [GCM_satisfied_getD Encrypt key nonce c pt ct n (keystreamBlock Encrypt key nonce c)
      hpt hct hptb hc hks]
    refine forall_congr' (fun i => imp_congr_right (fun _ => forall_congr' (fun j =>
      imp_congr_right (fun _ => ?_))))
    rw [Nat.mul_comm i 16]
  · refine ⟨ctrCiphertext (keystreamBlock Encrypt key nonce c) pt, ⟨?_, ?_⟩, ?_⟩
    · rw [ctrCiphertext_length, hpt]
    · exact (hsat _ (by rw [ctrCiphertext_length, hpt])).mpr rfl
    · rintro ct2 ⟨h1, h2⟩
      exact (hsat ct2 h1).mp h2
  · intro k b hk hs
    have e1 := (hsat ct hct).mp hs
    rw [Bool.eq_false_iff]
    intro hs2
    have hlen : (ct.set k (ct.getD k 0 ^^^ 2 ^ b)).length = 16 * n := by
      rw [List.length_set, hct]
    have e2 := (hsat _ hlen).mp hs2
    have e3 : (ct.set k (ct.getD k 0 ^^^ 2 ^ b)).getD k 0 = ct.getD k 0 := by
      rw [e2, ← e1]
    rw [getD_set_self ct k _ (by omega)] at e3
    have e4 : ct.getD k 0 ^^^ 2 ^ b = ct.getD k 0 ^^^ 0 := by
      rw [e3, Nat.xor_zero]
    have e5 := Nat.xor_right_inj.mp e4
    have : 0 < 2 ^ b := Nat.pow_pos (by decide)
    omega

/-- C1, on the evaluation scenario: two blocks, chunk index 32, the block cipher
being AES-128. -/
theorem GCM_keystream_iff_witness :
    (AES128.GCM AES128.Encrypt EvaluateRecord.key EvaluateRecord.iv 32
        EvaluateRecord.plainChunks EvaluateRecord.chipherChunks).satisfied = true ↔
      ∀ i, i < 2 → ∀ j, j < 16 →
        EvaluateRecord.chipherChunks.getD (16 * i + j) 0 =
          (keystreamBlock AES128.Encrypt EvaluateRecord.key EvaluateRecord.iv 32 i).getD j 0
            ^^^ EvaluateRecord.plainChunks.getD (16 * i + j) 0 :=
  (GCM_keystream_iff AES128.Encrypt EvaluateRecord.key EvaluateRecord.iv 32
    EvaluateRecord.plainChunks EvaluateRecord.chipherChunks 2 (by decide) (by decide)
    (by decide) (by decide)
    (fun i hi => by
      refine ⟨EvaluateRecord.keystream i, ?_, ?_, ?_⟩
      · rw [AES128.GetIV_eq EvaluateRecord.iv (32 + i) (by omega)]
        exact Encrypt_keystream i hi
      · have hi2 : i = 0 ∨ i = 1 := by omega
        rcases hi2 with rfl | rfl <;> decide
      · have hi2 : i = 0 ∨ i = 1 := by omega
        rcases hi2 with rfl | rfl <;> decide)).1

/-! ## The end-to-end record scenario -/

theorem EvaluateRecord_GCM_satisfied :
    (AES128.GCM AES128.Encrypt EvaluateRecord.key EvaluateRecord.iv 32
      EvaluateRecord.plainChunks EvaluateRecord.chipherChunks).satisfied = true := by
  rw [GCM_satisfied_getD AES128.Encrypt EvaluateRecord.key EvaluateRecord.iv 32
    EvaluateRecord.plainChunks EvaluateRecord.chipherChunks 2 EvaluateRecord.keystream
    (by decide) (by decide) (by decide) (by decide)
    (fun i hi => by
      refine ⟨Encrypt_keystream i hi, ?_, ?_⟩
      · have hi2 : i = 0 ∨ i = 1 := by omega
        rcases hi2 with rfl | rfl <;> decide
      · have hi2 : i = 0 ∨ i = 1 := by omega
        rcases hi2 with rfl | rfl <;> decide)]
  decide

theorem EvaluateRecord_substring_satisfied :
    (goSlice EvaluateRecord.plainChunks 13 20 >>= fun sub =>
      SubstringMatch EvaluateRecord.substring sub 0
        EvaluateRecord.substring.length).satisfied = true := by
  decide

theorem EvaluateRecord_value :
    (goSlice EvaluateRecord.plainChunks 23 28 >>= StringToInt) = some (80018, true) := by
  decide

theorem EvaluateRecord_satisfied_iff (Encrypt : List Nat → List Nat → Circuit (List Nat))
    (threshold : Nat) :
    (Tls13Record.Assert Encrypt (EvaluateRecord.assignment threshold)).satisfied = true ↔
      (AES128.GCM Encrypt EvaluateRecord.key EvaluateRecord.iv 32 EvaluateRecord.plainChunks
        EvaluateRecord.chipherChunks).satisfied = true ∧ threshold ≤ 80018 := by
  rw [Tls13Record_Assert_satisfied]
  have h2 : (Tls13Record.substringPart (EvaluateRecord.assignment threshold)).satisfied
      = true := EvaluateRecord_substring_satisfied
  have h3 : Tls13Record.thresholdPart (EvaluateRecord.assignment threshold) =
      Circuit.andThen (goSlice EvaluateRecord.plainChunks 23 28 >>= StringToInt)
        (fun n => GreaterThan n threshold) := by
    unfold Tls13Record.thresholdPart
    simp only [Circuit.bind_def, Circuit.andThen_assoc]
    rfl
  rw [h3, EvaluateRecord_value, Circuit.andThen_some, GreaterThan_eq, h2]
  have h1 : (AES128.GCM Encrypt (EvaluateRecord.assignment threshold).Key
      (EvaluateRecord.assignment threshold).Iv (EvaluateRecord.assignment threshold).ChunkIndex
      (EvaluateRecord.assignment threshold).PlainChunks
      (EvaluateRecord.assignment threshold).CipherChunks) =
      AES128.GCM Encrypt EvaluateRecord.key EvaluateRecord.iv 32 EvaluateRecord.plainChunks
        EvaluateRecord.chipherChunks := rfl
  rw [h1]
  simp [Circuit.satisfied]

/-- C3: in the end-to-end scenario of `EvaluateRecord` (threshold 38003), with AES-128
as block cipher, every constraint of the record circuit is satisfied; in
particular `plaintext[13:20]` is the substring byte for byte and
`38003 ≤ StringToInt(plaintext[23:28])`, the latter being 80018. -/
theorem EvaluateRecord_satisfied :
    (Tls13Record.Assert AES128.Encrypt (EvaluateRecord.assignment 38003)).satisfied = true ∧
    goSlice EvaluateRecord.plainChunks 13 20 = some (EvaluateRecord.substring, true) ∧
    (goSlice EvaluateRecord.plainChunks 23 28 >>= StringToInt) = some (80018, true) ∧
    (38003 : Nat) ≤ 80018 := by
  refine ⟨?_, ?_, EvaluateRecord_value, ?_⟩
  · exact (EvaluateRecord_satisfied_iff AES128.Encrypt 38003).mpr
      ⟨EvaluateRecord_GCM_satisfied, by decide⟩
  · decide
  · decide

/-- C4 (counterexample): with the threshold raised to 38004 the threshold comparison
of the scenario still holds, `StringToInt(plaintext[23:28])` being 80018, and
with AES-128 as block cipher the whole record circuit is still satisfied. -/
theorem EvaluateRecord_38004_satisfied :
    (Tls13Record.thresholdPart (EvaluateRecord.assignment 38004)).satisfied = true ∧
    (goSlice EvaluateRecord.plainChunks 23 28 >>= StringToInt) = some (80018, true) ∧
    (Tls13Record.Assert AES128.Encrypt (EvaluateRecord.assignment 38004)).satisfied = true := by
  refine ⟨?_, EvaluateRecord_value, ?_⟩
  · decide
  · exact (EvaluateRecord_satisfied_iff AES128.Encrypt 38004).mpr
      ⟨EvaluateRecord_GCM_satisfied, by decide⟩

/-- C4 (amended): in the scenario, `StringToInt(plaintext[23:28])` is 80018 (the
range holds the bytes `8002.`), so for every block cipher the record circuit
with threshold `T` is satisfied if and only if the GCM constraints hold and
`T ≤ 80018`: raising the threshold from 38003 to 38004 changes nothing, and
from 80019 on the threshold comparison fails and the circuit is unsatisfied. -/
theorem EvaluateRecord_threshold_boundary :
    (∀ (Encrypt : List Nat → List Nat → Circuit (List Nat)) (threshold : Nat),
      ((Tls13Record.Assert Encrypt (EvaluateRecord.assignment threshold)).satisfied = true ↔
        (AES128.GCM Encrypt EvaluateRecord.key EvaluateRecord.iv 32
          EvaluateRecord.plainChunks EvaluateRecord.chipherChunks).satisfied = true ∧
        threshold ≤ 80018)) ∧
    (∀ Encrypt : List Nat → List Nat → Circuit (List Nat),
      (Tls13Record.Assert Encrypt (EvaluateRecord.assignment 38004)).satisfied =
        (Tls13Record.Assert Encrypt (EvaluateRecord.assignment 38003)).satisfied) ∧
    (∀ threshold : Nat,
      ((Tls13Record.thresholdPart (EvaluateRecord.assignment threshold)).satisfied = true ↔
        threshold ≤ 80018)) ∧
    (∀ Encrypt : List Nat → List Nat → Circuit (List Nat),
      (Tls13Record.Assert Encrypt (EvaluateRecord.assignment 80019)).satisfied = false) := by
  refine ⟨EvaluateRecord_satisfied_iff, ?_, ?_, ?_⟩
  · intro Encrypt
    rw [Bool.eq_iff_iff, EvaluateRecord_satisfied_iff, EvaluateRecord_satisfied_iff]
    simp
  · intro threshold
    have h3 : Tls13Record.thresholdPart (EvaluateRecord.assignment threshold) =
        Circuit.andThen (goSlice EvaluateRecord.plainChunks 23 28 >>= StringToInt)
          (fun n => GreaterThan n threshold) := by
      unfold Tls13Record.thresholdPart
      simp only [Circuit.bind_def, Circuit.andThen_assoc]
      rfl
    rw [h3, EvaluateRecord_value, Circuit.andThen_some, GreaterThan_eq]
    simp [Circuit.satisfied]
  · intro Encrypt
    rw [Bool.eq_false_iff]
    intro h
    have := ((EvaluateRecord_satisfied_iff Encrypt 80019).mp h).2
    omega

/-! ## Opad helpers -/

theorem mapList_goIndex_all (s : List Nat) (n : Nat) (h : s.length = n) :
    Circuit.mapList (List.range n) (fun i => goIndex s i) = some (s, true) := by
  have h1 : Circuit.mapList (List.range n) (fun i => goIndex s i) =
      some ((List.range n).map (fun i => s.getD i 0), true) := by
    apply Circuit.mapList_eq_of_forall
    intro i hi
    exact goIndex_eq_getD s i (by rw [h]; exact List.mem_range.mp hi)
  rw [h1]
  have h2 : (List.range n).map (fun i => s.getD i 0) = s := by
    apply List.ext_getElem
    · simp [h]
    · intro i hi1 hi2
      simp [List.getD_eq_getElem?_getD, List.getElem?_eq_getElem hi2]
  rw [h2]

theorem mapList_xor_const (s : List Nat) (n c : Nat) (h : s.length = n) (hb : IsBytes s)
    (hc : c < 2 ^ 8) :
    Circuit.mapList (List.range n) (fun i => do
        let p ← goIndex s i
        VariableXor p c 8) = some (s.map (fun b => b ^^^ c), true) := by
  have h1 : Circuit.mapList (List.range n) (fun i => do
        let p ← goIndex s i
        VariableXor p c 8) =
      some ((List.range n).map (fun i => s.getD i 0 ^^^ c), true) := by
    apply Circuit.mapList_eq_of_forall
    intro i hi
    have hi2 : i < s.length := by rw [h]; exact List.mem_range.mp hi
    rw [Circuit.bind_def, goIndex_eq_getD s i hi2, Circuit.andThen_some]
    have hx : s.getD i 0 < 2 ^ 8 := by
      rw [List.getD_eq_getElem?_getD, List.getElem?_eq_getElem hi2]
      exact hb _ (List.getElem_mem _)
    exact VariableXor_eq _ _ 8 hx hc (by decide)
  rw [h1]
  have h2 : (List.range n).map (fun i => s.getD i 0 ^^^ c) = s.map (fun b => b ^^^ c) := by
    apply List.ext_getElem
    · simp [h]
    · intro i hi1 hi2
      have hi3 : i < s.length := by simpa using hi2
      simp [List.getD_eq_getElem?_getD, List.getElem?_eq_getElem hi3]
  rw [h2]

theorem IsBytes_append (a b : List Nat) (ha : IsBytes a) (hb : IsBytes b) : IsBytes (a ++ b) := by
  intro x hx
  rcases List.mem_append.mp hx with h | h
  · exact ha x h
  · exact hb x h

theorem IsBytes_replicate (n v : Nat) (hv : v < 256) : IsBytes (List.replicate n v) := by
  intro x hx
  rw [(List.mem_replicate.mp hx).2]
  exact hv

theorem ZeroPadOpad_eq (inp : List Nat) (h : inp.length = 32) (hb : IsBytes inp) :
    ZeroPadOpad inp = some (inp.map (fun b => b ^^^ 0x5c) ++ List.replicate 32 0x5c, true) := by
  unfold ZeroPadOpad
  rw [Circuit.bind_def, mapList_goIndex_all inp 32 h, Circuit.andThen_some]
  rw [mapList_xor_const (inp ++ List.replicate 32 0) 64 0x5c (by simp [h])
    (IsBytes_append _ _ hb (IsBytes_replicate 32 0 (by decide))) (by decide)]
  simp

theorem OpadConcat_eq (inp1 inp2 : List Nat) (h1 : inp1.length = 32) (h2 : inp2.length = 32)
    (hb : IsBytes inp1) : OpadConcat inp1 inp2 = some (opadConcatValue inp1 inp2, true) := by
  unfold OpadConcat
  simp only [Circuit.bind_def]
  rw [mapList_goIndex_all inp1 32 h1, Circuit.andThen_some]
  have hx := mapList_xor_const (inp1 ++ List.replicate 32 0) 64 0x5c (by simp [h1])
    (IsBytes_append _ _ hb (IsBytes_replicate 32 0 (by decide))) (by decide)
  simp only [Circuit.bind_def] at hx
  rw [hx, Circuit.andThen_some, mapList_goIndex_all inp2 32 h2, Circuit.andThen_some]
  simp [opadConcatValue, Circuit.pure_def, Circuit.ret]

/-- C16: for 32-entry inputs with `inp1` made of bytes, `OpadConcat(inp1, inp2)`
returns exactly 96 values with `out[i] = inp1[i] XOR 0x5c` for `i < 32`,
`out[i] = 0x5c` for `32 ≤ i < 64` and `out[64+k] = inp2[k]` for `k < 32`, all its
constraints satisfied; its first 64 values are `ZeroPadOpad(inp1)`. -/
theorem OpadConcat_layout (inp1 inp2 : List Nat) (h1 : inp1.length = 32)
    (h2 : inp2.length = 32) (hb : IsBytes inp1) :
    ∃ out : List Nat, OpadConcat inp1 inp2 = some (out, true) ∧ out.length = 96 ∧
      (∀ i, i < 32 → out[i]? = some (inp1.getD i 0 ^^^ 0x5c)) ∧
      (∀ i, 32 ≤ i → i < 64 → out[i]? = some 0x5c) ∧
      (∀ k, k < 32 → out[64 + k]? = inp2[k]?) ∧
      ZeroPadOpad inp1 = some (out.take 64, true) := by
  refine ⟨opadConcatValue inp1 inp2, OpadConcat_eq inp1 inp2 h1 h2 hb, ?_, ?_, ?_, ?_, ?_⟩
  · simp [opadConcatValue, h1, h2]
  · intro i hi
    unfold opadConcatValue
    rw [List.append_assoc, List.getElem?_append_left (by simpa [h1] using hi)]
    simp [List.getD_eq_getElem?_getD, List.getElem?_eq_getElem (by omega : i < inp1.length)]
  · intro i hi1 hi2
    unfold opadConcatValue
    rw [List.append_assoc, List.getElem?_append_right (by simpa [h1] using hi1),
      List.getElem?_append_left (by simp [h1]; omega)]
    simp only [List.length_map, h1]
    rw [List.getElem?_replicate, if_pos (by omega)]
  · intro k hk
    unfold opadConcatValue
    rw [List.getElem?_append_right (by simp [h1])]
    simp [h1]
  · rw [ZeroPadOpad_eq inp1 h1 hb]
    unfold opadConcatValue
    rw [List.take_left' (by simp [h1])]

/-- C16, on the `dHS` and `MSin` of the session-commit scenario. -/
theorem OpadConcat_layout_witness :
    ∃ out : List Nat,
      OpadConcat EvaluateSessionCommit.dHS EvaluateSessionCommit.MSin = some (out, true) ∧
      out.length = 96 ∧
      (∀ i, i < 32 → out[i]? = some (EvaluateSessionCommit.dHS.getD i 0 ^^^ 0x5c)) ∧
      (∀ i, 32 ≤ i → i < 64 → out[i]? = some 0x5c) ∧
      (∀ k, k < 32 → out[64 + k]? = EvaluateSessionCommit.MSin[k]?) ∧
      ZeroPadOpad EvaluateSessionCommit.dHS = some (out.take 64, true) :=
  OpadConcat_layout EvaluateSessionCommit.dHS EvaluateSessionCommit.MSin (by decide)
    (by decide) (by decide)

/-! ## Resumed hashing -/

theorem chunks_append (n m : Nat) (pre rest : List Nat) (h : pre.length = 64 * n) :
    sha256.chunks (n + m) (pre ++ rest) = sha256.chunks n pre ++ sha256.chunks m rest := by
  induction n generalizing pre with
  | zero =>
    have hnil : pre = [] := List.length_eq_zero.mp (by simpa using h)
    simp [hnil, sha256.chunks]
  | succ n ih =>
    have hlen : 64 ≤ pre.length := by omega
    rw [Nat.add_right_comm, sha256.chunks, sha256.chunks]
    rw [List.take_append_of_le_length hlen, List.drop_append_of_le_length hlen]
    rw [ih (pre.drop 64) (by rw [List.length_drop]; omega)]
    rfl

theorem blocks_append (pre rest : List Nat) (h : pre.length % 64 = 0) :
    sha256.blocks (pre ++ rest) = sha256.blocks pre ++ sha256.blocks rest := by
  unfold sha256.blocks
  have h1 : pre.length = 64 * (pre.length / 64) := by omega
  have h2 : (pre ++ rest).length / 64 = pre.length / 64 + rest.length / 64 := by
    rw [List.length_append]
    omega
  rw [h2, chunks_append _ _ pre rest h1]

theorem absorb_append (st pre rest : List Nat) (h : pre.length % 64 = 0) :
    sha256.absorb st (pre ++ rest) = sha256.absorb (sha256.absorb st pre) rest := by
  unfold sha256.absorb
  rw [blocks_append pre rest h, List.foldl_append]

theorem padWith_add (a b bits : Nat) (h : a % 64 = 0) : padWith (a + b) bits = padWith b bits := by
  unfold padWith padZeroLen
  have : (a + b) % 64 = b % 64 := by omega
  rw [this]

theorem wordsOfBytes_bytesOfWords (ws : List Nat) (h : ∀ w ∈ ws, w < 2 ^ 32) :
    sha256.wordsOfBytes (sha256.bytesOfWords ws) = ws := by
  induction ws with
  | nil => rfl
  | cons w rest ih =>
    have hw : w < 2 ^ 32 := h w (by simp)
    rw [sha256.bytesOfWords, sha256.wordsOfBytes, ih (fun x hx => h x (by simp [hx]))]
    congr 1
    norm_num at hw ⊢
    omega

theorem compress_lt (st block : List Nat) : ∀ w ∈ sha256.compress st block, w < 2 ^ 32 := by
  intro w hw
  unfold sha256.compress at hw
  simp only [List.mem_iff_getElem, List.getElem_zipWith] at hw
  obtain ⟨i, _, rfl⟩ := hw
  exact Nat.mod_lt _ (by decide)

theorem foldl_compress_lt (bs : List (List Nat)) :
    ∀ st : List Nat, (∀ w ∈ st, w < 2 ^ 32) → ∀ w ∈ bs.foldl sha256.compress st, w < 2 ^ 32 := by
  induction bs with
  | nil => intro st h; simpa using h
  | cons b rest ih =>
    intro st _
    rw [List.foldl_cons]
    exact ih _ (compress_lt st b)

theorem initState_lt : ∀ w ∈ sha256.initState, w < 2 ^ 32 := by decide

theorem sumWithIV_eq_sum (pre suf : List Nat) (h : pre.length % 64 = 0) :
    sha256.sumWithIVValue (sha256.stateAfter pre) (8 * (pre.length + suf.length)) suf =
      sha256.sumValue (pre ++ suf) := by
  unfold sha256.sumWithIVValue sha256.sumValue sha256.finish sha256.stateAfter
  have hlt : ∀ w ∈ sha256.absorb sha256.initState pre, w < 2 ^ 32 :=
    foldl_compress_lt _ _ initState_lt
  rw [wordsOfBytes_bytesOfWords _ hlt]
  rw [List.append_assoc, absorb_append _ pre _ h, List.length_append,
    padWith_add _ _ _ h, Nat.mul_comm]

theorem round_length (v : List Nat) (k w : Nat) : (sha256.round v k w).length = 8 := rfl

theorem rounds_length (l : List (Nat × Nat)) :
    ∀ v : List Nat, v.length = 8 → (sha256.rounds l v).length = 8 := by
  induction l with
  | nil => intro v h; exact h
  | cons kw rest ih =>
    intro v _
    obtain ⟨k, w⟩ := kw
    rw [sha256.rounds]
    exact ih _ (round_length v k w)

theorem compress_length (st block : List Nat) (h : st.length = 8) :
    (sha256.compress st block).length = 8 := by
  unfold sha256.compress
  simp [h, rounds_length _ st h]

theorem absorb_length (data : List Nat) (st : List Nat) (h : st.length = 8) :
    (sha256.absorb st data).length = 8 := by
  unfold sha256.absorb
  generalize sha256.blocks data = bs
  induction bs generalizing st with
  | nil => exact h
  | cons b rest ih =>
    rw [List.foldl_cons]
    exact ih _ (compress_length st b h)

theorem bytesOfWords_length (ws : List Nat) : (sha256.bytesOfWords ws).length = 4 * ws.length := by
  induction ws with
  | nil => rfl
  | cons w rest ih =>
    rw [sha256.bytesOfWords]
    simp [ih]
    omega

theorem sumValue_length (data : List Nat) : (sha256.sumValue data).length = 32 := by
  unfold sha256.sumValue sha256.finish
  rw [bytesOfWords_length, absorb_length _ _ (by rfl)]

/-- C20: for a prefix whose length is a multiple of 64 bytes and any suffix, the
SHA-256 gadget started with `NewWithIV` from the intermediate state reached
after compressing the prefix, with the total bit length, yields on the suffix
the same 32-byte digest as `New()` on prefix followed by suffix; with state
`5113c2d6...0858b12f` and padded input `dbd41fab...21a13b6b` the resumed
compression yields `383a9157...ca43ffa9`, which satisfies `Shacal2Wrapper`. -/
theorem sha256_resume (pre suf : List Nat) (h : pre.length % 64 = 0) :
    sha256.sumWithIVValue (sha256.stateAfter pre) (8 * (pre.length + suf.length)) suf =
      sha256.sumValue (pre ++ suf) ∧
    (sha256.sumValue (pre ++ suf)).length = 32 ∧
    sha256.writeReturnValue EvaluateSessionCommit.intermediateHashHSopad 64
      EvaluateSessionCommit.dHSinPadded = EvaluateSessionCommit.dHS ∧
    sha256.sumWithIVValue EvaluateSessionCommit.intermediateHashHSopad (8 * 96)
      EvaluateSessionCommit.dHSin = EvaluateSessionCommit.dHS ∧
    (Shacal2Wrapper.Define sha256.WriteReturn
      { DHSin := EvaluateSessionCommit.dHSinPadded,
        IntermediateHashHSopad := EvaluateSessionCommit.intermediateHashHSopad,
        DHS := EvaluateSessionCommit.dHS }).satisfied = true := by
  refine ⟨sumWithIV_eq_sum pre suf h, sumValue_length _, sha_dHS, ?_, ?_⟩
  · have e : sha256.sumWithIVValue EvaluateSessionCommit.intermediateHashHSopad (8 * 96)
        EvaluateSessionCommit.dHSin =
        sha256.writeReturnValue EvaluateSessionCommit.intermediateHashHSopad 64
          EvaluateSessionCommit.dHSinPadded := by
      unfold sha256.sumWithIVValue sha256.finish sha256.writeReturnValue
      rfl
    rw [e, sha_dHS]
  · unfold Shacal2Wrapper.Define
    dsimp only
    rw [Circuit.bind_def, sha256_WriteReturn_eq _ _ _ (by decide) (by decide), sha_dHS,
      Circuit.andThen_some]
    decide

/-- C20, on the second key-schedule step of the scenario: the prefix is the 64-byte
block `dHS XOR opad`, the suffix is `MSin`. -/
theorem sha256_resume_witness :
    sha256.sumWithIVValue
        (sha256.stateAfter (EvaluateSessionCommit.dHS.map (fun b => b ^^^ 0x5c) ++
          List.replicate 32 0x5c))
        (8 * ((EvaluateSessionCommit.dHS.map (fun b => b ^^^ 0x5c) ++
          List.replicate 32 0x5c).length + EvaluateSessionCommit.MSin.length))
        EvaluateSessionCommit.MSin =
      sha256.sumValue ((EvaluateSessionCommit.dHS.map (fun b => b ^^^ 0x5c) ++
        List.replicate 32 0x5c) ++ EvaluateSessionCommit.MSin) :=
  (sha256_resume (EvaluateSessionCommit.dHS.map (fun b => b ^^^ 0x5c) ++
    List.replicate 32 0x5c) EvaluateSessionCommit.MSin (by decide)).1

/-! ## Key schedule -/

theorem Circuit.andThen_some_ok {α β : Type} (a : α) (ok : Bool) (f : α → Circuit β) :
    Circuit.andThen (some (a, ok)) f = Circuit.withOk ok (f a) := by
  unfold Circuit.andThen Circuit.withOk
  cases h : f a with
  | none => simp [h]
  | some r => simp [h]

theorem Circuit.withOk_some {α : Type} (ok ok2 : Bool) (a : α) :
    Circuit.withOk ok (some (a, ok2)) = some (a, ok && ok2) := rfl

theorem Circuit.satisfied_withOk {α : Type} (ok : Bool) (x : Circuit α) :
    (Circuit.withOk ok x).satisfied = true ↔ ok = true ∧ x.satisfied = true := by
  cases x with
  | none => simp [Circuit.withOk, Circuit.satisfied]
  | some r =>
    obtain ⟨a, ok2⟩ := r
    simp [Circuit.withOk, Circuit.satisfied]

theorem goSlice_take (s : List Nat) (n : Nat) (h : n ≤ s.length) :
    goSlice s 0 (n : Nat) = some (s.take n, true) := by
  unfold goSlice
  rw [if_pos ⟨le_refl _, by omega, by exact_mod_cast h⟩]
  simp [Circuit.ret]

theorem Tls13Kdc_Derive_eq (digest : List Nat → Circuit (List Nat))
    (shacal : List Nat → Nat → List Nat → Circuit (List Nat)) (c : Tls13Kdc)
    (dHS MS XATS tkXAPP : List Nat) (ok0 ok1 ok2 ok3 : Bool)
    (hMSin : c.MSin.length = 32) (hXATSin : c.XATSin.length = 32)
    (hTkXAPPin : c.TkXAPPin.length = 32)
    (h0 : shacal c.IntermediateHashHSopad 64 c.DHSin = some (dHS, ok0))
    (hl0 : dHS.length = 32) (hb0 : IsBytes dHS)
    (h1 : digest (opadConcatValue dHS c.MSin) = some (MS, ok1))
    (hl1 : MS.length = 32) (hb1 : IsBytes MS)
    (h2 : digest (opadConcatValue MS c.XATSin) = some (XATS, ok2))
    (hl2 : XATS.length = 32) (hb2 : IsBytes XATS)
    (h3 : digest (opadConcatValue XATS c.TkXAPPin) = some (tkXAPP, ok3))
    (hl3 : tkXAPP.length = 32) :
    Tls13Kdc.Derive digest shacal c = some (tkXAPP.take 16, ok0 && ok1 && ok2 && ok3) := by
  unfold Tls13Kdc.Derive
  simp only [Circuit.bind_def, sha256.Gadget.Write, sha256.Gadget.Sum, sha256.Gadget.Reset,
    sha256.New, List.nil_append]
  rw [h0, Circuit.andThen_some_ok, OpadConcat_eq dHS c.MSin hl0 hMSin hb0, Circuit.andThen_some,
    h1, Circuit.andThen_some_ok, OpadConcat_eq MS c.XATSin hl1 hXATSin hb1, Circuit.andThen_some,
    h2, Circuit.andThen_some_ok, OpadConcat_eq XATS c.TkXAPPin hl2 hTkXAPPin hb2,
    Circuit.andThen_some, h3, Circuit.andThen_some_ok]
  have hs : goSlice tkXAPP 0 16 = some (tkXAPP.take 16, true) :=
    goSlice_take tkXAPP 16 (by omega)
  rw [hs]
  simp [Circuit.withOk, Bool.and_assoc]

/-- C15: when the resumed compression of `DHSin` from `IntermediateHashHSopad` gives the
32 bytes `dHS` and the digest `H` gives `MS = H(OpadConcat(dHS, MSin))`,
`XATS = H(OpadConcat(MS, XATSin))` and `tkXAPP = H(OpadConcat(XATS, TkXAPPin))`,
`Tls13Kdc.Derive` returns exactly the first 16 bytes of `tkXAPP`, its constraints
being those of the four hash computations; each of the three opad steps hashes
only the previous step's full digest followed by the step's input. -/
theorem Tls13Kdc_Derive_chain (digest : List Nat → Circuit (List Nat))
    (shacal : List Nat → Nat → List Nat → Circuit (List Nat)) (c : Tls13Kdc)
    (dHS MS XATS tkXAPP : List Nat) (ok0 ok1 ok2 ok3 : Bool)
    (hMSin : c.MSin.length = 32) (hXATSin : c.XATSin.length = 32)
    (hTkXAPPin : c.TkXAPPin.length = 32)
    (h0 : shacal c.IntermediateHashHSopad 64 c.DHSin = some (dHS, ok0))
    (hl0 : dHS.length = 32) (hb0 : IsBytes dHS)
    (h1 : digest ((OpadConcat dHS c.MSin).result []) = some (MS, ok1))
    (hl1 : MS.length = 32) (hb1 : IsBytes MS)
    (h2 : digest ((OpadConcat MS c.XATSin).result []) = some (XATS, ok2))
    (hl2 : XATS.length = 32) (hb2 : IsBytes XATS)
    (h3 : digest ((OpadConcat XATS c.TkXAPPin).result []) = some (tkXAPP, ok3))
    (hl3 : tkXAPP.length = 32) :
    Tls13Kdc.Derive digest shacal c = some (tkXAPP.take 16, ok0 && ok1 && ok2 && ok3) ∧
    (tkXAPP.take 16).length = 16 ∧
    (OpadConcat dHS c.MSin).result [] =
      dHS.map (fun b => b ^^^ 0x5c) ++ List.replicate 32 0x5c ++ c.MSin := by
  have e1 : (OpadConcat dHS c.MSin).result [] = opadConcatValue dHS c.MSin := by
    rw [OpadConcat_eq dHS c.MSin hl0 hMSin hb0]; rfl
  have e2 : (OpadConcat MS c.XATSin).result [] = opadConcatValue MS c.XATSin := by
    rw [OpadConcat_eq MS c.XATSin hl1 hXATSin hb1]; rfl
  have e3 : (OpadConcat XATS c.TkXAPPin).result [] = opadConcatValue XATS c.TkXAPPin := by
    rw [OpadConcat_eq XATS c.TkXAPPin hl2 hTkXAPPin hb2]; rfl
  rw [e1] at h1
  rw [e2] at h2
  rw [e3] at h3
  refine ⟨Tls13Kdc_Derive_eq digest shacal c dHS MS XATS tkXAPP ok0 ok1 ok2 ok3 hMSin hXATSin
    hTkXAPPin h0 hl0 hb0 h1 hl1 hb1 h2 hl2 hb2 h3 hl3, ?_, e1⟩
  rw [List.length_take, hl3]
  rfl

theorem EvaluateSessionCommit_shacal :
    sha256.WriteReturn EvaluateSessionCommit.kdc.IntermediateHashHSopad 64
      EvaluateSessionCommit.kdc.DHSin = some (EvaluateSessionCommit.dHS, true) := by
  rw [sha256_WriteReturn_eq _ _ _ (by decide) (by decide)]
  exact congrArg (fun x => some (x, true)) sha_dHS

theorem EvaluateSessionCommit_MS :
    sha256.Sum ((OpadConcat EvaluateSessionCommit.dHS
      EvaluateSessionCommit.kdc.MSin).result []) = some (EvaluateSessionCommit.MS, true) := by
  rw [OpadConcat_eq _ _ (by decide) (by decide) (by decide)]
  have hb : IsBytes (opadConcatValue EvaluateSessionCommit.dHS
      EvaluateSessionCommit.kdc.MSin) := by decide
  simp only [Circuit.result]
  rw [sha256_Sum_eq _ hb]
  exact congrArg (fun x => some (x, true)) sha_MS

theorem EvaluateSessionCommit_SATS :
    sha256.Sum ((OpadConcat EvaluateSessionCommit.MS
      EvaluateSessionCommit.kdc.XATSin).result []) = some (EvaluateSessionCommit.SATS, true) := by
  rw [OpadConcat_eq _ _ (by decide) (by decide) (by decide)]
  have hb : IsBytes (opadConcatValue EvaluateSessionCommit.MS
      EvaluateSessionCommit.kdc.XATSin) := by decide
  simp only [Circuit.result]
  rw [sha256_Sum_eq _ hb]
  exact congrArg (fun x => some (x, true)) sha_SATS

theorem EvaluateSessionCommit_tkXAPP :
    sha256.Sum ((OpadConcat EvaluateSessionCommit.SATS
      EvaluateSessionCommit.kdc.TkXAPPin).result []) =
        some (EvaluateSessionCommit.tkXAPP, true) := by
  rw [OpadConcat_eq _ _ (by decide) (by decide) (by decide)]
  have hb : IsBytes (opadConcatValue EvaluateSessionCommit.SATS
      EvaluateSessionCommit.kdc.TkXAPPin) := by decide
  simp only [Circuit.result]
  rw [sha256_Sum_eq _ hb]
  exact congrArg (fun x => some (x, true)) sha_tkXAPP

/-- C15, on the session-commit scenario with SHA-256 as hash: the derived traffic key
is `2872658573f95e87550cb26374e5f667`. -/
theorem Tls13Kdc_Derive_chain_witness :
    Tls13Kdc.Derive sha256.Sum sha256.WriteReturn EvaluateSessionCommit.kdc =
      some (EvaluateSessionCommit.tkXAPP.take 16, true && true && true && true) ∧
    EvaluateSessionCommit.tkXAPP.take 16 = EvaluateRecord.key :=
  ⟨(Tls13Kdc_Derive_chain sha256.Sum sha256.WriteReturn EvaluateSessionCommit.kdc
    EvaluateSessionCommit.dHS EvaluateSessionCommit.MS EvaluateSessionCommit.SATS
    EvaluateSessionCommit.tkXAPP true true true true (by decide) (by decide) (by decide)
    EvaluateSessionCommit_shacal (by decide) (by decide)
    EvaluateSessionCommit_MS (by decide) (by decide)
    EvaluateSessionCommit_SATS (by decide) (by decide)
    EvaluateSessionCommit_tkXAPP (by decide)).1, by decide⟩

/-! ## Session commit, oracle, session data, authenticated record -/

theorem goCopy_of_length (n : Nat) (src : List Nat) (h : src.length = n) : goCopy n src = src := by
  unfold goCopy
  rw [← h, List.take_length]
  simp

theorem commitCheck_satisfied (xs ys : List Nat) (n : Nat) (h : xs.length = n) :
    (Circuit.forEach (List.range n) (fun i =>
        Circuit.andThen (goIndex xs i) (fun a =>
          Circuit.andThen (goIndex ys i) (fun b => api.AssertIsEqual a b)))).satisfied = true ↔
      ∀ i, i < n → xs[i]? = ys[i]? := by
  have h1 := assertEach_satisfied xs ys
  simp only [Circuit.bind_def] at h1
  rw [h] at h1
  exact h1

theorem Tls13SessionCommit_Assert_satisfied (digest : List Nat → Circuit (List Nat))
    (shacal : List Nat → Nat → List Nat → Circuit (List Nat))
    (authTag : List Nat → List Nat → List Nat → List Nat → List Nat → Circuit Unit)
    (c : Tls13SessionCommit) (tk commit : List Nat) (okd okc : Bool)
    (hT : c.TkCommit.length = 32)
    (hd : Tls13Kdc.Derive digest shacal (Tls13Kdc.SetParams c.IntermediateHashHSopad c.MSin
      c.XATSin c.TkXAPPin c.DHSin) = some (tk, okd))
    (hl : tk.length = 16) (hc : digest tk = some (commit, okc)) :
    (Tls13SessionCommit.Assert digest shacal authTag c).satisfied = true ↔
      okd = true ∧ okc = true ∧ (∀ i, i < 32 → c.TkCommit[i]? = commit[i]?) ∧
        (authTag tk c.IvCounter c.Zeros c.ECB0 c.ECBK).satisfied = true := by
  unfold Tls13SessionCommit.Assert
  simp only [Circuit.bind_def, sha256.Gadget.Write, sha256.Gadget.Sum, sha256.New,
    List.nil_append]
  rw [Circuit.satisfied_andThen_of_eq _ _ tk okd hd,
    Circuit.satisfied_andThen_of_eq _ _ commit okc hc, Circuit.satisfied_andThen_unit,
    commitCheck_satisfied c.TkCommit commit 32 hT, goCopy_of_length 16 tk hl]

/-- C17: with `tk` the 16 values returned by `Tls13Kdc.Derive` on
`(IntermediateHashHSopad, MSin, XATSin, TkXAPPin, DHSin)` and `commit` the digest of
exactly those 16 values, the constraints emitted by `Tls13SessionCommit.Assert` hold
if and only if the constraints of the derivation and of the digest hold,
`TkCommit[i] = commit[i]` for all `i < 32`, and the auth-tag constraints hold with
that same `tk` as key; the wrapper hands every input to the parameter of the
same meaning. -/
theorem Tls13SessionCommit_Assert_iff (digest : List Nat → Circuit (List Nat))
    (shacal : List Nat → Nat → List Nat → Circuit (List Nat))
    (authTag : List Nat → List Nat → List Nat → List Nat → List Nat → Circuit Unit)
    (w : Tls13SessionCommitWrapper) (tk commit : List Nat) (okd okc : Bool)
    (hT : w.TkCommit.length = 32)
    (hd : Tls13Kdc.Derive digest shacal
      { DHSin := w.DHSin, IntermediateHashHSopad := w.IntermediateHashHSopad, MSin := w.MSin,
        XATSin := w.SATSin, TkXAPPin := w.TkSAPPin } = some (tk, okd))
    (hl : tk.length = 16) (hc : digest tk = some (commit, okc)) :
    ((Tls13SessionCommitWrapper.Define digest shacal authTag w).satisfied = true ↔
      okd = true ∧ okc = true ∧ (∀ i, i < 32 → w.TkCommit[i]? = commit[i]?) ∧
        (authTag tk w.IvCounter w.Zeros w.ECB0 w.ECBK).satisfied = true) ∧
    Tls13SessionCommitWrapper.Define digest shacal authTag w =
      Tls13SessionCommit.Assert digest shacal authTag
        { DHSin := w.DHSin, IntermediateHashHSopad := w.IntermediateHashHSopad,
          MSin := w.MSin, XATSin := w.SATSin, TkXAPPin := w.TkSAPPin,
          TkCommit := w.TkCommit, IvCounter := w.IvCounter, Zeros := w.Zeros,
          ECB0 := w.ECB0, ECBK := w.ECBK } := by
  refine ⟨?_, rfl⟩
  exact Tls13SessionCommit_Assert_satisfied digest shacal authTag
    { DHSin := w.DHSin, IntermediateHashHSopad := w.IntermediateHashHSopad,
      MSin := w.MSin, XATSin := w.SATSin, TkXAPPin := w.TkSAPPin,
      TkCommit := w.TkCommit, IvCounter := w.IvCounter, Zeros := w.Zeros,
      ECB0 := w.ECB0, ECBK := w.ECBK } tk commit okd okc hT hd hl hc

theorem EvaluateSessionCommit_Derive :
    Tls13Kdc.Derive sha256.Sum sha256.WriteReturn EvaluateSessionCommit.kdc =
      some (EvaluateRecord.key, true) := by
  have h := Tls13Kdc_Derive_eq sha256.Sum sha256.WriteReturn EvaluateSessionCommit.kdc
    EvaluateSessionCommit.dHS EvaluateSessionCommit.MS EvaluateSessionCommit.SATS
    EvaluateSessionCommit.tkXAPP true true true true (by decide) (by decide) (by decide)
    EvaluateSessionCommit_shacal (by decide) (by decide)
    (by
      have e := EvaluateSessionCommit_MS
      rw [OpadConcat_eq _ _ (by decide) (by decide) (by decide)] at e
      exact e) (by decide) (by decide)
    (by
      have e := EvaluateSessionCommit_SATS
      rw [OpadConcat_eq _ _ (by decide) (by decide) (by decide)] at e
      exact e) (by decide) (by decide)
    (by
      have e := EvaluateSessionCommit_tkXAPP
      rw [OpadConcat_eq _ _ (by decide) (by decide) (by decide)] at e
      exact e) (by decide)
  rw [h]
  rfl

theorem EvaluateSessionCommit_commit :
    sha256.Sum EvaluateRecord.key = some (EvaluateSessionCommit.tkCommit, true) := by
  rw [sha256_Sum_eq _ (by decide)]
  exact congrArg (fun x => some (x, true)) sha_key

/-- C17, on the assignment of the session-commit harness, with SHA-256 and the
auth-tag gadget over AES-128. -/
theorem Tls13SessionCommit_Assert_iff_witness :
    (Tls13SessionCommitWrapper.Define sha256.Sum sha256.WriteReturn aesAuthTag
        EvaluateSessionCommit.assignment).satisfied = true ↔
      true = true ∧ true = true ∧
        (∀ i, i < 32 →
          EvaluateSessionCommit.assignment.TkCommit[i]? = EvaluateSessionCommit.tkCommit[i]?) ∧
        (aesAuthTag EvaluateRecord.key EvaluateSessionCommit.assignment.IvCounter
          EvaluateSessionCommit.assignment.Zeros EvaluateSessionCommit.assignment.ECB0
          EvaluateSessionCommit.assignment.ECBK).satisfied = true :=
  (Tls13SessionCommit_Assert_iff sha256.Sum sha256.WriteReturn aesAuthTag
    EvaluateSessionCommit.assignment EvaluateRecord.key EvaluateSessionCommit.tkCommit
    true true (by decide) EvaluateSessionCommit_Derive (by decide)
    EvaluateSessionCommit_commit).1

theorem Tls13Oracle_Assert_satisfied (digest : List Nat → Circuit (List Nat))
    (shacal : List Nat → Nat → List Nat → Circuit (List Nat))
    (authTag : List Nat → List Nat → List Nat → List Nat → List Nat → Circuit Unit)
    (Encrypt : List Nat → List Nat → Circuit (List Nat))
    (c : Tls13Oracle) (tk : List Nat) (okd : Bool)
    (hd : Tls13Kdc.Derive digest shacal (Tls13Kdc.SetParams c.IntermediateHashHSopad c.MSin
      c.XATSin c.TkXAPPin c.DHSin) = some (tk, okd))
    (hl : tk.length = 16) :
    (Tls13Oracle.Assert digest shacal authTag Encrypt c).satisfied = true ↔
      okd = true ∧ (authTag tk c.IvCounter c.Zeros c.ECB0 c.ECBK).satisfied = true ∧
        (Tls13Record.Assert Encrypt
          (Tls13Record.SetParams tk c.Iv c.PlainChunks c.CipherChunks c.Substring c.ChunkIndex
            c.Threshold c.SubstringStart c.SubstringEnd c.ValueStart c.ValueEnd)).satisfied
          = true := by
  unfold Tls13Oracle.Assert
  simp only [Circuit.bind_def]
  rw [Circuit.satisfied_andThen_of_eq _ _ tk okd hd, Circuit.satisfied_andThen_unit,
    goCopy_of_length 16 tk hl]

/-- C18: with `tk` the 16 values returned by `Tls13Kdc.Derive` on the circuit's
key-schedule inputs, the oracle circuit is satisfied if and only if the
derivation's constraints hold, the auth-tag constraints hold with key `tk` and
the record constraints hold with the same key `tk`; the circuit has no key
input of its own, so no other key enters either check. -/
theorem Tls13Oracle_Assert_iff (digest : List Nat → Circuit (List Nat))
    (shacal : List Nat → Nat → List Nat → Circuit (List Nat))
    (authTag : List Nat → List Nat → List Nat → List Nat → List Nat → Circuit Unit)
    (Encrypt : List Nat → List Nat → Circuit (List Nat))
    (w : Tls13OracleWrapper) (tk : List Nat) (okd : Bool)
    (hd : Tls13Kdc.Derive digest shacal
      { DHSin := w.DHSin, IntermediateHashHSopad := w.IntermediateHashHSopad, MSin := w.MSin,
        XATSin := w.SATSin, TkXAPPin := w.TkSAPPin } = some (tk, okd))
    (hl : tk.length = 16) :
    ((Tls13OracleWrapper.Define digest shacal authTag Encrypt w).satisfied = true ↔
      okd = true ∧ (authTag tk w.IvCounter w.Zeros w.ECB0 w.ECBK).satisfied = true ∧
        (Tls13Record.Assert Encrypt
          { Key := tk, PlainChunks := w.PlainChunks, Iv := w.Iv,
            CipherChunks := w.CipherChunks, ChunkIndex := w.ChunkIndex,
            Substring := w.Substring, SubstringStart := w.SubstringStart,
            SubstringEnd := w.SubstringEnd, ValueStart := w.ValueStart,
            ValueEnd := w.ValueEnd, Threshold := w.Threshold }).satisfied = true) ∧
    Tls13OracleWrapper.Define digest shacal authTag Encrypt w =
      Tls13Oracle.Assert digest shacal authTag Encrypt
        { DHSin := w.DHSin, IntermediateHashHSopad := w.IntermediateHashHSopad,
          MSin := w.MSin, XATSin := w.SATSin, TkXAPPin := w.TkSAPPin,
          IvCounter := w.IvCounter, Zeros := w.Zeros, ECB0 := w.ECB0, ECBK := w.ECBK,
          PlainChunks := w.PlainChunks, Iv := w.Iv, CipherChunks := w.CipherChunks,
          ChunkIndex := w.ChunkIndex, Substring := w.Substring,
          SubstringStart := w.SubstringStart, SubstringEnd := w.SubstringEnd,
          ValueStart := w.ValueStart, ValueEnd := w.ValueEnd, Threshold := w.Threshold } := by
  refine ⟨?_, rfl⟩
  exact Tls13Oracle_Assert_satisfied digest shacal authTag Encrypt
    { DHSin := w.DHSin, IntermediateHashHSopad := w.IntermediateHashHSopad,
      MSin := w.MSin, XATSin := w.SATSin, TkXAPPin := w.TkSAPPin,
      IvCounter := w.IvCounter, Zeros := w.Zeros, ECB0 := w.ECB0, ECBK := w.ECBK,
      PlainChunks := w.PlainChunks, Iv := w.Iv, CipherChunks := w.CipherChunks,
      ChunkIndex := w.ChunkIndex, Substring := w.Substring,
      SubstringStart := w.SubstringStart, SubstringEnd := w.SubstringEnd,
      ValueStart := w.ValueStart, ValueEnd := w.ValueEnd, Threshold := w.Threshold }
    tk okd hd hl

/-- C18, on the assignment of the oracle harness, with SHA-256 and AES-128: the
derived key is the key of the record scenario. -/
theorem Tls13Oracle_Assert_iff_witness :
    (Tls13OracleWrapper.Define sha256.Sum sha256.WriteReturn aesAuthTag AES128.Encrypt
        EvaluateOracle.assignment).satisfied = true ↔
      true = true ∧
        (aesAuthTag EvaluateRecord.key EvaluateOracle.assignment.IvCounter
          EvaluateOracle.assignment.Zeros EvaluateOracle.assignment.ECB0
          EvaluateOracle.assignment.ECBK).satisfied = true ∧
        (Tls13Record.Assert AES128.Encrypt
          { Key := EvaluateRecord.key, PlainChunks := EvaluateOracle.assignment.PlainChunks,
            Iv := EvaluateOracle.assignment.Iv,
            CipherChunks := EvaluateOracle.assignment.CipherChunks,
            ChunkIndex := EvaluateOracle.assignment.ChunkIndex,
            Substring := EvaluateOracle.assignment.Substring,
            SubstringStart := EvaluateOracle.assignment.SubstringStart,
            SubstringEnd := EvaluateOracle.assignment.SubstringEnd,
            ValueStart := EvaluateOracle.assignment.ValueStart,
            ValueEnd := EvaluateOracle.assignment.ValueEnd,
            Threshold := EvaluateOracle.assignment.Threshold }).satisfied = true :=
  (Tls13Oracle_Assert_iff sha256.Sum sha256.WriteReturn aesAuthTag AES128.Encrypt
    EvaluateOracle.assignment EvaluateRecord.key true EvaluateSessionCommit_Derive
    (by decide)).1

theorem recordCheck_satisfied (digest : List Nat → Circuit (List Nat)) (key tkCommit : List Nat)
    (rest : Circuit Unit) (commit : List Nat) (okc : Bool)
    (hc : digest key = some (commit, okc)) :
    (Circuit.andThen (digest key) (fun keyCommit =>
      Circuit.andThen
        (Circuit.forEach (List.range tkCommit.length) (fun i =>
          Circuit.andThen (goIndex tkCommit i) (fun a =>
            Circuit.andThen (goIndex keyCommit i) (fun b => api.AssertIsEqual a b))))
        (fun _ => rest))).satisfied = true ↔
      okc = true ∧ (∀ i, i < tkCommit.length → tkCommit[i]? = commit[i]?) ∧
        rest.satisfied = true := by
  rw [Circuit.satisfied_andThen_of_eq _ _ commit okc hc, Circuit.satisfied_andThen_unit,
    commitCheck_satisfied tkCommit commit tkCommit.length rfl]

/-- C19: with `commit` the digest of exactly the 16 key values, the constraints
emitted by `Tls13SessionData.Assert` hold if and only if the digest's constraints
hold, `TkCommit[i] = commit[i]` for all `i < 32`, and the record constraints hold
for that same `Key`; a key whose digest differs from `TkCommit` in some byte is
rejected whatever the record constraints say. -/
theorem Tls13SessionData_Assert_iff (digest : List Nat → Circuit (List Nat))
    (gcm : List Nat → List Nat → Nat → List Nat → List Nat → Circuit Unit)
    (c : gadgets.Tls13SessionData) (commit : List Nat) (okc : Bool)
    (hT : c.TkCommit.length = 32) (hc : digest c.Key = some (commit, okc)) :
    ((gadgets.Tls13SessionData.Assert digest gcm c).satisfied = true ↔
      okc = true ∧ (∀ i, i < 32 → c.TkCommit[i]? = commit[i]?) ∧
        (gadgets.Tls13Record_Assert gcm
          { Key := c.Key, PlainChunks := c.PlainChunks, Iv := c.Iv,
            CipherChunks := c.CipherChunks, ChunkIndex := c.ChunkIndex,
            Substring := c.Substring, SubstringStart := c.SubstringStart,
            SubstringEnd := c.SubstringEnd, ValueStart := c.ValueStart,
            ValueEnd := c.ValueEnd, Threshold := c.Threshold }).satisfied = true) ∧
    ((∃ i, i < 32 ∧ c.TkCommit[i]? ≠ commit[i]?) →
      (gadgets.Tls13SessionData.Assert digest gcm c).satisfied = false) := by
  have h : (gadgets.Tls13SessionData.Assert digest gcm c).satisfied = true ↔
      okc = true ∧ (∀ i, i < 32 → c.TkCommit[i]? = commit[i]?) ∧
        (gadgets.Tls13Record_Assert gcm
          { Key := c.Key, PlainChunks := c.PlainChunks, Iv := c.Iv,
            CipherChunks := c.CipherChunks, ChunkIndex := c.ChunkIndex,
            Substring := c.Substring, SubstringStart := c.SubstringStart,
            SubstringEnd := c.SubstringEnd, ValueStart := c.ValueStart,
            ValueEnd := c.ValueEnd, Threshold := c.Threshold }).satisfied = true := by
    unfold gadgets.Tls13SessionData.Assert
    simp only [Circuit.bind_def, sha256.Gadget.Write, sha256.Gadget.Sum, sha256.New,
      List.nil_append]
    rw [recordCheck_satisfied digest c.Key c.TkCommit _ commit okc hc, hT]
    rfl
  refine ⟨h, ?_⟩
  rintro ⟨i, hi, hne⟩
  rw [Bool.eq_false_iff]
  intro hs
  exact hne ((h.mp hs).2.1 i hi)

/-- C19, on the key, commitment and record of the authenticated-record scenario, with
SHA-256 and the counter mode over AES-128. -/
theorem Tls13SessionData_Assert_iff_witness :
    (gadgets.Tls13SessionData.Assert sha256.Sum (AES128.GCM AES128.Encrypt)
        gadgets.EvaluateDecoProxy.sessionData).satisfied = true ↔
      true = true ∧
        (∀ i, i < 32 → gadgets.EvaluateDecoProxy.sessionData.TkCommit[i]? =
          EvaluateSessionCommit.tkCommit[i]?) ∧
        (gadgets.Tls13Record_Assert (AES128.GCM AES128.Encrypt)
          { Key := gadgets.EvaluateDecoProxy.sessionData.Key,
            PlainChunks := gadgets.EvaluateDecoProxy.sessionData.PlainChunks,
            Iv := gadgets.EvaluateDecoProxy.sessionData.Iv,
            CipherChunks := gadgets.EvaluateDecoProxy.sessionData.CipherChunks,
            ChunkIndex := gadgets.EvaluateDecoProxy.sessionData.ChunkIndex,
            Substring := gadgets.EvaluateDecoProxy.sessionData.Substring,
            SubstringStart := gadgets.EvaluateDecoProxy.sessionData.SubstringStart,
            SubstringEnd := gadgets.EvaluateDecoProxy.sessionData.SubstringEnd,
            ValueStart := gadgets.EvaluateDecoProxy.sessionData.ValueStart,
            ValueEnd := gadgets.EvaluateDecoProxy.sessionData.ValueEnd,
            Threshold := gadgets.EvaluateDecoProxy.sessionData.Threshold }).satisfied = true :=
  (Tls13SessionData_Assert_iff sha256.Sum (AES128.GCM AES128.Encrypt)
    gadgets.EvaluateDecoProxy.sessionData EvaluateSessionCommit.tkCommit true (by decide)
    EvaluateSessionCommit_commit).1

theorem Tls13DecoProxy_Assert_satisfied (digest : List Nat → Circuit (List Nat))
    (Encrypt : List Nat → List Nat → Circuit (List Nat))
    (gcm : List Nat → List Nat → Nat → List Nat → List Nat → Circuit Unit)
    (c : gadgets.Tls13DecoProxy) (commit e0 e1 : List Nat) (okc ok0 ok1 : Bool)
    (hc : digest c.Key = some (commit, okc))
    (h0 : Encrypt c.Key c.Zeros = some (e0, ok0))
    (h1 : Encrypt c.Key c.IvCounter = some (e1, ok1)) :
    (gadgets.Tls13DecoProxy.Assert digest Encrypt gcm c).satisfied = true ↔
      okc = true ∧ (∀ i, i < c.TkCommit.length → c.TkCommit[i]? = commit[i]?) ∧
        (ok0 = true ∧ ok1 = true ∧ (∀ i, i < c.ECBK.length → c.ECBK[i]? = e0[i]?) ∧
          (∀ i, i < c.ECB0.length → c.ECB0[i]? = e1[i]?)) ∧
        (gadgets.Tls13Record_Assert gcm
          (Tls13Record.SetParams c.Key c.Iv c.PlainChunks c.CipherChunks c.Substring
            c.ChunkIndex c.Threshold c.SubstringStart c.SubstringEnd c.ValueStart
            c.ValueEnd)).satisfied = true := by
  unfold gadgets.Tls13DecoProxy.Assert
  simp only [Circuit.bind_def, sha256.Gadget.Write, sha256.Gadget.Sum, sha256.New,
    List.nil_append]
  rw [recordCheck_satisfied digest c.Key c.TkCommit _ commit okc hc,
    Circuit.satisfied_andThen_unit,
    Tls13AuthTag_Assert_satisfied Encrypt
      (Tls13AuthTag.SetParams c.Key c.IvCounter c.Zeros c.ECB0 c.ECBK) e0 e1 ok0 ok1 h0 h1]
  rfl

theorem gadgets_Tls13Record_Assert_satisfied
    (gcm : List Nat → List Nat → Nat → List Nat → List Nat → Circuit Unit) (c : Tls13Record) :
    (gadgets.Tls13Record_Assert gcm c).satisfied = true ↔
      (gcm c.Key c.Iv c.ChunkIndex c.PlainChunks c.CipherChunks).satisfied = true ∧
      (Tls13Record.substringPart c).satisfied = true ∧
      (Tls13Record.thresholdPart c).satisfied = true := by
  have h : gadgets.Tls13Record_Assert gcm c =
      Circuit.andThen (gcm c.Key c.Iv c.ChunkIndex c.PlainChunks c.CipherChunks)
        (fun _ => Circuit.andThen (Tls13Record.substringPart c)
          (fun _ => Tls13Record.thresholdPart c)) := by
    unfold gadgets.Tls13Record_Assert Tls13Record.substringPart Tls13Record.thresholdPart
    simp only [Circuit.bind_def, Circuit.andThen_assoc]
  rw [h, Circuit.satisfied_andThen_unit, Circuit.satisfied_andThen_unit]

theorem EvaluateDecoProxy_record_satisfied :
    (gadgets.Tls13Record_Assert (AES128.GCM AES128.Encrypt)
      (Tls13Record.SetParams EvaluateRecord.key EvaluateRecord.iv EvaluateRecord.plainChunks
        EvaluateRecord.chipherChunks EvaluateRecord.substring 32 38001 13 20 22 27)).satisfied
      = true := by
  rw [gadgets_Tls13Record_Assert_satisfied]
  refine ⟨EvaluateRecord_GCM_satisfied, ?_, ?_⟩
  · decide
  · decide

theorem EvaluateDecoProxy_satisfied_iff (ecb0 ecbk : List Nat) :
    (gadgets.Tls13DecoProxyWrapper.Define sha256.Sum AES128.Encrypt
      (AES128.GCM AES128.Encrypt)
      { gadgets.EvaluateDecoProxy.assignment with ECB0 := ecb0, ECBK := ecbk }).satisfied
      = true ↔
      (∀ i, i < ecbk.length → ecbk[i]? = EvaluateAuthTag.ecbk[i]?) ∧
      (∀ i, i < ecb0.length → ecb0[i]? = EvaluateAuthTag.ecb0[i]?) := by
  have h := Tls13DecoProxy_Assert_satisfied sha256.Sum AES128.Encrypt
    (AES128.GCM AES128.Encrypt)
    { Key := EvaluateRecord.key, PlainChunks := EvaluateRecord.plainChunks,
      Iv := EvaluateRecord.iv, CipherChunks := EvaluateRecord.chipherChunks, ChunkIndex := 32,
      Substring := EvaluateRecord.substring, SubstringStart := 13, SubstringEnd := 20,
      ValueStart := 22, ValueEnd := 27, Threshold := 38001,
      IvCounter := EvaluateAuthTag.ivCounter, Zeros := EvaluateAuthTag.zeros, ECB0 := ecb0,
      ECBK := ecbk, TkCommit := EvaluateSessionCommit.tkCommit }
    EvaluateSessionCommit.tkCommit EvaluateAuthTag.ecbk EvaluateAuthTag.ecb0 true true true
    EvaluateSessionCommit_commit Encrypt_zeros Encrypt_ivCounter
  have hdef : gadgets.Tls13DecoProxyWrapper.Define sha256.Sum AES128.Encrypt
      (AES128.GCM AES128.Encrypt)
      { gadgets.EvaluateDecoProxy.assignment with ECB0 := ecb0, ECBK := ecbk } =
      gadgets.Tls13DecoProxy.Assert sha256.Sum AES128.Encrypt (AES128.GCM AES128.Encrypt)
        { Key := EvaluateRecord.key, PlainChunks := EvaluateRecord.plainChunks,
          Iv := EvaluateRecord.iv, CipherChunks := EvaluateRecord.chipherChunks,
          ChunkIndex := 32, Substring := EvaluateRecord.substring, SubstringStart := 13,
          SubstringEnd := 20, ValueStart := 22, ValueEnd := 27, Threshold := 38001,
          IvCounter := EvaluateAuthTag.ivCounter, Zeros := EvaluateAuthTag.zeros,
          ECB0 := ecb0, ECBK := ecbk, TkCommit := EvaluateSessionCommit.tkCommit } := rfl
  rw [hdef, h]
  have hrec := EvaluateDecoProxy_record_satisfied
  constructor
  · rintro ⟨_, _, ⟨_, _, h1, h2⟩, _⟩
    exact ⟨h1, h2⟩
  · rintro ⟨h1, h2⟩
    exact ⟨rfl, fun i _ => rfl, ⟨rfl, rfl, h1, h2⟩, hrec⟩

/-- C11 (counterexample): the assignment of `EvaluateDecoProxy` satisfies the
authenticated-record circuit (SHA-256, AES-128), yet its input `ECB0` is not
`Encrypt(Key, Zeros)` and its input `ECBK` is not `Encrypt(Key, IvCounter)`: they
are the other way round, and the assignment with the two exchanged, which has
the roles the claim states, is rejected. -/
theorem Tls13DecoProxy_roles_swapped :
    (gadgets.Tls13DecoProxyWrapper.Define sha256.Sum AES128.Encrypt
      (AES128.GCM AES128.Encrypt)
      { gadgets.EvaluateDecoProxy.assignment with
        ECB0 := EvaluateAuthTag.ecb0, ECBK := EvaluateAuthTag.ecbk }).satisfied = true ∧
    AES128.encryptBlock gadgets.EvaluateDecoProxy.assignment.Key
      gadgets.EvaluateDecoProxy.assignment.Zeros = EvaluateAuthTag.ecbk ∧
    AES128.encryptBlock gadgets.EvaluateDecoProxy.assignment.Key
      gadgets.EvaluateDecoProxy.assignment.IvCounter = EvaluateAuthTag.ecb0 ∧
    EvaluateAuthTag.ecb0 ≠ EvaluateAuthTag.ecbk ∧
    (gadgets.Tls13DecoProxyWrapper.Define sha256.Sum AES128.Encrypt
      (AES128.GCM AES128.Encrypt)
      { gadgets.EvaluateDecoProxy.assignment with
        ECB0 := EvaluateAuthTag.ecbk, ECBK := EvaluateAuthTag.ecb0 }).satisfied = false := by
  refine ⟨?_, AES_zeros, AES_ivCounter, by decide, ?_⟩
  · rw [EvaluateDecoProxy_satisfied_iff]
    exact ⟨fun i _ => rfl, fun i _ => rfl⟩
  · rw [Bool.eq_false_iff]
    intro h
    rw [EvaluateDecoProxy_satisfied_iff] at h
    have := h.1 0 (by decide)
    revert this
    decide

/-- C11 (amended): in `Tls13DecoProxy.Assert` the public input named `ECBK` is
constrained to equal `Encrypt(Key, Zeros)` and the public input named `ECB0` to
equal `Encrypt(Key, IvCounter)` (`ECB0`, `ECBK` reach `SetParams` in its `ecb1`,
`ecb0` positions); the same `Key` is the input of the commitment digest, the key
of the auth-tag check and the key of the record check. -/
theorem Tls13DecoProxy_Assert_roles (digest : List Nat → Circuit (List Nat))
    (Encrypt : List Nat → List Nat → Circuit (List Nat))
    (gcm : List Nat → List Nat → Nat → List Nat → List Nat → Circuit Unit)
    (w : gadgets.Tls13DecoProxyWrapper) (commit e0 e1 : List Nat) (okc ok0 ok1 : Bool)
    (hT : w.TkCommit.length = 32) (hE0 : w.ECB0.length = 16) (hEK : w.ECBK.length = 16)
    (hc : digest w.Key = some (commit, okc))
    (h0 : Encrypt w.Key w.Zeros = some (e0, ok0))
    (h1 : Encrypt w.Key w.IvCounter = some (e1, ok1)) :
    ((gadgets.Tls13DecoProxyWrapper.Define digest Encrypt gcm w).satisfied = true ↔
      okc = true ∧ (∀ i, i < 32 → w.TkCommit[i]? = commit[i]?) ∧
        (ok0 = true ∧ ok1 = true ∧ (∀ i, i < 16 → w.ECBK[i]? = e0[i]?) ∧
          (∀ i, i < 16 → w.ECB0[i]? = e1[i]?)) ∧
        (gadgets.Tls13Record_Assert gcm
          { Key := w.Key, PlainChunks := w.PlainChunks, Iv := w.Iv,
            CipherChunks := w.CipherChunks, ChunkIndex := w.ChunkIndex,
            Substring := w.Substring, SubstringStart := w.SubstringStart,
            SubstringEnd := w.SubstringEnd, ValueStart := w.ValueStart,
            ValueEnd := w.ValueEnd, Threshold := w.Threshold }).satisfied = true) ∧
    (Tls13AuthTag.SetParams w.Key w.IvCounter w.Zeros w.ECB0 w.ECBK).ECB0 = w.ECBK ∧
    (Tls13AuthTag.SetParams w.Key w.IvCounter w.Zeros w.ECB0 w.ECBK).ECB1 = w.ECB0 := by
  refine ⟨?_, rfl, rfl⟩
  have h := Tls13DecoProxy_Assert_satisfied digest Encrypt gcm
    { Key := w.Key, PlainChunks := w.PlainChunks, Iv := w.Iv, CipherChunks := w.CipherChunks,
      ChunkIndex := w.ChunkIndex, Substring := w.Substring,
      SubstringStart := w.SubstringStart, SubstringEnd := w.SubstringEnd,
      ValueStart := w.ValueStart, ValueEnd := w.ValueEnd, Threshold := w.Threshold,
      IvCounter := w.IvCounter, Zeros := w.Zeros, ECB0 := w.ECB0, ECBK := w.ECBK,
      TkCommit := w.TkCommit } commit e0 e1 okc ok0 ok1 hc h0 h1
  simp only [hT, hE0, hEK] at h
  exact h

/-- C11 (amended), on the assignment of `EvaluateDecoProxy` with SHA-256 and AES-128. -/
theorem Tls13DecoProxy_Assert_roles_witness :
    (Tls13AuthTag.SetParams gadgets.EvaluateDecoProxy.assignment.Key
      gadgets.EvaluateDecoProxy.assignment.IvCounter gadgets.EvaluateDecoProxy.assignment.Zeros
      gadgets.EvaluateDecoProxy.assignment.ECB0 gadgets.EvaluateDecoProxy.assignment.ECBK).ECB0 =
      gadgets.EvaluateDecoProxy.assignment.ECBK :=
  (Tls13DecoProxy_Assert_roles sha256.Sum AES128.Encrypt (AES128.GCM AES128.Encrypt)
    gadgets.EvaluateDecoProxy.assignment EvaluateSessionCommit.tkCommit
    EvaluateAuthTag.ecbk EvaluateAuthTag.ecb0 true true true (by decide) (by decide)
    (by decide) EvaluateSessionCommit_commit (by decide) (by decide)).2.1

/-! ## Lookup AES-128: key schedule -/

theorem Circuit.foldList_nil {α σ : Type} (s : σ) (f : σ → α → Circuit σ) :
    Circuit.foldList [] s f = some (s, true) := rfl

theorem Circuit.foldList_cons {α σ : Type} (a : α) (l : List α) (s : σ)
    (f : σ → α → Circuit σ) :
    Circuit.foldList (a :: l) s f = Circuit.andThen (f s a) (fun s2 => Circuit.foldList l s2 f) :=
  rfl

theorem IsBytes_getD (l : List Nat) (i : Nat) (h : IsBytes l) : l.getD i 0 < 256 := by
  rw [List.getD_eq_getElem?_getD]
  cases hi : l[i]? with
  | none => simp
  | some v =>
    obtain ⟨hlt, rfl⟩ := List.getElem?_eq_some_iff.mp hi
    simpa using h _ (List.getElem_mem hlt)

theorem xor_lt_256 (a b : Nat) (ha : a < 256) (hb : b < 256) : a ^^^ b < 256 := by
  have h : a ^^^ b < 2 ^ 8 := Nat.xor_lt_two_pow ha hb
  exact h

theorem take16_eq (l : List Nat) (h : 16 ≤ l.length) :
    l.take 16 = (List.range 16).map (fun i => l.getD i 0) := by
  apply List.ext_getElem
  · simp; omega
  · intro i h1 h2
    have hi : i < 16 := by simpa using h2
    simp [List.getD_eq_getElem?_getD, List.getElem?_eq_getElem (show i < l.length by omega)]

theorem copySteps_eq (key : List Nat) (h : 16 ≤ key.length) :
    Circuit.foldList [0, 4, 8, 12] [] (LookUpAES128.copyStep key) = some (key.take 16, true) := by
  rw [take16_eq key h]
  simp only [Circuit.foldList_cons, Circuit.foldList_nil, LookUpAES128.copyStep,
    Circuit.bind_def, Circuit.pure_def, Circuit.ret]
  rw [goIndex_eq_getD key 0 (by omega), goIndex_eq_getD key (0 + 1) (by omega),
    goIndex_eq_getD key (0 + 2) (by omega), goIndex_eq_getD key (0 + 3) (by omega),
    goIndex_eq_getD key 4 (by omega), goIndex_eq_getD key (4 + 1) (by omega),
    goIndex_eq_getD key (4 + 2) (by omega), goIndex_eq_getD key (4 + 3) (by omega),
    goIndex_eq_getD key 8 (by omega), goIndex_eq_getD key (8 + 1) (by omega),
    goIndex_eq_getD key (8 + 2) (by omega), goIndex_eq_getD key (8 + 3) (by omega),
    goIndex_eq_getD key 12 (by omega), goIndex_eq_getD key (12 + 1) (by omega),
    goIndex_eq_getD key (12 + 2) (by omega), goIndex_eq_getD key (12 + 3) (by omega)]
  simp only [Circuit.andThen_some]
  rfl

theorem writeWord_eq (aes : LookUpAESGadget)
    (hV : ∀ a b, a < 256 → b < 256 → aes.VariableXor a b 8 = some (a ^^^ b, true))
    (xk : List Nat) (t0 t1 t2 t3 : Nat)
    (h16 : 16 ≤ xk.length) (hb : IsBytes xk) (h0 : t0 < 256) (h1 : t1 < 256) (h2 : t2 < 256)
    (h3 : t3 < 256) :
    LookUpAES128.writeWord aes xk xk.length t0 t1 t2 t3 =
      some (xk ++ [xk.getD (xk.length - 16) 0 ^^^ t0, xk.getD (xk.length - 16 + 1) 0 ^^^ t1,
        xk.getD (xk.length - 16 + 2) 0 ^^^ t2, xk.getD (xk.length - 16 + 3) 0 ^^^ t3], true) := by
  unfold LookUpAES128.writeWord
  simp only [Circuit.bind_def, Circuit.pure_def, Circuit.ret]
  rw [goIndex_eq_getD xk _ (by omega), Circuit.andThen_some,
    hV _ _ (IsBytes_getD xk _ hb) h0, Circuit.andThen_some,
    goIndex_eq_getD xk _ (by omega), Circuit.andThen_some,
    hV _ _ (IsBytes_getD xk _ hb) h1, Circuit.andThen_some,
    goIndex_eq_getD xk _ (by omega), Circuit.andThen_some,
    hV _ _ (IsBytes_getD xk _ hb) h2, Circuit.andThen_some,
    goIndex_eq_getD xk _ (by omega), Circuit.andThen_some,
    hV _ _ (IsBytes_getD xk _ hb) h3, Circuit.andThen_some]

theorem expandStep_eq (aes : LookUpAESGadget)
    (hV : ∀ a b, a < 256 → b < 256 → aes.VariableXor a b 8 = some (a ^^^ b, true))
    (S : Nat → Nat) (xk : List Nat)
    (h16 : 16 ≤ xk.length) (hlen : xk.length ≤ 172) (hb : IsBytes xk)
    (hS : ∀ a b c d, a < 256 → b < 256 → c < 256 → d < 256 →
      aes.Subws aes.sbox a b c d = some ([S a, S b, S c, S d], true))
    (hSb : ∀ a, a < 256 → S a < 256)
    (hRl : 11 ≤ aes.RCon.length)
    (hRb : ∀ r, 1 ≤ r → r ≤ 10 → aes.RCon.getD r 0 < 256) :
    LookUpAES128.expandStep aes xk xk.length =
      some (expandWordsWith S (fun r => aes.RCon.getD r 0) 1 xk, true) ∧
    IsBytes (expandWordsWith S (fun r => aes.RCon.getD r 0) 1 xk) := by
  have g4 := IsBytes_getD xk (xk.length - 4) hb
  have g3 := IsBytes_getD xk (xk.length - 3) hb
  have g2 := IsBytes_getD xk (xk.length - 2) hb
  have g1 := IsBytes_getD xk (xk.length - 1) hb
  have e0 := IsBytes_getD xk (xk.length - 16) hb
  have e1 := IsBytes_getD xk (xk.length - 16 + 1) hb
  have e2 := IsBytes_getD xk (xk.length - 16 + 2) hb
  have e3 := IsBytes_getD xk (xk.length - 16 + 3) hb
  unfold LookUpAES128.expandStep
  simp only [Circuit.bind_def]
  rw [goIndex_eq_getD xk _ (by omega), Circuit.andThen_some,
    goIndex_eq_getD xk _ (by omega), Circuit.andThen_some,
    goIndex_eq_getD xk _ (by omega), Circuit.andThen_some,
    goIndex_eq_getD xk _ (by omega), Circuit.andThen_some]
  by_cases hm : xk.length % 16 = 0
  · have hr1 : 1 ≤ xk.length / 16 := by omega
    have hr2 : xk.length / 16 ≤ 10 := by omega
    have hrc := hRb _ hr1 hr2
    rw [if_pos hm, hS _ _ _ _ g3 g2 g1 g4, Circuit.andThen_some]
    rw [goIndex_eq_getD _ 0 (by simp), Circuit.andThen_some,
      goIndex_eq_getD _ 1 (by simp), Circuit.andThen_some,
      goIndex_eq_getD _ 2 (by simp), Circuit.andThen_some,
      goIndex_eq_getD _ 3 (by simp), Circuit.andThen_some,
      goIndex_eq_getD aes.RCon _ (by omega), Circuit.andThen_some]
    simp only [List.getD_cons_zero, List.getD_cons_succ]
    rw [hV _ _ (hSb _ g3) hrc, Circuit.andThen_some,
      writeWord_eq aes hV xk _ _ _ _ h16 hb (xor_lt_256 _ _ (hSb _ g3) hrc) (hSb _ g2) (hSb _ g1)
        (hSb _ g4)]
    constructor
    · simp [expandWordsWith, hm]
    · simp only [expandWordsWith, hm, if_true, List.getD_cons_zero, List.getD_cons_succ]
      apply IsBytes_append _ _ hb
      intro x hx
      simp only [List.mem_cons, List.mem_singleton, List.not_mem_nil, or_false] at hx
      rcases hx with rfl | rfl | rfl | rfl
      · exact xor_lt_256 _ _ e0 (xor_lt_256 _ _ (hSb _ g3) hrc)
      · exact xor_lt_256 _ _ e1 (hSb _ g2)
      · exact xor_lt_256 _ _ e2 (hSb _ g1)
      · exact xor_lt_256 _ _ e3 (hSb _ g4)
  · rw [if_neg hm, writeWord_eq aes hV xk _ _ _ _ h16 hb g4 g3 g2 g1]
    constructor
    · simp [expandWordsWith, hm]
    · simp only [expandWordsWith, hm, if_false, List.getD_cons_zero, List.getD_cons_succ]
      apply IsBytes_append _ _ hb
      intro x hx
      simp only [List.mem_cons, List.mem_singleton, List.not_mem_nil, or_false] at hx
      rcases hx with rfl | rfl | rfl | rfl
      · exact xor_lt_256 _ _ e0 g4
      · exact xor_lt_256 _ _ e1 g3
      · exact xor_lt_256 _ _ e2 g2
      · exact xor_lt_256 _ _ e3 g1

theorem expandWordsWith_succ (S rc : Nat → Nat) (n : Nat) (xk : List Nat) :
    expandWordsWith S rc (n + 1) xk = expandWordsWith S rc n (expandWordsWith S rc 1 xk) := rfl

theorem expandWordsWith_one_length (S rc : Nat → Nat) (xk : List Nat) :
    (expandWordsWith S rc 1 xk).length = xk.length + 4 := by
  simp [expandWordsWith]

theorem expandWordsWith_length (S rc : Nat → Nat) (n : Nat) (xk : List Nat) :
    (expandWordsWith S rc n xk).length = xk.length + 4 * n := by
  induction n generalizing xk with
  | zero => rfl
  | succ n ih =>
    rw [expandWordsWith_succ, ih, expandWordsWith_one_length]
    omega

theorem range_offsets (n L : Nat) :
    (List.range (n + 1)).map (fun w => L + 4 * w) =
      L :: (List.range n).map (fun w => (L + 4) + 4 * w) := by
  rw [List.range_succ_eq_map, List.map_cons, List.map_map]
  congr 1
  apply List.map_congr_left
  intro w _
  simp only [Function.comp, Nat.succ_eq_add_one]
  omega

theorem expandSteps_eq (aes : LookUpAESGadget)
    (hV : ∀ a b, a < 256 → b < 256 → aes.VariableXor a b 8 = some (a ^^^ b, true))
    (S : Nat → Nat)
    (hS : ∀ a b c d, a < 256 → b < 256 → c < 256 → d < 256 →
      aes.Subws aes.sbox a b c d = some ([S a, S b, S c, S d], true))
    (hSb : ∀ a, a < 256 → S a < 256)
    (hRl : 11 ≤ aes.RCon.length)
    (hRb : ∀ r, 1 ≤ r → r ≤ 10 → aes.RCon.getD r 0 < 256)
    (n : Nat) (xk : List Nat) (h16 : 16 ≤ xk.length) (hlen : xk.length + 4 * n ≤ 176)
    (hb : IsBytes xk) :
    Circuit.foldList ((List.range n).map (fun w => xk.length + 4 * w)) xk
        (LookUpAES128.expandStep aes) =
      some (expandWordsWith S (fun r => aes.RCon.getD r 0) n xk, true) ∧
    IsBytes (expandWordsWith S (fun r => aes.RCon.getD r 0) n xk) := by
  induction n generalizing xk with
  | zero => exact ⟨rfl, hb⟩
  | succ n ih =>
    obtain ⟨hstep, hbytes⟩ := expandStep_eq aes hV S xk h16 (by omega) hb hS hSb hRl hRb
    have hl := expandWordsWith_one_length S (fun r => aes.RCon.getD r 0) xk
    have ih2 := ih (expandWordsWith S (fun r => aes.RCon.getD r 0) 1 xk) (by omega) (by omega)
      hbytes
    rw [hl] at ih2
    rw [range_offsets, Circuit.foldList_cons, hstep, Circuit.andThen_some, expandWordsWith_succ]
    exact ih2

theorem ExpandKey_eq (aes : LookUpAESGadget)
    (hV : ∀ a b, a < 256 → b < 256 → aes.VariableXor a b 8 = some (a ^^^ b, true))
    (S : Nat → Nat) (key : List Nat)
    (hk : 16 ≤ key.length) (hkb : IsBytes key)
    (hS : ∀ a b c d, a < 256 → b < 256 → c < 256 → d < 256 →
      aes.Subws aes.sbox a b c d = some ([S a, S b, S c, S d], true))
    (hSb : ∀ a, a < 256 → S a < 256)
    (hRl : 11 ≤ aes.RCon.length)
    (hRb : ∀ r, 1 ≤ r → r ≤ 10 → aes.RCon.getD r 0 < 256) :
    LookUpAES128.ExpandKey aes key =
      some (expandWordsWith S (fun r => aes.RCon.getD r 0) 40 (key.take 16), true) ∧
    IsBytes (expandWordsWith S (fun r => aes.RCon.getD r 0) 40 (key.take 16)) := by
  have hl : (key.take 16).length = 16 := by simp; omega
  have hb : IsBytes (key.take 16) := fun x hx => hkb x (List.mem_of_mem_take hx)
  have h := expandSteps_eq aes hV S hS hSb hRl hRb 40 (key.take 16) (by omega) (by omega) hb
  rw [hl] at h
  unfold LookUpAES128.ExpandKey
  rw [Circuit.bind_def, copySteps_eq key hk, Circuit.andThen_some]
  exact h

theorem getD_append_lt (l l2 : List Nat) (j : Nat) (h : j < l.length) :
    (l ++ l2).getD j 0 = l.getD j 0 := by
  simp [List.getD_eq_getElem?_getD, List.getElem?_append_left h]

theorem getD_append_add (l l2 : List Nat) (k : Nat) :
    (l ++ l2).getD (l.length + k) 0 = l2.getD k 0 := by
  simp [List.getD_eq_getElem?_getD, List.getElem?_append_right]

theorem expandWordsWith_add (S rc : Nat → Nat) (a b : Nat) (xk : List Nat) :
    expandWordsWith S rc (a + b) xk = expandWordsWith S rc b (expandWordsWith S rc a xk) := by
  induction a generalizing xk with
  | zero => rw [Nat.zero_add]; rfl
  | succ a ih =>
    have e : a + 1 + b = (a + b) + 1 := by omega
    rw [e]
    exact ih (expandWordsWith S rc 1 xk)

theorem expandWordsWith_getD (S rc : Nat → Nat) (n : Nat) (xk : List Nat) (j : Nat)
    (h : j < xk.length) : (expandWordsWith S rc n xk).getD j 0 = xk.getD j 0 := by
  induction n generalizing xk with
  | zero => rfl
  | succ n ih =>
    rw [expandWordsWith_succ, ih _ (by rw [expandWordsWith_one_length]; omega)]
    simp only [expandWordsWith]
    exact getD_append_lt _ _ _ h

theorem keyRecurrence_step (S : Nat → Nat) (RCon : List Nat) (xk : List Nat)
    (h16 : 16 ≤ xk.length) :
    keyRecurrence S RCon (expandWordsWith S (fun r => RCon.getD r 0) 1 xk) xk.length := by
  have a0 : ∀ l2 j, j < xk.length → (xk ++ l2).getD j 0 = xk.getD j 0 :=
    fun l2 j h => getD_append_lt xk l2 j h
  have a1 : ∀ l2 k, (xk ++ l2).getD (xk.length + k) 0 = l2.getD k 0 :=
    fun l2 k => getD_append_add xk l2 k
  have a1z : ∀ l2, (xk ++ l2).getD xk.length 0 = l2.getD 0 0 := fun l2 => a1 l2 0
  have e15 : xk.length - 15 = xk.length - 16 + 1 := by omega
  have e14 : xk.length - 14 = xk.length - 16 + 2 := by omega
  have e13 : xk.length - 13 = xk.length - 16 + 3 := by omega
  unfold keyRecurrence
  simp only [expandWordsWith]
  constructor
  · intro hm k hk
    rw [if_neg hm, a1, a0 _ _ (by omega), a0 _ _ (by omega)]
    have e3 : xk.length - 3 = xk.length - 4 + 1 := by omega
    have e2 : xk.length - 2 = xk.length - 4 + 2 := by omega
    have e1 : xk.length - 1 = xk.length - 4 + 3 := by omega
    rw [e3, e2, e1]
    interval_cases k <;> rfl
  · intro hm
    rw [if_pos hm, a1z, a1, a1, a1, a0 _ _ (by omega), a0 _ _ (by omega), a0 _ _ (by omega),
      a0 _ _ (by omega), a0 _ _ (by omega), a0 _ _ (by omega), a0 _ _ (by omega),
      a0 _ _ (by omega), e15, e14, e13]
    exact ⟨rfl, rfl, rfl, rfl⟩

theorem keyRecurrence_of_getD (S : Nat → Nat) (RCon : List Nat) (e e2 : List Nat) (i : Nat)
    (h16 : 16 ≤ i) (h : ∀ j, j < i + 4 → e2.getD j 0 = e.getD j 0)
    (hr : keyRecurrence S RCon e i) : keyRecurrence S RCon e2 i := by
  unfold keyRecurrence at hr ⊢
  constructor
  · intro hm k hk
    rw [h _ (by omega), h _ (by omega), h _ (by omega)]
    exact hr.1 hm k hk
  · intro hm
    rw [h _ (by omega), h _ (by omega), h _ (by omega), h _ (by omega), h _ (by omega),
      h _ (by omega), h _ (by omega), h _ (by omega), h _ (by omega), h _ (by omega),
      h _ (by omega), h _ (by omega)]
    exact hr.2 hm

theorem expandWordsWith_recurrence (S : Nat → Nat) (RCon : List Nat) (k16 : List Nat)
    (h16 : k16.length = 16) (w : Nat) (hw : w < 40) :
    keyRecurrence S RCon (expandWordsWith S (fun r => RCon.getD r 0) 40 k16) (16 + 4 * w) := by
  have e40 : 40 = (w + 1) + (39 - w) := by omega
  have hlw : (expandWordsWith S (fun r => RCon.getD r 0) w k16).length = 16 + 4 * w := by
    rw [expandWordsWith_length, h16]
  have hstep := keyRecurrence_step S RCon (expandWordsWith S (fun r => RCon.getD r 0) w k16)
    (by omega)
  rw [hlw] at hstep
  apply keyRecurrence_of_getD S RCon _ _ _ (by omega) _ hstep
  intro j hj
  rw [e40, expandWordsWith_add, expandWordsWith_add _ _ w 1]
  apply expandWordsWith_getD
  rw [expandWordsWith_one_length, hlw]
  omega

theorem expandWordsWith_take (S rc : Nat → Nat) (n : Nat) (xk : List Nat) :
    (expandWordsWith S rc n xk).take xk.length = xk := by
  induction n generalizing xk with
  | zero => simp [expandWordsWith]
  | succ n ih =>
    have h := ih (expandWordsWith S rc 1 xk)
    rw [expandWordsWith_succ]
    have h2 : (expandWordsWith S rc n (expandWordsWith S rc 1 xk)).take xk.length =
        ((expandWordsWith S rc n (expandWordsWith S rc 1 xk)).take
          (expandWordsWith S rc 1 xk).length).take xk.length := by
      rw [List.take_take, expandWordsWith_one_length]
      congr 1
      omega
    rw [h2, h]
    simp [expandWordsWith]

/-- C13: under the contracts of the gadget methods (`VariableXor` returns the XOR of
two bytes, `Subws` returns the four substituted bytes `S a, S b, S c, S d`, which
are bytes, each with its constraints satisfied) and with byte round constants
`RCon[1..10]`, for every key of at least 16 bytes `ExpandKey` returns
176 bytes whose first 16 are `key[0..15]` and which satisfy the recurrence of
the key schedule at every word offset 16, 20, ..., 172; a key with the same
first 16 bytes gives the same result. -/
theorem ExpandKey_schedule (aes : LookUpAESGadget)
    (hV : ∀ a b, a < 256 → b < 256 → aes.VariableXor a b 8 = some (a ^^^ b, true))
    (S : Nat → Nat) (key : List Nat)
    (hk : 16 ≤ key.length) (hkb : IsBytes key)
    (hS : ∀ a b c d, a < 256 → b < 256 → c < 256 → d < 256 →
      aes.Subws aes.sbox a b c d = some ([S a, S b, S c, S d], true))
    (hSb : ∀ a, a < 256 → S a < 256)
    (hRl : 11 ≤ aes.RCon.length)
    (hRb : ∀ r, 1 ≤ r → r ≤ 10 → aes.RCon.getD r 0 < 256) :
    ∃ expand, LookUpAES128.ExpandKey aes key = some (expand, true) ∧
      expand.length = 176 ∧ IsBytes expand ∧ expand.take 16 = key.take 16 ∧
      (∀ w, w < 40 → keyRecurrence S aes.RCon expand (16 + 4 * w)) ∧
      (∀ key2, IsBytes key2 → key2.take 16 = key.take 16 →
        LookUpAES128.ExpandKey aes key2 = some (expand, true)) := by
  have hl : (key.take 16).length = 16 := by simp; omega
  obtain ⟨h1, h2⟩ := ExpandKey_eq aes hV S key hk hkb hS hSb hRl hRb
  refine ⟨_, h1, ?_, h2, ?_, ?_, ?_⟩
  · rw [expandWordsWith_length, hl]
  · have := expandWordsWith_take S (fun r => aes.RCon.getD r 0) 40 (key.take 16)
    rw [hl] at this
    exact this
  · intro w hw
    exact expandWordsWith_recurrence S aes.RCon (key.take 16) hl w hw
  · intro key2 hb2 h2k
    have hk2 : 16 ≤ key2.length := by
      have := congrArg List.length h2k
      rw [hl, List.length_take] at this
      omega
    rw [(ExpandKey_eq aes hV S key2 hk2 hb2 hS hSb hRl hRb).1, h2k]

/-! ## Lookup AES-128: round structure -/

theorem length_four (l : List Nat) (h : l.length = 4) : ∃ a b c d, l = [a, b, c, d] := by
  rcases l with _ | ⟨a, _ | ⟨b, _ | ⟨c, _ | ⟨d, _ | ⟨e, l⟩⟩⟩⟩⟩ <;> simp at h
  exact ⟨a, b, c, d, rfl⟩

theorem length_sixteen (l : List Nat) (h : l.length = 16) :
    ∃ s0 s1 s2 s3 s4 s5 s6 s7 s8 s9 s10 s11 s12 s13 s14 s15,
      l = [s0, s1, s2, s3, s4, s5, s6, s7, s8, s9, s10, s11, s12, s13, s14, s15] := by
  have e := take16_eq l (by omega)
  rw [List.take_of_length_le (by omega)] at e
  exact ⟨_, _, _, _, _, _, _, _, _, _, _, _, _, _, _, _, e⟩

theorem goSlice_four (s : List Nat) (lo hi : Nat) (h : hi = lo + 4) (h2 : hi ≤ s.length) :
    goSlice s (lo : Nat) (hi : Nat) = some ((s.drop lo).take 4, true) := by
  unfold goSlice
  rw [if_pos ⟨by omega, by omega, by exact_mod_cast h2⟩]
  simp only [Int.toNat_ofNat]
  have e : hi - lo = 4 := by omega
  rw [e]
  rfl

theorem slice_four (s : List Nat) (lo : Nat) (h : lo + 4 ≤ s.length) (hb : IsBytes s) :
    ((s.drop lo).take 4).length = 4 ∧ IsBytes ((s.drop lo).take 4) := by
  constructor
  · simp; omega
  · intro x hx
    exact hb x (List.mem_of_mem_drop (List.mem_of_mem_take hx))

theorem goCopyAt_columns (state t0 t1 t2 t3 : List Nat) (hs : state.length = 16)
    (h0 : t0.length = 4) (h1 : t1.length = 4) (h2 : t2.length = 4) (h3 : t3.length = 4) :
    goCopyAt (goCopyAt (goCopyAt (goCopyAt state 0 4 t0) 4 8 t1) 8 12 t2) 12 16 t3 =
      t0 ++ t1 ++ t2 ++ t3 := by
  obtain ⟨s0, s1, s2, s3, s4, s5, s6, s7, s8, s9, s10, s11, s12, s13, s14, s15, rfl⟩ :=
    length_sixteen state hs
  obtain ⟨a0, a1, a2, a3, rfl⟩ := length_four t0 h0
  obtain ⟨b0, b1, b2, b3, rfl⟩ := length_four t1 h1
  obtain ⟨c0, c1, c2, c3, rfl⟩ := length_four t2 h2
  obtain ⟨d0, d1, d2, d3, rfl⟩ := length_four t3 h3
  simp [goCopyAt, goCopyInto]

theorem goCopyInto_of_length (dst src : List Nat) (h : src.length = dst.length) :
    goCopyInto dst src = src := by
  unfold goCopyInto
  rw [← h, List.take_length, List.drop_eq_nil_of_le (by omega), List.append_nil]

theorem roundStep_eq (aes : LookUpAESGadget) (xsw : Nat → Nat → Nat → Nat → List Nat → List Nat)
    (xk state : List Nat) (r : Nat)
    (hX : ∀ a b c d k, a < 256 → b < 256 → c < 256 → d < 256 → k.length = 4 → IsBytes k →
      aes.XorSubWords a b c d k = some (xsw a b c d k, true))
    (hXl : ∀ a b c d k, a < 256 → b < 256 → c < 256 → d < 256 → k.length = 4 → IsBytes k →
      (xsw a b c d k).length = 4 ∧ IsBytes (xsw a b c d k))
    (hs : state.length = 16) (hsb : IsBytes state) (hxl : xk.length = 176) (hxb : IsBytes xk)
    (hr : r ≤ 10) :
    LookUpAES128.roundStep aes xk state r = some (lookupRound xsw xk r state, true) ∧
      (lookupRound xsw xk r state).length = 16 ∧ IsBytes (lookupRound xsw xk r state) := by
  have g : ∀ i, state.getD i 0 < 256 := fun i => IsBytes_getD state i hsb
  have k0 := slice_four xk (r * 16 + 0) (by omega) hxb
  have k1 := slice_four xk (r * 16 + 4) (by omega) hxb
  have k2 := slice_four xk (r * 16 + 8) (by omega) hxb
  have k3 := slice_four xk (r * 16 + 12) (by omega) hxb
  have c0 := hXl _ _ _ _ _ (g 0) (g 5) (g 10) (g 15) k0.1 k0.2
  have c1 := hXl _ _ _ _ _ (g 4) (g 9) (g 14) (g 3) k1.1 k1.2
  have c2 := hXl _ _ _ _ _ (g 8) (g 13) (g 2) (g 7) k2.1 k2.2
  have c3 := hXl _ _ _ _ _ (g 12) (g 1) (g 6) (g 11) k3.1 k3.2
  have e : lookupRound xsw xk r state =
      xsw (state.getD 0 0) (state.getD 5 0) (state.getD 10 0) (state.getD 15 0)
        ((xk.drop (r * 16 + 0)).take 4) ++
      xsw (state.getD 4 0) (state.getD 9 0) (state.getD 14 0) (state.getD 3 0)
        ((xk.drop (r * 16 + 4)).take 4) ++
      xsw (state.getD 8 0) (state.getD 13 0) (state.getD 2 0) (state.getD 7 0)
        ((xk.drop (r * 16 + 8)).take 4) ++
      xsw (state.getD 12 0) (state.getD 1 0) (state.getD 6 0) (state.getD 11 0)
        ((xk.drop (r * 16 + 12)).take 4) := by
    unfold lookupRound
    simp only [Nat.mul_comm 16 r, Nat.add_zero]
  rw [e]
  refine ⟨?_, ?_, ?_⟩
  · unfold LookUpAES128.roundStep
    simp only [Circuit.bind_def, Circuit.pure_def, Circuit.ret]
    rw [goIndex_eq_getD state 0 (by omega), Circuit.andThen_some,
      goIndex_eq_getD state 5 (by omega), Circuit.andThen_some,
      goIndex_eq_getD state 10 (by omega), Circuit.andThen_some,
      goIndex_eq_getD state 15 (by omega), Circuit.andThen_some,
      goSlice_four xk _ _ (by omega) (by omega), Circuit.andThen_some,
      hX _ _ _ _ _ (g 0) (g 5) (g 10) (g 15) k0.1 k0.2, Circuit.andThen_some,
      goIndex_eq_getD state 4 (by omega), Circuit.andThen_some,
      goIndex_eq_getD state 9 (by omega), Circuit.andThen_some,
      goIndex_eq_getD state 14 (by omega), Circuit.andThen_some,
      goIndex_eq_getD state 3 (by omega), Circuit.andThen_some,
      goSlice_four xk _ _ (by omega) (by omega), Circuit.andThen_some,
      hX _ _ _ _ _ (g 4) (g 9) (g 14) (g 3) k1.1 k1.2, Circuit.andThen_some,
      goIndex_eq_getD state 8 (by omega), Circuit.andThen_some,
      goIndex_eq_getD state 13 (by omega), Circuit.andThen_some,
      goIndex_eq_getD state 2 (by omega), Circuit.andThen_some,
      goIndex_eq_getD state 7 (by omega), Circuit.andThen_some,
      goSlice_four xk _ _ (by omega) (by omega), Circuit.andThen_some,
      hX _ _ _ _ _ (g 8) (g 13) (g 2) (g 7) k2.1 k2.2, Circuit.andThen_some,
      goIndex_eq_getD state 12 (by omega), Circuit.andThen_some,
      goIndex_eq_getD state 1 (by omega), Circuit.andThen_some,
      goIndex_eq_getD state 6 (by omega), Circuit.andThen_some,
      goIndex_eq_getD state 11 (by omega), Circuit.andThen_some,
      goSlice_four xk _ _ (by omega) (by omega), Circuit.andThen_some,
      hX _ _ _ _ _ (g 12) (g 1) (g 6) (g 11) k3.1 k3.2, Circuit.andThen_some]
    rw [goCopyAt_columns state _ _ _ _ hs c0.1 c1.1 c2.1 c3.1]
  · simp only [List.length_append, c0.1, c1.1, c2.1, c3.1]
  · exact IsBytes_append _ _ (IsBytes_append _ _ (IsBytes_append _ _ c0.2 c1.2) c2.2) c3.2

theorem initialState_eq (aes : LookUpAESGadget)
    (hV : ∀ a b, a < 256 → b < 256 → aes.VariableXor a b 8 = some (a ^^^ b, true))
    (xk pt : List Nat) (hxl : 16 ≤ xk.length)
    (hxb : IsBytes xk) (hpl : pt.length = 16) (hpb : IsBytes pt) :
    Circuit.mapList (List.range 16) (fun i =>
      Circuit.andThen (goIndex xk i) (fun x =>
        Circuit.andThen (goIndex pt i) (fun p => aes.VariableXor x p 8))) =
      some ((List.range 16).map (fun i => pt.getD i 0 ^^^ xk.getD i 0), true) := by
  apply Circuit.mapList_eq_of_forall
  intro i hi
  have hi2 : i < 16 := List.mem_range.mp hi
  rw [goIndex_eq_getD xk i (by omega), Circuit.andThen_some, goIndex_eq_getD pt i (by omega),
    Circuit.andThen_some,
    hV _ _ (IsBytes_getD xk i hxb) (IsBytes_getD pt i hpb),
    Nat.xor_comm]

theorem getD_set_ne (l : List Nat) (a b v : Nat) (h : a ≠ b) :
    (l.set a v).getD b 0 = l.getD b 0 := by
  simp [List.getD_eq_getElem?_getD, List.getElem?_set_ne h]

theorem IsBytes_set (l : List Nat) (i v : Nat) (h : IsBytes l) (hv : v < 256) :
    IsBytes (l.set i v) := by
  intro x hx
  rcases List.mem_or_eq_of_mem_set hx with h1 | h1
  · exact h x h1
  · rw [h1]; exact hv

theorem finalStep_eq (aes : LookUpAESGadget)
    (hV : ∀ a b, a < 256 → b < 256 → aes.VariableXor a b 8 = some (a ^^^ b, true))
    (xk st : List Nat) (i : Nat) (hs : st.length = 16)
    (hb : IsBytes st) (hxl : xk.length = 176) (hxb : IsBytes xk) (hi : i < 4) :
    LookUpAES128.finalStep aes xk st i = some (finalStepValue xk st i, true) ∧
      (finalStepValue xk st i).length = 16 ∧ IsBytes (finalStepValue xk st i) := by
  have hxg : ∀ j, xk.getD j 0 < 256 := fun j => IsBytes_getD xk j hxb
  have hsg : ∀ j, st.getD j 0 < 256 := fun j => IsBytes_getD st j hb
  refine ⟨?_, ?_, ?_⟩
  · unfold LookUpAES128.finalStep finalStepValue
    simp only [Circuit.bind_def, Circuit.pure_def, Circuit.ret, Nat.add_zero]
    rw [goIndex_eq_getD st i (by omega), Circuit.andThen_some,
      goIndex_eq_getD xk _ (by omega), Circuit.andThen_some,
      hV _ _ (hsg _) (hxg _), Circuit.andThen_some,
      goIndex_eq_getD _ (i + 4) (by simp only [List.length_set]; omega), Circuit.andThen_some,
      goIndex_eq_getD xk _ (by omega), Circuit.andThen_some,
      getD_set_ne _ _ _ _ (by omega),
      hV _ _ (hsg _) (hxg _), Circuit.andThen_some,
      goIndex_eq_getD _ (i + 8) (by simp only [List.length_set]; omega), Circuit.andThen_some,
      goIndex_eq_getD xk _ (by omega), Circuit.andThen_some,
      getD_set_ne _ _ _ _ (by omega), getD_set_ne _ _ _ _ (by omega),
      hV _ _ (hsg _) (hxg _), Circuit.andThen_some,
      goIndex_eq_getD _ (i + 12) (by simp only [List.length_set]; omega), Circuit.andThen_some,
      goIndex_eq_getD xk _ (by omega), Circuit.andThen_some,
      getD_set_ne _ _ _ _ (by omega), getD_set_ne _ _ _ _ (by omega),
      getD_set_ne _ _ _ _ (by omega),
      hV _ _ (hsg _) (hxg _), Circuit.andThen_some]
  · unfold finalStepValue
    simp only [List.length_set, hs]
  · unfold finalStepValue
    exact IsBytes_set _ _ _ (IsBytes_set _ _ _ (IsBytes_set _ _ _ (IsBytes_set _ _ _ hb
      (xor_lt_256 _ _ (hsg _) (hxg _))) (xor_lt_256 _ _ (hsg _) (hxg _)))
      (xor_lt_256 _ _ (hsg _) (hxg _))) (xor_lt_256 _ _ (hsg _) (hxg _))

theorem finalStepValue_all (xk st : List Nat) (hs : st.length = 16) :
    finalStepValue xk (finalStepValue xk (finalStepValue xk (finalStepValue xk st 0) 1) 2) 3 =
      (List.range 16).map (fun i => st.getD i 0 ^^^ xk.getD (160 + i) 0) := by
  obtain ⟨s0, s1, s2, s3, s4, s5, s6, s7, s8, s9, s10, s11, s12, s13, s14, s15, rfl⟩ :=
    length_sixteen st hs
  simp [finalStepValue, List.range_succ]

theorem finalSteps_eq (aes : LookUpAESGadget)
    (hV : ∀ a b, a < 256 → b < 256 → aes.VariableXor a b 8 = some (a ^^^ b, true))
    (xk st : List Nat) (hs : st.length = 16)
    (hb : IsBytes st) (hxl : xk.length = 176) (hxb : IsBytes xk) :
    Circuit.foldList (List.range 4) st (LookUpAES128.finalStep aes xk) =
      some ((List.range 16).map (fun i => st.getD i 0 ^^^ xk.getD (160 + i) 0), true) := by
  have f0 := finalStep_eq aes hV xk st 0 hs hb hxl hxb (by omega)
  have f1 := finalStep_eq aes hV xk _ 1 f0.2.1 f0.2.2 hxl hxb (by omega)
  have f2 := finalStep_eq aes hV xk _ 2 f1.2.1 f1.2.2 hxl hxb (by omega)
  have f3 := finalStep_eq aes hV xk _ 3 f2.2.1 f2.2.2 hxl hxb (by omega)
  have r4 : List.range 4 = [0, 1, 2, 3] := rfl
  rw [r4]
  simp only [Circuit.foldList_cons, Circuit.foldList_nil]
  rw [f0.1, Circuit.andThen_some, f1.1, Circuit.andThen_some, f2.1, Circuit.andThen_some,
    f3.1, Circuit.andThen_some, finalStepValue_all xk st hs]

theorem Encrypt_eq_roundStructure (aes : LookUpAESGadget)
    (hV : ∀ a b, a < 256 → b < 256 → aes.VariableXor a b 8 = some (a ^^^ b, true))
    (xsw : Nat → Nat → Nat → Nat → List Nat → List Nat) (ss : List Nat → List Nat)
    (key pt xk : List Nat)
    (hxk : LookUpAES128.ExpandKey aes key = some (xk, true)) (hxl : xk.length = 176)
    (hxb : IsBytes xk) (hpl : pt.length = 16) (hpb : IsBytes pt)
    (hX : ∀ a b c d k, a < 256 → b < 256 → c < 256 → d < 256 → k.length = 4 → IsBytes k →
      aes.XorSubWords a b c d k = some (xsw a b c d k, true))
    (hXl : ∀ a b c d k, a < 256 → b < 256 → c < 256 → d < 256 → k.length = 4 → IsBytes k →
      (xsw a b c d k).length = 4 ∧ IsBytes (xsw a b c d k))
    (hSS : ∀ st, st.length = 16 → IsBytes st → aes.ShiftSub st = some (ss st, true))
    (hSSl : ∀ st, st.length = 16 → IsBytes st → (ss st).length = 16 ∧ IsBytes (ss st)) :
    LookUpAES128.Encrypt aes key pt = some (roundStructure xsw ss xk pt, true) := by
  have hs0l : ((List.range 16).map (fun i => pt.getD i 0 ^^^ xk.getD i 0)).length = 16 := by
    simp
  have hs0b : IsBytes ((List.range 16).map (fun i => pt.getD i 0 ^^^ xk.getD i 0)) := by
    intro x hx
    obtain ⟨i, _, rfl⟩ := List.mem_map.mp hx
    exact xor_lt_256 _ _ (IsBytes_getD pt i hpb) (IsBytes_getD xk i hxb)
  have r1 := roundStep_eq aes xsw xk _ 1 hX hXl hs0l hs0b hxl hxb (by omega)
  have r2 := roundStep_eq aes xsw xk _ 2 hX hXl r1.2.1 r1.2.2 hxl hxb (by omega)
  have r3 := roundStep_eq aes xsw xk _ 3 hX hXl r2.2.1 r2.2.2 hxl hxb (by omega)
  have r4 := roundStep_eq aes xsw xk _ 4 hX hXl r3.2.1 r3.2.2 hxl hxb (by omega)
  have r5 := roundStep_eq aes xsw xk _ 5 hX hXl r4.2.1 r4.2.2 hxl hxb (by omega)
  have r6 := roundStep_eq aes xsw xk _ 6 hX hXl r5.2.1 r5.2.2 hxl hxb (by omega)
  have r7 := roundStep_eq aes xsw xk _ 7 hX hXl r6.2.1 r6.2.2 hxl hxb (by omega)
  have r8 := roundStep_eq aes xsw xk _ 8 hX hXl r7.2.1 r7.2.2 hxl hxb (by omega)
  have r9 := roundStep_eq aes xsw xk _ 9 hX hXl r8.2.1 r8.2.2 hxl hxb (by omega)
  have hss := hSSl _ r9.2.1 r9.2.2
  have rr : List.range' 1 9 = [1, 2, 3, 4, 5, 6, 7, 8, 9] := rfl
  unfold LookUpAES128.Encrypt
  simp only [Circuit.bind_def]
  rw [hxk, Circuit.andThen_some, initialState_eq aes hV xk pt (by omega) hxb hpl hpb,
    Circuit.andThen_some, rr]
  simp only [Circuit.foldList_cons, Circuit.foldList_nil]
  rw [r1.1, Circuit.andThen_some, r2.1, Circuit.andThen_some, r3.1, Circuit.andThen_some,
    r4.1, Circuit.andThen_some, r5.1, Circuit.andThen_some, r6.1, Circuit.andThen_some,
    r7.1, Circuit.andThen_some, r8.1, Circuit.andThen_some, r9.1, Circuit.andThen_some,
    Circuit.andThen_some, hSS _ r9.2.1 r9.2.2, Circuit.andThen_some,
    goCopyInto_of_length _ _ (by rw [hss.1, r9.2.1]),
    finalSteps_eq aes hV xk _ hss.1 hss.2 hxl hxb]
  rfl

/-- C14: under the contracts of the gadget methods (`VariableXor` returns the XOR of
two bytes, `XorSubWords` and `ShiftSub` return on bytes the values `xsw` and `ss`,
which are bytes, each with its constraints satisfied), with `xk` the 176 bytes
of `ExpandKey(key)`, `Encrypt` returns the
round structure of the claim: round key 0 XORed into the block, the nine rounds
`r = 1..9` of `XorSubWords` on the state bytes in ShiftRows order with
`xk[16r .. 16r+15]`, then `ShiftSub` and the XOR with `xk[160 + i]`; every round
key is used once, in order. -/
theorem Encrypt_round_structure (aes : LookUpAESGadget)
    (hV : ∀ a b, a < 256 → b < 256 → aes.VariableXor a b 8 = some (a ^^^ b, true))
    (xsw : Nat → Nat → Nat → Nat → List Nat → List Nat) (ss : List Nat → List Nat)
    (key pt xk : List Nat)
    (hxk : LookUpAES128.ExpandKey aes key = some (xk, true)) (hxl : xk.length = 176)
    (hxb : IsBytes xk) (hpl : pt.length = 16) (hpb : IsBytes pt)
    (hX : ∀ a b c d k, a < 256 → b < 256 → c < 256 → d < 256 → k.length = 4 → IsBytes k →
      aes.XorSubWords a b c d k = some (xsw a b c d k, true))
    (hXl : ∀ a b c d k, a < 256 → b < 256 → c < 256 → d < 256 → k.length = 4 → IsBytes k →
      (xsw a b c d k).length = 4 ∧ IsBytes (xsw a b c d k))
    (hSS : ∀ st, st.length = 16 → IsBytes st → aes.ShiftSub st = some (ss st, true))
    (hSSl : ∀ st, st.length = 16 → IsBytes st → (ss st).length = 16 ∧ IsBytes (ss st)) :
    LookUpAES128.Encrypt aes key pt = some (roundStructure xsw ss xk pt, true) ∧
    (roundStructure xsw ss xk pt).length = 16 ∧
    roundStructure xsw ss xk pt =
      (List.range 16).map (fun i =>
        (ss (lookupRound xsw xk 9 (lookupRound xsw xk 8 (lookupRound xsw xk 7
          (lookupRound xsw xk 6 (lookupRound xsw xk 5 (lookupRound xsw xk 4
            (lookupRound xsw xk 3 (lookupRound xsw xk 2 (lookupRound xsw xk 1
              ((List.range 16).map (fun j => pt.getD j 0 ^^^ xk.getD j 0)))))))))))).getD i 0
          ^^^ xk.getD (160 + i) 0) := by
  refine ⟨Encrypt_eq_roundStructure aes hV xsw ss key pt xk hxk hxl hxb hpl hpb hX hXl hSS hSSl,
    ?_, rfl⟩
  simp [roundStructure]

/-! ## Lookup AES-128 with the tables of AES -/

theorem sbox_bytes : IsBytes AES128.sbox := by decide

theorem subByte_lt (a : Nat) : AES128.subByte a < 256 := IsBytes_getD AES128.sbox a sbox_bytes

theorem xtime_lt (b : Nat) (h : b < 256) : AES128.xtime b < 256 := by
  unfold AES128.xtime
  split
  · omega
  · exact xor_lt_256 _ _ (by omega) (by decide)

theorem mixColumn_bytes (a b c d : Nat) (ha : a < 256) (hb : b < 256) (hc : c < 256)
    (hd : d < 256) : IsBytes (AES128.mixColumn a b c d) := by
  have xa := xtime_lt a ha
  have xb := xtime_lt b hb
  have xc := xtime_lt c hc
  have xd := xtime_lt d hd
  intro x hx
  simp only [AES128.mixColumn, List.mem_cons, List.mem_singleton, List.not_mem_nil,
    or_false] at hx
  rcases hx with rfl | rfl | rfl | rfl
  · exact xor_lt_256 _ _ (xor_lt_256 _ _ (xor_lt_256 _ _ xa (xor_lt_256 _ _ xb hb)) hc) hd
  · exact xor_lt_256 _ _ (xor_lt_256 _ _ (xor_lt_256 _ _ ha xb) (xor_lt_256 _ _ xc hc)) hd
  · exact xor_lt_256 _ _ (xor_lt_256 _ _ (xor_lt_256 _ _ ha hb) xc) (xor_lt_256 _ _ xd hd)
  · exact xor_lt_256 _ _ (xor_lt_256 _ _ (xor_lt_256 _ _ (xor_lt_256 _ _ xa ha) hb) hc) xd

theorem aesColumn_bytes (a b c d : Nat) (k : List Nat) (hk : k.length = 4) (hkb : IsBytes k) :
    (List.zipWith (fun x y => x ^^^ y)
      (AES128.mixColumn (AES128.subByte a) (AES128.subByte b) (AES128.subByte c)
        (AES128.subByte d)) k).length = 4 ∧
    IsBytes (List.zipWith (fun x y => x ^^^ y)
      (AES128.mixColumn (AES128.subByte a) (AES128.subByte b) (AES128.subByte c)
        (AES128.subByte d)) k) := by
  have hm := mixColumn_bytes _ _ _ _ (subByte_lt a) (subByte_lt b) (subByte_lt c) (subByte_lt d)
  constructor
  · simp [AES128.mixColumn, hk]
  · intro x hx
    obtain ⟨i, hi, rfl⟩ := List.mem_iff_getElem.mp hx
    rw [List.getElem_zipWith]
    exact xor_lt_256 _ _ (hm _ (List.getElem_mem _)) (hkb _ (List.getElem_mem _))

theorem shiftSub_bytes (st : List Nat) :
    (AES128.shiftRows (st.map AES128.subByte)).length = 16 ∧
    IsBytes (AES128.shiftRows (st.map AES128.subByte)) := by
  constructor
  · simp [AES128.shiftRows]
  · intro x hx
    unfold AES128.shiftRows at hx
    obtain ⟨i, _, rfl⟩ := List.mem_map.mp hx
    rw [List.getD_eq_getElem?_getD]
    cases h : (st.map AES128.subByte)[i]? with
    | none => simp
    | some v =>
      obtain ⟨hlt, rfl⟩ := List.getElem?_eq_some_iff.mp h
      simp only [List.getElem_map, Option.getD_some]
      exact subByte_lt _

theorem slice_getD (xk : List Nat) (lo n : Nat) (h : lo + n ≤ xk.length) :
    (xk.drop lo).take n = (List.range n).map (fun j => xk.getD (lo + j) 0) := by
  apply List.ext_getElem
  · simp; omega
  · intro i h1 h2
    have hi : i < n := by simpa using h2
    simp [List.getD_eq_getElem?_getD, List.getElem?_eq_getElem (show lo + i < xk.length by omega)]

theorem xorKey_eq (st xk : List Nat) (r : Nat) (hs : st.length = 16)
    (hx : 16 * r + 16 ≤ xk.length) :
    (List.range 16).map (fun i => st.getD i 0 ^^^ xk.getD (16 * r + i) 0) =
      AES128.addRoundKey xk r st := by
  unfold AES128.addRoundKey
  rw [slice_getD xk (16 * r) 16 hx]
  obtain ⟨s0, s1, s2, s3, s4, s5, s6, s7, s8, s9, s10, s11, s12, s13, s14, s15, rfl⟩ :=
    length_sixteen st hs
  rfl

theorem lookupRound_eq_AES (xk s : List Nat) (r : Nat) (hs : s.length = 16)
    (hx : 16 * r + 16 ≤ xk.length) :
    lookupRound (fun a b c d k => List.zipWith (fun x y => x ^^^ y)
        (AES128.mixColumn (AES128.subByte a) (AES128.subByte b) (AES128.subByte c)
          (AES128.subByte d)) k) xk r s =
      AES128.addRoundKey xk r (AES128.mixColumns (AES128.shiftRows (s.map AES128.subByte))) := by
  unfold lookupRound AES128.addRoundKey
  rw [slice_getD xk (16 * r) 16 hx, slice_getD xk (16 * r) 4 (by omega),
    slice_getD xk (16 * r + 4) 4 (by omega), slice_getD xk (16 * r + 8) 4 (by omega),
    slice_getD xk (16 * r + 12) 4 (by omega)]
  obtain ⟨s0, s1, s2, s3, s4, s5, s6, s7, s8, s9, s10, s11, s12, s13, s14, s15, rfl⟩ :=
    length_sixteen s hs
  rfl

theorem lookupRound_length (xsw : Nat → Nat → Nat → Nat → List Nat → List Nat)
    (hl : ∀ a b c d k, k.length = 4 → (xsw a b c d k).length = 4) (xk s : List Nat) (r : Nat)
    (hx : 16 * r + 16 ≤ xk.length) : (lookupRound xsw xk r s).length = 16 := by
  unfold lookupRound
  have l0 : ((xk.drop (16 * r)).take 4).length = 4 := by simp; omega
  have l1 : ((xk.drop (16 * r + 4)).take 4).length = 4 := by simp; omega
  have l2 : ((xk.drop (16 * r + 8)).take 4).length = 4 := by simp; omega
  have l3 : ((xk.drop (16 * r + 12)).take 4).length = 4 := by simp; omega
  simp only [List.length_append, hl _ _ _ _ _ l0, hl _ _ _ _ _ l1, hl _ _ _ _ _ l2,
    hl _ _ _ _ _ l3]

theorem roundStructure_eq_AES (xk pt : List Nat) (hxl : xk.length = 176)
    (hpl : pt.length = 16) :
    roundStructure (fun a b c d k => List.zipWith (fun x y => x ^^^ y)
        (AES128.mixColumn (AES128.subByte a) (AES128.subByte b) (AES128.subByte c)
          (AES128.subByte d)) k)
      (fun st => AES128.shiftRows (st.map AES128.subByte)) xk pt =
    AES128.addRoundKey xk 10 (AES128.shiftRows
      ((AES128.fullRounds xk 9 1 (AES128.addRoundKey xk 0 (pt.take 16))).map AES128.subByte)) := by
  have hl : ∀ (a b c d : Nat) (k : List Nat), k.length = 4 →
      (List.zipWith (fun x y => x ^^^ y)
        (AES128.mixColumn (AES128.subByte a) (AES128.subByte b) (AES128.subByte c)
          (AES128.subByte d)) k).length = 4 := by
    intro a b c d k hk
    simp [AES128.mixColumn, hk]
  have h0 : (List.range 16).map (fun i => pt.getD i 0 ^^^ xk.getD i 0) =
      AES128.addRoundKey xk 0 (pt.take 16) := by
    rw [List.take_of_length_le (by omega), ← xorKey_eq pt xk 0 hpl (by omega)]
    simp
  have h10 : ∀ st : List Nat, st.length = 16 →
      (List.range 16).map (fun i => st.getD i 0 ^^^ xk.getD (160 + i) 0) =
        AES128.addRoundKey xk 10 st := by
    intro st hs
    rw [← xorKey_eq st xk 10 hs (by omega)]
  have len : ∀ r s, r ≤ 9 → (lookupRound (fun a b c d k => List.zipWith (fun x y => x ^^^ y)
        (AES128.mixColumn (AES128.subByte a) (AES128.subByte b) (AES128.subByte c)
          (AES128.subByte d)) k) xk r s).length = 16 :=
    fun r s hr => lookupRound_length _ hl xk s r (by omega)
  have step : ∀ r s, 1 ≤ r → r ≤ 9 → s.length = 16 →
      lookupRound (fun a b c d k => List.zipWith (fun x y => x ^^^ y)
        (AES128.mixColumn (AES128.subByte a) (AES128.subByte b) (AES128.subByte c)
          (AES128.subByte d)) k) xk r s =
      AES128.fullRounds xk 1 r s := by
    intro r s _ hr hs
    rw [lookupRound_eq_AES xk s r hs (by omega)]
    rfl
  have split : ∀ (n r : Nat) (s : List Nat),
      AES128.fullRounds xk (n + 1) r s = AES128.fullRounds xk n (r + 1)
        (AES128.fullRounds xk 1 r s) := fun n r s => rfl
  have hs0 : ((List.range 16).map (fun i => pt.getD i 0 ^^^ xk.getD i 0)).length = 16 := by
    simp
  unfold roundStructure
  dsimp only
  rw [h10 _ (shiftSub_bytes _).1]
  rw [step 9 _ (by omega) (by omega) (len 8 _ (by omega)),
    step 8 _ (by omega) (by omega) (len 7 _ (by omega)),
    step 7 _ (by omega) (by omega) (len 6 _ (by omega)),
    step 6 _ (by omega) (by omega) (len 5 _ (by omega)),
    step 5 _ (by omega) (by omega) (len 4 _ (by omega)),
    step 4 _ (by omega) (by omega) (len 3 _ (by omega)),
    step 3 _ (by omega) (by omega) (len 2 _ (by omega)),
    step 2 _ (by omega) (by omega) (len 1 _ (by omega)),
    step 1 _ (by omega) (by omega) hs0, h0]
  rfl

theorem slice_four_getD (xk : List Nat) (lo : Nat) (h : lo + 4 ≤ xk.length) :
    (xk.drop lo).take 4 =
      [xk.getD lo 0, xk.getD (lo + 1) 0, xk.getD (lo + 2) 0, xk.getD (lo + 3) 0] := by
  rw [slice_getD xk lo 4 h]
  rfl

theorem expandWordsWith_eq_AES (rc : Nat → Nat)
    (hrc : ∀ r, 1 ≤ r → r ≤ 10 → rc r = AES128.rcon.getD (r - 1) 0) (n : Nat) (xk : List Nat)
    (h16 : 16 ≤ xk.length) (hlen : xk.length + 4 * n ≤ 176) :
    expandWordsWith AES128.subByte rc n xk = AES128.expandWords n xk := by
  induction n generalizing xk with
  | zero => rfl
  | succ n ih =>
    have hstep : expandWordsWith AES128.subByte rc 1 xk = AES128.expandWords 1 xk := by
      simp only [expandWordsWith, AES128.expandWords]
      rw [slice_four_getD xk (xk.length - 16) (by omega)]
      by_cases hm : xk.length % 16 = 0
      · rw [if_pos hm, if_pos hm, hrc _ (by omega) (by omega)]
        rfl
      · rw [if_neg hm, if_neg hm]
        rfl
    have e : AES128.expandWords (n + 1) xk = AES128.expandWords n (AES128.expandWords 1 xk) :=
      rfl
    rw [expandWordsWith_succ, e, hstep]
    have hl : (AES128.expandWords 1 xk).length = xk.length + 4 := by
      rw [← hstep, expandWordsWith_one_length]
    exact ih _ (by omega) (by omega)

/-- C12: with the methods of the gadget meeting the AES contracts (`VariableXor`
returns the XOR of two bytes, `Subws` the S-box values of four bytes,
`RCon[1..10]` are the round constants,
`XorSubWords` is substitution, column mixing and round-key XOR, `ShiftSub` is
substitution and row shift, each with its constraints satisfied on bytes),
for every 16-byte key and every 16-byte block `LookUpAES128.Encrypt(key, pt)`
returns the AES-128 ciphertext of `pt` under `key` with all constraints
satisfied. -/
theorem LookUpAES128_Encrypt_AES (aes : LookUpAESGadget)
    (hV : ∀ a b, a < 256 → b < 256 → aes.VariableXor a b 8 = some (a ^^^ b, true))
    (key pt : List Nat)
    (hkl : key.length = 16) (hkb : IsBytes key) (hpl : pt.length = 16) (hpb : IsBytes pt)
    (hS : ∀ a b c d, a < 256 → b < 256 → c < 256 → d < 256 →
      aes.Subws aes.sbox a b c d =
        some ([AES128.subByte a, AES128.subByte b, AES128.subByte c, AES128.subByte d], true))
    (hRl : 11 ≤ aes.RCon.length)
    (hRv : ∀ r, 1 ≤ r → r ≤ 10 → aes.RCon.getD r 0 = AES128.rcon.getD (r - 1) 0)
    (hX : ∀ a b c d k, a < 256 → b < 256 → c < 256 → d < 256 → k.length = 4 → IsBytes k →
      aes.XorSubWords a b c d k =
        some (List.zipWith (fun x y => x ^^^ y)
          (AES128.mixColumn (AES128.subByte a) (AES128.subByte b) (AES128.subByte c)
            (AES128.subByte d)) k, true))
    (hSS : ∀ st, st.length = 16 → IsBytes st →
      aes.ShiftSub st = some (AES128.shiftRows (st.map AES128.subByte), true)) :
    LookUpAES128.Encrypt aes key pt = some (AES128.encryptBlock key pt, true) := by
  have hRb : ∀ r, 1 ≤ r → r ≤ 10 → aes.RCon.getD r 0 < 256 := by
    intro r h1 h2
    rw [hRv r h1 h2]
    exact IsBytes_getD _ _ (by decide)
  have hk16 : (key.take 16).length = 16 := by simp; omega
  obtain ⟨hxk, hxb⟩ := ExpandKey_eq aes hV AES128.subByte key (by omega) hkb hS
    (fun a _ => subByte_lt a) hRl hRb
  have hxe : expandWordsWith AES128.subByte (fun r => aes.RCon.getD r 0) 40 (key.take 16) =
      AES128.expandKey key :=
    expandWordsWith_eq_AES _ hRv 40 (key.take 16) (by omega) (by omega)
  rw [hxe] at hxk hxb
  have hxl : (AES128.expandKey key).length = 176 := by
    rw [← hxe, expandWordsWith_length, hk16]
  rw [Encrypt_eq_roundStructure aes hV _ _ key pt (AES128.expandKey key) hxk hxl hxb hpl hpb hX
    (fun a b c d k _ _ _ _ hk hkb2 => aesColumn_bytes a b c d k hk hkb2) hSS
    (fun st _ _ => shiftSub_bytes st), roundStructure_eq_AES _ pt hxl hpl]
  rfl

theorem standard_Subws (a b c d : Nat) (ha : a < 256) (hb : b < 256) (hc : c < 256)
    (hd : d < 256) :
    LookUpAESGadget.standard.Subws LookUpAESGadget.standard.sbox a b c d =
      some ([AES128.subByte a, AES128.subByte b, AES128.subByte c, AES128.subByte d], true) := by
  have h : [a, b, c, d].all (fun x => decide (x < 256)) = true := by
    simp [ha, hb, hc, hd]
  simp only [LookUpAESGadget.standard, h]
  rfl

theorem standard_VariableXor (a b : Nat) (ha : a < 256) (hb : b < 256) :
    LookUpAESGadget.standard.VariableXor a b 8 = some (a ^^^ b, true) :=
  VariableXor_eq a b 8 ha hb (by decide)

theorem standard_RCon (r : Nat) (h1 : 1 ≤ r) (_h2 : r ≤ 10) :
    LookUpAESGadget.standard.RCon.getD r 0 = AES128.rcon.getD (r - 1) 0 := by
  obtain ⟨q, rfl⟩ : ∃ q, r = q + 1 := ⟨r - 1, by omega⟩
  rfl

theorem standard_RCon_bytes (r : Nat) (_h1 : 1 ≤ r) (_h2 : r ≤ 10) :
    LookUpAESGadget.standard.RCon.getD r 0 < 256 :=
  IsBytes_getD _ _ (by decide)

theorem standard_XorSubWords (a b c d : Nat) (k : List Nat) (ha : a < 256) (hb : b < 256)
    (hc : c < 256) (hd : d < 256) (_hk : k.length = 4) (hkb : IsBytes k) :
    LookUpAESGadget.standard.XorSubWords a b c d k =
      some (List.zipWith (fun x y => x ^^^ y)
        (AES128.mixColumn (AES128.subByte a) (AES128.subByte b) (AES128.subByte c)
          (AES128.subByte d)) k, true) := by
  have h : ([a, b, c, d] ++ k).all (fun x => decide (x < 256)) = true := by
    rw [List.all_eq_true]
    intro x hx
    simp only [List.cons_append, List.nil_append, List.mem_cons] at hx
    rcases hx with rfl | rfl | rfl | rfl | hx
    · exact decide_eq_true ha
    · exact decide_eq_true hb
    · exact decide_eq_true hc
    · exact decide_eq_true hd
    · exact decide_eq_true (hkb x hx)
  simp only [LookUpAESGadget.standard, h]

theorem standard_ShiftSub (st : List Nat) (_hs : st.length = 16) (hb : IsBytes st) :
    LookUpAESGadget.standard.ShiftSub st =
      some (AES128.shiftRows (st.map AES128.subByte), true) := by
  have h : st.all (fun x => decide (x < 256)) = true := by
    rw [List.all_eq_true]
    intro x hx
    exact decide_eq_true (hb x hx)
  simp only [LookUpAESGadget.standard, h]

theorem standard_ExpandKey (key : List Nat) (hk : 16 ≤ key.length) (hkb : IsBytes key) :
    LookUpAES128.ExpandKey LookUpAESGadget.standard key = some (AES128.expandKey key, true) ∧
    (AES128.expandKey key).length = 176 ∧ IsBytes (AES128.expandKey key) := by
  have hk16 : (key.take 16).length = 16 := by simp; omega
  obtain ⟨hxk, hxb⟩ := ExpandKey_eq LookUpAESGadget.standard standard_VariableXor
    AES128.subByte key hk hkb
    standard_Subws (fun a _ => subByte_lt a) (by decide) standard_RCon_bytes
  have hxe : expandWordsWith AES128.subByte
      (fun r => LookUpAESGadget.standard.RCon.getD r 0) 40 (key.take 16) =
      AES128.expandKey key :=
    expandWordsWith_eq_AES _ standard_RCon 40 (key.take 16) (by omega) (by omega)
  rw [hxe] at hxk hxb
  refine ⟨hxk, ?_, hxb⟩
  rw [← hxe, expandWordsWith_length, hk16]

/-- C12, on the key and the all-zero block of the harness, with the lookups modelled
from the spec: the result is `1c9c7c26...9330b9fa`. -/
theorem LookUpAES128_Encrypt_AES_witness :
    LookUpAES128.Encrypt LookUpAESGadget.standard EvaluateRecord.key EvaluateAuthTag.zeros =
      some (EvaluateAuthTag.ecbk, true) := by
  rw [LookUpAES128_Encrypt_AES LookUpAESGadget.standard standard_VariableXor
    EvaluateRecord.key EvaluateAuthTag.zeros (by decide) (by decide) (by decide) (by decide)
    standard_Subws (by decide) standard_RCon standard_XorSubWords standard_ShiftSub, AES_zeros]

/-- C13, on the key of the harness with the lookups modelled from the spec. -/
theorem ExpandKey_schedule_witness :
    ∃ expand, LookUpAES128.ExpandKey LookUpAESGadget.standard EvaluateRecord.key =
        some (expand, true) ∧
      expand.length = 176 ∧ IsBytes expand ∧ expand.take 16 = EvaluateRecord.key.take 16 ∧
      (∀ w, w < 40 →
        keyRecurrence AES128.subByte LookUpAESGadget.standard.RCon expand (16 + 4 * w)) ∧
      (∀ key2, IsBytes key2 → key2.take 16 = EvaluateRecord.key.take 16 →
        LookUpAES128.ExpandKey LookUpAESGadget.standard key2 = some (expand, true)) :=
  ExpandKey_schedule LookUpAESGadget.standard standard_VariableXor AES128.subByte
    EvaluateRecord.key (by decide) (by decide) standard_Subws (fun a _ => subByte_lt a)
    (by decide) standard_RCon_bytes

/-- C14, on the key and the all-zero block of the harness with the lookups modelled
from the spec. -/
theorem Encrypt_round_structure_witness :
    LookUpAES128.Encrypt LookUpAESGadget.standard EvaluateRecord.key EvaluateAuthTag.zeros =
      some (roundStructure
        (fun a b c d k => List.zipWith (fun x y => x ^^^ y)
          (AES128.mixColumn (AES128.subByte a) (AES128.subByte b) (AES128.subByte c)
            (AES128.subByte d)) k)
        (fun st => AES128.shiftRows (st.map AES128.subByte))
        (AES128.expandKey EvaluateRecord.key) EvaluateAuthTag.zeros, true) :=
  (Encrypt_round_structure LookUpAESGadget.standard standard_VariableXor _ _
    EvaluateRecord.key EvaluateAuthTag.zeros (AES128.expandKey EvaluateRecord.key)
    (standard_ExpandKey EvaluateRecord.key (by decide) (by decide)).1
    (standard_ExpandKey EvaluateRecord.key (by decide) (by decide)).2.1
    (standard_ExpandKey EvaluateRecord.key (by decide) (by decide)).2.2
    (by decide) (by decide) standard_XorSubWords
    (fun a b c d k _ _ _ _ hk hkb => aesColumn_bytes a b c d k hk hkb) standard_ShiftSub
    (fun st _ _ => shiftSub_bytes st)).1


/-! ## Padding -/

theorem be64_value (v : Nat) (h : v < 2 ^ 64) :
    (be64 v).foldl (fun acc b => acc * 256 + b) 0 = v ∧ IsBytes (be64 v) ∧
      (be64 v).length = 8 := by
  have e : ∀ x : Nat, x &&& 0xff = x % 256 := fun x => Nat.and_pow_two_sub_one_eq_mod x 8
  refine ⟨?_, ?_, rfl⟩
  · simp only [be64, List.map_cons, List.map_nil, List.foldl_cons, List.foldl_nil, e,
      Nat.shiftRight_eq_div_pow]
    norm_num
    norm_num at h
    omega
  · intro x hx
    simp only [be64, List.map_cons, List.map_nil, List.mem_cons, List.mem_singleton,
      List.not_mem_nil, or_false, e] at hx
    rcases hx with rfl | rfl | rfl | rfl | rfl | rfl | rfl | rfl <;> exact Nat.mod_lt _ (by decide)

theorem padZeroLen_bounds (n : Nat) : 1 ≤ padZeroLen n ∧ padZeroLen n ≤ 64 := by
  unfold padZeroLen
  split <;> omega

theorem padBuffer_take (t : Nat) (h1 : 1 ≤ t) (h2 : t ≤ 72) :
    ((List.replicate 72 0).set 0 0x80).take t = 0x80 :: List.replicate (t - 1) 0 := by
  obtain ⟨k, rfl⟩ : ∃ k, t = k + 1 := ⟨t - 1, by omega⟩
  have e : List.replicate 72 0 = 0 :: List.replicate 71 0 := rfl
  rw [e, List.set_cons_zero, List.take_succ_cons, List.take_replicate]
  simp only [Nat.add_sub_cancel]
  rw [Nat.min_eq_left (by omega)]

theorem PadSha256_length (n : Nat) : (PadSha256 n).length = padZeroLen n + 8 := by
  have hb := padZeroLen_bounds n
  unfold PadSha256 padWith
  rw [List.length_append, padBuffer_take _ hb.1 (by omega)]
  simp [be64]
  omega

/-- C24: for every message length `n < 2^61`, `PadSha256(n)` is the byte `0x80`, then
only zero bytes, then the 8-byte big-endian encoding of `8 * n`; its length `L`
satisfies `9 ≤ L ≤ 72` and `(n + L) mod 64 = 0` and is the smallest length from 9
on with that property. For `n = 96` it is 32 bytes ending in `00 .. 03 00`, and
the 32-byte `dHSin` followed by it has exactly 64 bytes. -/
theorem PadSha256_standard (n : Nat) (h : n < 2 ^ 61) :
    PadSha256 n = 0x80 :: List.replicate ((PadSha256 n).length - 9) 0 ++ be64 (8 * n) ∧
    (be64 (8 * n)).length = 8 ∧
    (be64 (8 * n)).foldl (fun acc b => acc * 256 + b) 0 = 8 * n ∧
    9 ≤ (PadSha256 n).length ∧ (PadSha256 n).length ≤ 72 ∧
    (n + (PadSha256 n).length) % 64 = 0 ∧
    (∀ L, 9 ≤ L → (n + L) % 64 = 0 → (PadSha256 n).length ≤ L) ∧
    PadSha256 96 = 0x80 :: List.replicate 23 0 ++ [0, 0, 0, 0, 0, 0, 0x03, 0x00] ∧
    (EvaluateSessionCommit.dHSin ++ PadSha256 96).length = 64 := by
  have hb := padZeroLen_bounds n
  have hl := PadSha256_length n
  have h8 : 8 * n < 2 ^ 64 := by
    have : (2 : Nat) ^ 64 = 8 * 2 ^ 61 := by norm_num
    omega
  have hv := be64_value (8 * n) h8
  refine ⟨?_, hv.2.2, hv.1, by omega, by omega, ?_, ?_, by decide, by decide⟩
  · rw [hl]
    unfold PadSha256 padWith
    rw [padBuffer_take _ hb.1 (by omega), Nat.mul_comm n 8, Nat.mod_eq_of_lt h8]
    have e : padZeroLen n + 8 - 9 = padZeroLen n - 1 := by omega
    rw [e]
  · rw [hl]
    unfold padZeroLen
    split <;> omega
  · intro L h9 hm
    rw [hl]
    unfold padZeroLen
    split <;> omega

/-- C24, on the length 96 of the scenario. -/
theorem PadSha256_standard_witness :
    PadSha256 96 = 0x80 :: List.replicate ((PadSha256 96).length - 9) 0 ++ be64 (8 * 96) :=
  (PadSha256_standard 96 (by decide)).1

/-! ## Counter mode: partial blocks and the counter range -/

theorem Circuit.forEach_congr {α : Type} (l : List α) (f g : α → Circuit Unit)
    (h : ∀ a ∈ l, f a = g a) : Circuit.forEach l f = Circuit.forEach l g := by
  induction l with
  | nil => rfl
  | cons a rest ih =>
    rw [Circuit.forEach, Circuit.forEach, h a (by simp),
      ih (fun b hb => h b (by simp [hb]))]

theorem Circuit.mapList_congr {α β : Type} (l : List α) (f g : α → Circuit β)
    (h : ∀ a ∈ l, f a = g a) : Circuit.mapList l f = Circuit.mapList l g := by
  induction l with
  | nil => rfl
  | cons a rest ih =>
    rw [Circuit.mapList, Circuit.mapList, h a (by simp),
      ih (fun b hb => h b (by simp [hb]))]

theorem goIndex_take {α : Type} (s : List α) (n k : Nat) (h : k < n) :
    goIndex (s.take n) k = goIndex s k := by
  unfold goIndex
  rw [List.getElem?_take_of_lt h]

theorem goIndex_eq_of_take {α : Type} (s t : List α) (n k : Nat) (h : k < n)
    (hst : s.take n = t.take n) : goIndex s k = goIndex t k := by
  rw [← goIndex_take s n k h, hst, goIndex_take t n k h]

theorem GCM_eq_of_take (Encrypt : List Nat → List Nat → Circuit (List Nat))
    (key iv : List Nat) (c : Nat) (pt1 pt2 ct1 ct2 : List Nat)
    (hn : pt1.length / 16 = pt2.length / 16)
    (hpt : pt1.take (16 * (pt1.length / 16)) = pt2.take (16 * (pt1.length / 16)))
    (hct : ct1.take (16 * (pt1.length / 16)) = ct2.take (16 * (pt1.length / 16))) :
    AES128.GCM Encrypt key iv c pt1 ct1 = AES128.GCM Encrypt key iv c pt2 ct2 := by
  unfold AES128.GCM
  dsimp only
  rw [← hn]
  apply Circuit.forEach_congr
  intro epoch hep
  have hep2 : epoch < pt1.length / 16 := List.mem_range.mp hep
  have h1 : Circuit.mapList (List.range 16) (fun j => goIndex pt1 (epoch * 16 + j)) =
      Circuit.mapList (List.range 16) (fun j => goIndex pt2 (epoch * 16 + j)) := by
    apply Circuit.mapList_congr
    intro j hj
    have hj2 : j < 16 := List.mem_range.mp hj
    exact goIndex_eq_of_take pt1 pt2 _ _ (by omega) hpt
  have h2 : Circuit.mapList (List.range 16) (fun j => goIndex ct1 (epoch * 16 + j)) =
      Circuit.mapList (List.range 16) (fun j => goIndex ct2 (epoch * 16 + j)) := by
    apply Circuit.mapList_congr
    intro j hj
    have hj2 : j < 16 := List.mem_range.mp hj
    exact goIndex_eq_of_take ct1 ct2 _ _ (by omega) hct
  rw [h1, h2]

/-- C25: `AES128.GCM` depends on the plaintext and the ciphertext only through the
number `floor(len(plaintext)/16)` of complete blocks and the first
`16 * floor(len(plaintext)/16)` bytes of each: inputs that agree there give the
same outcome (both accepted or both rejected), the trailing bytes are under no
constraint, and for a plaintext of fewer than 16 bytes nothing is emitted, so
every plaintext/ciphertext pair is accepted. -/
theorem GCM_ignores_trailing_bytes (Encrypt : List Nat → List Nat → Circuit (List Nat))
    (key iv : List Nat) (c : Nat) (pt1 pt2 ct1 ct2 : List Nat)
    (hn : pt1.length / 16 = pt2.length / 16)
    (hpt : pt1.take (16 * (pt1.length / 16)) = pt2.take (16 * (pt1.length / 16)))
    (hct : ct1.take (16 * (pt1.length / 16)) = ct2.take (16 * (pt1.length / 16))) :
    AES128.GCM Encrypt key iv c pt1 ct1 = AES128.GCM Encrypt key iv c pt2 ct2 ∧
    ((AES128.GCM Encrypt key iv c pt1 ct1).satisfied = true ↔
      (AES128.GCM Encrypt key iv c pt2 ct2).satisfied = true) ∧
    (pt1.length < 16 → AES128.GCM Encrypt key iv c pt1 ct1 = some ((), true)) := by
  have h := GCM_eq_of_take Encrypt key iv c pt1 pt2 ct1 ct2 hn hpt hct
  refine ⟨h, by rw [h], ?_⟩
  intro hlt
  unfold AES128.GCM
  dsimp only
  rw [Nat.div_eq_of_lt hlt]
  rfl

/-- C25, on the record scenario with one and with two trailing bytes appended. -/
theorem GCM_ignores_trailing_bytes_witness :
    AES128.GCM AES128.Encrypt EvaluateRecord.key EvaluateRecord.iv 32
        (EvaluateRecord.plainChunks ++ [1]) (EvaluateRecord.chipherChunks ++ [5]) =
      AES128.GCM AES128.Encrypt EvaluateRecord.key EvaluateRecord.iv 32
        (EvaluateRecord.plainChunks ++ [2, 3]) EvaluateRecord.chipherChunks :=
  (GCM_ignores_trailing_bytes AES128.Encrypt EvaluateRecord.key EvaluateRecord.iv 32
    (EvaluateRecord.plainChunks ++ [1]) (EvaluateRecord.plainChunks ++ [2, 3])
    (EvaluateRecord.chipherChunks ++ [5]) EvaluateRecord.chipherChunks
    (by decide) (by decide) (by decide)).1

theorem GetIV_satisfied_lt (nonce : List Nat) (ctr : Nat)
    (h : (AES128.GetIV nonce ctr).satisfied = true) : ctr < 2 ^ 32 := by
  unfold AES128.GetIV at h
  rw [Circuit.bind_def, Circuit.satisfied_andThen] at h
  obtain ⟨a, ha, _⟩ := h
  unfold api.ToBinary at ha
  rw [Circuit.some_eq_some] at ha
  have := congrArg Prod.snd ha
  simpa using this

theorem GCM_satisfied_counter (Encrypt : List Nat → List Nat → Circuit (List Nat))
    (key iv : List Nat) (c : Nat) (pt ct : List Nat)
    (h : (AES128.GCM Encrypt key iv c pt ct).satisfied = true) (i : Nat)
    (hi : i < pt.length / 16) : api.Add c i < 2 ^ 32 := by
  unfold AES128.GCM at h
  dsimp only at h
  rw [Circuit.satisfied_forEach] at h
  have hb := h i (List.mem_range.mpr hi)
  simp only [Circuit.bind_def] at hb
  rw [Circuit.satisfied_andThen] at hb
  obtain ⟨_, _, hb⟩ := hb
  rw [Circuit.satisfied_andThen] at hb
  obtain ⟨_, _, hb⟩ := hb
  rw [Circuit.satisfied_andThen] at hb
  obtain ⟨v, hv, _⟩ := hb
  apply GetIV_satisfied_lt iv
  rw [hv]
  rfl

theorem GCM_satisfied_range (Encrypt : List Nat → List Nat → Circuit (List Nat))
    (key iv : List Nat) (c : Nat) (pt ct : List Nat) (hc : c < fieldModulus)
    (h : (AES128.GCM Encrypt key iv c pt ct).satisfied = true) (i : Nat)
    (hi : i < pt.length / 16) : c + i < 2 ^ 32 := by
  have hp : (2 : Nat) ^ 32 < fieldModulus := by decide
  induction i with
  | zero =>
    have h0 := GCM_satisfied_counter Encrypt key iv c pt ct h 0 hi
    unfold api.Add at h0
    rw [Nat.add_zero, Nat.mod_eq_of_lt hc] at h0
    exact h0
  | succ i ih =>
    have h1 := ih (by omega)
    have h2 := GCM_satisfied_counter Encrypt key iv c pt ct h (i + 1) hi
    unfold api.Add at h2
    rw [Nat.mod_eq_of_lt (by omega)] at h2
    exact h2

/-- C28 (counterexample): with chunk index `2^32 + 1` and a plaintext of fewer than 16
bytes (the 7-byte substring of the scenario) no block is processed and the
constraints of `AES128.GCM` are satisfied, although
`chunkIndex + floor(len/16) > 2^32`. -/
theorem GCM_satisfied_beyond_counter_range :
    (AES128.GCM AES128.Encrypt EvaluateRecord.key EvaluateRecord.iv (2 ^ 32 + 1)
      EvaluateRecord.substring EvaluateRecord.substring).satisfied = true ∧
    ¬ (2 ^ 32 + 1 + EvaluateRecord.substring.length / 16 ≤ 2 ^ 32) := by
  constructor
  · rfl
  · decide

/-- C28 (amended): the block counter does not wrap modulo `2^32`: if
`chunkIndex + i ≥ 2^32` (and `< p`) for a processed block `i < floor(len/16)`, the
constraints of `AES128.GCM` are unsatisfiable for every block cipher, key, nonce,
plaintext and ciphertext; when at least one block is processed (and
`chunkIndex < p`), they can only be satisfied if
`chunkIndex + floor(len/16) ≤ 2^32`. -/
theorem GCM_counter_no_wrap (Encrypt : List Nat → List Nat → Circuit (List Nat))
    (key iv : List Nat) (c : Nat) (pt ct : List Nat) :
    (∀ i, i < pt.length / 16 → 2 ^ 32 ≤ c + i → c + i < fieldModulus →
      (AES128.GCM Encrypt key iv c pt ct).satisfied = false) ∧
    (c < fieldModulus → 1 ≤ pt.length / 16 →
      (AES128.GCM Encrypt key iv c pt ct).satisfied = true →
      c + pt.length / 16 ≤ 2 ^ 32) := by
  constructor
  · intro i hi h32 hp
    rw [Bool.eq_false_iff]
    intro hs
    have h := GCM_satisfied_counter Encrypt key iv c pt ct hs i hi
    unfold api.Add at h
    rw [Nat.mod_eq_of_lt hp] at h
    omega
  · intro hc hn hs
    have h := GCM_satisfied_range Encrypt key iv c pt ct hc hs (pt.length / 16 - 1) (by omega)
    omega

/-- C28 (amended), on the record scenario started at chunk index `2^32 - 1`: the second
block has counter `2^32`. -/
theorem GCM_counter_no_wrap_witness :
    (AES128.GCM AES128.Encrypt EvaluateRecord.key EvaluateRecord.iv (2 ^ 32 - 1)
      EvaluateRecord.plainChunks EvaluateRecord.chipherChunks).satisfied = false :=
  (GCM_counter_no_wrap AES128.Encrypt EvaluateRecord.key EvaluateRecord.iv (2 ^ 32 - 1)
    EvaluateRecord.plainChunks EvaluateRecord.chipherChunks).1 1 (by decide) (by decide)
    (by decide)

/-! ## Decimal parsing of arbitrary bytes -/

theorem StringToInt_loop_step (b : Nat) (rest : List Nat) (idx sum : Nat) :
    StringToInt.loop (b :: rest) idx sum =
      Circuit.withOk (decide (b < 2 ^ 8))
        (StringToInt.loop rest (idx + 1)
          (api.MulAcc sum (api.Sub (b % 2 ^ 8 % fieldModulus) 48) (pow10Int idx))) := by
  rw [StringToInt.loop]
  simp only [Circuit.bind_def]
  unfold api.ToBinary
  rw [Circuit.andThen_some_ok]
  unfold api.FromBinary
  rw [bits_all_le_one, Circuit.andThen_some, packBits_bits]

theorem StringToInt_loop_field (rev : List Nat) :
    ∀ (idx sum : Nat), IsBytes rev → idx + rev.length ≤ 19 →
      StringToInt.loop rev idx (sum % fieldModulus) =
        some ((sum + 10 ^ idx * revFieldValue rev) % fieldModulus, true) := by
  induction rev with
  | nil =>
    intro idx sum _ _
    simp [StringToInt.loop, revFieldValue, Circuit.ret]
  | cons b rest ih =>
    intro idx sum hb hlen
    have hb1 : b < 2 ^ 8 := hb b (by simp)
    have hidx : idx ≤ 18 := by simp at hlen; omega
    have hbp : b < fieldModulus := by
      have := two_pow_lt_fieldModulus
      have h2 : (2 : Nat) ^ 8 < 2 ^ 64 := by decide
      omega
    rw [StringToInt_loop_step, decide_eq_true hb1, Nat.mod_eq_of_lt hb1, Nat.mod_eq_of_lt hbp]
    have hacc : api.MulAcc (sum % fieldModulus) (api.Sub b 48) (pow10Int idx) =
        (sum + api.Sub b 48 * 10 ^ idx) % fieldModulus := by
      unfold api.MulAcc
      rw [ofInt_pow10Int idx hidx, Nat.mod_add_mod]
    have h := ih (idx + 1) (sum + api.Sub b 48 * 10 ^ idx)
      (fun x hx => hb x (by simp [hx])) (by simp at hlen ⊢; omega)
    rw [hacc, h, Circuit.withOk_some]
    have e : sum + api.Sub b 48 * 10 ^ idx + 10 ^ (idx + 1) * revFieldValue rest =
        sum + 10 ^ idx * revFieldValue (b :: rest) := by
      rw [revFieldValue, pow_succ]
      ring
    rw [e]
    rfl

theorem fieldSum_append_singleton (init : List Nat) (b : Nat) :
    Finset.sum (Finset.range (init ++ [b]).length)
        (fun i => api.Sub ((init ++ [b]).getD i 0) 48 * 10 ^ ((init ++ [b]).length - 1 - i)) =
      api.Sub b 48 + 10 * Finset.sum (Finset.range init.length)
        (fun i => api.Sub (init.getD i 0) 48 * 10 ^ (init.length - 1 - i)) := by
  rw [List.length_append, List.length_singleton, Finset.sum_range_succ, Finset.mul_sum]
  have hlast : (init ++ [b]).getD init.length 0 = b := by
    simp [List.getD_eq_getElem?_getD]
  rw [hlast]
  have hsum : ∀ i ∈ Finset.range init.length,
      api.Sub ((init ++ [b]).getD i 0) 48 * 10 ^ (init.length + 1 - 1 - i) =
        10 * (api.Sub (init.getD i 0) 48 * 10 ^ (init.length - 1 - i)) := by
    intro i hi
    have hi2 : i < init.length := Finset.mem_range.mp hi
    have hget : (init ++ [b]).getD i 0 = init.getD i 0 := by
      simp [List.getD_eq_getElem?_getD, List.getElem?_append_left hi2]
    have hexp : init.length + 1 - 1 - i = (init.length - 1 - i) + 1 := by omega
    rw [hget, hexp, pow_succ]
    ring
  rw [Finset.sum_congr rfl hsum]
  simp
  ring

theorem revFieldValue_reverse (bs : List Nat) :
    revFieldValue bs.reverse =
      Finset.sum (Finset.range bs.length)
        (fun i => api.Sub (bs.getD i 0) 48 * 10 ^ (bs.length - 1 - i)) := by
  induction bs using List.reverseRecOn with
  | nil => simp [revFieldValue]
  | append_singleton init b ih =>
    rw [List.reverse_append, List.reverse_singleton, List.singleton_append, revFieldValue, ih,
      fieldSum_append_singleton]

theorem StringToInt_field (bs : List Nat) (hb : IsBytes bs) (hlen : bs.length ≤ 19) :
    StringToInt bs = some (fieldDecimalValue bs, true) := by
  unfold StringToInt fieldDecimalValue
  have h := StringToInt_loop_field bs.reverse 0 0
    (fun x hx => hb x (List.mem_reverse.mp hx)) (by simpa using hlen)
  rw [Nat.zero_mod] at h
  rw [h, revFieldValue_reverse]
  simp

theorem StringToInt_loop_satisfied (rev : List Nat) :
    ∀ (idx sum : Nat), (StringToInt.loop rev idx sum).satisfied = true ↔ IsBytes rev := by
  induction rev with
  | nil =>
    intro idx sum
    simp [StringToInt.loop, Circuit.ret, Circuit.satisfied, IsBytes]
  | cons b rest ih =>
    intro idx sum
    rw [StringToInt_loop_step, Circuit.satisfied_withOk, ih]
    simp [IsBytes]

/-- `StringToInt` performs no digit validation: for any bytes
`b_0..b_(n-1)` in `0..255` with `n ≤ 19` it returns the sum of
`(b_i - 48) * 10^(n-1-i)` computed in the prime field of order `p`, with its
constraints satisfied. A single byte `b < 48` yields `p - (48 - b)`, and
`GreaterThan(StringToInt([b]), T)` is satisfied for every `T ≤ p - 48`. For any
length the constraints hold exactly when every entry is a byte. -/
theorem StringToInt_no_validation :
    (∀ bs : List Nat, IsBytes bs → bs.length ≤ 19 →
      StringToInt bs = some (fieldDecimalValue bs, true)) ∧
    (∀ b : Nat, b < 48 → StringToInt [b] = some (fieldModulus - (48 - b), true)) ∧
    (∀ b T : Nat, b < 48 → T ≤ fieldModulus - 48 →
      (StringToInt [b] >>= fun v => GreaterThan v T).satisfied = true) ∧
    (∀ bs : List Nat, (StringToInt bs).satisfied = true ↔ IsBytes bs) := by
  have hone : ∀ b : Nat, b < 48 → StringToInt [b] = some (fieldModulus - (48 - b), true) := by
    intro b hb
    have hp : (48 : Nat) < fieldModulus := by decide
    rw [StringToInt_field [b] (by intro x hx; simp at hx; omega) (by simp)]
    unfold fieldDecimalValue
    simp only [List.length_singleton, Finset.sum_range_one, List.getD_cons_zero, Nat.sub_self,
      pow_zero, Nat.mul_one]
    have e : api.Sub b 48 = fieldModulus - (48 - b) := by
      unfold api.Sub
      rw [Nat.mod_eq_of_lt hp, Nat.mod_eq_of_lt (by omega)]
      omega
    rw [e, Nat.mod_eq_of_lt (by omega)]
  refine ⟨StringToInt_field, hone, ?_, ?_⟩
  · intro b T hb hT
    rw [hone b hb, Circuit.bind_def, Circuit.andThen_some, GreaterThan_eq]
    simp only [Circuit.satisfied, decide_eq_true_eq]
    omega
  · intro bs
    unfold StringToInt
    rw [StringToInt_loop_satisfied]
    constructor
    · intro h x hx
      exact h x (List.mem_reverse.mpr hx)
    · intro h x hx
      exact h x (List.mem_reverse.mp hx)

/-- The five bytes `"8002."` of the record scenario, the last of which is not a
digit, are parsed to their sum in the field. -/
theorem StringToInt_no_validation_witness :
    StringToInt [56, 48, 48, 50, 46] = some (fieldDecimalValue [56, 48, 48, 50, 46], true) :=
  StringToInt_no_validation.1 [56, 48, 48, 50, 46] (by decide) (by decide)

/-! ## The power of ten beyond 64 bits -/

theorem Circuit.withOk_true {α : Type} (x : Circuit α) : Circuit.withOk true x = x := by
  cases x with
  | none => rfl
  | some p => rfl

theorem StringToInt_loopWith_step (pow : Nat → Int) (b : Nat) (rest : List Nat)
    (idx sum : Nat) :
    StringToInt.loopWith pow (b :: rest) idx sum =
      Circuit.withOk (decide (b < 2 ^ 8))
        (StringToInt.loopWith pow rest (idx + 1)
          (api.MulAcc sum (api.Sub (b % 2 ^ 8 % fieldModulus) 48) (pow idx))) := by
  rw [StringToInt.loopWith]
  simp only [Circuit.bind_def]
  unfold api.ToBinary
  rw [Circuit.andThen_some_ok]
  unfold api.FromBinary
  rw [bits_all_le_one, Circuit.andThen_some, packBits_bits]

theorem StringToInt_loopWith_pow10Int (rev : List Nat) :
    ∀ (idx sum : Nat),
      StringToInt.loopWith pow10Int rev idx sum = StringToInt.loop rev idx sum := by
  induction rev with
  | nil =>
    intro idx sum
    rw [StringToInt.loopWith, StringToInt.loop]
  | cons b rest ih =>
    intro idx sum
    rw [StringToInt_loopWith_step, StringToInt_loop_step, ih]

theorem StringToIntWith_pow10Int (bs : List Nat) :
    StringToIntWith pow10Int bs = StringToInt bs := by
  unfold StringToIntWith StringToInt
  exact StringToInt_loopWith_pow10Int bs.reverse 0 0

theorem StringToInt_loopWith_zeros (pow : Nat → Int) (rest : List Nat) :
    ∀ (k idx : Nat), StringToInt.loopWith pow (List.replicate k 48 ++ rest) idx 0 =
      StringToInt.loopWith pow rest (idx + k) 0 := by
  intro k
  induction k with
  | zero =>
    intro idx
    simp
  | succ k ih =>
    intro idx
    have h48 : (48 : Nat) % 2 ^ 8 % fieldModulus = 48 := by decide
    have hd : decide ((48 : Nat) < 2 ^ 8) = true := by decide
    have hs : api.Sub 48 48 = 0 := by decide
    have hacc : api.MulAcc 0 0 (pow idx) = 0 := by
      unfold api.MulAcc
      simp
    have e : idx + 1 + k = idx + (k + 1) := by omega
    rw [List.replicate_succ, List.cons_append, StringToInt_loopWith_step, h48, hd, hs, hacc,
      ih, Circuit.withOk_true, e]

theorem ofInt_lt_fieldModulus (c : Int) : api.ofInt c < fieldModulus := by
  unfold api.ofInt
  have hp : (0 : Int) < (fieldModulus : Int) := by decide
  have h1 := Int.emod_lt_of_pos c hp
  have h0 := Int.emod_nonneg c (ne_of_gt hp)
  omega

theorem StringToIntWith_one_zeros (pow : Nat → Int) :
    StringToIntWith pow (49 :: List.replicate 19 48) = some (api.ofInt (pow 19), true) := by
  have hrev : (49 :: List.replicate 19 48).reverse = List.replicate 19 48 ++ [49] := by
    decide
  have h49 : (49 : Nat) % 2 ^ 8 % fieldModulus = 49 := by decide
  have hd : decide ((49 : Nat) < 2 ^ 8) = true := by decide
  have hs : api.Sub 49 48 = 1 := by decide
  have hacc : api.MulAcc 0 1 (pow 19) = api.ofInt (pow 19) := by
    unfold api.MulAcc
    rw [Nat.zero_add, Nat.one_mul, Nat.mod_eq_of_lt (ofInt_lt_fieldModulus (pow 19))]
  unfold StringToIntWith
  rw [hrev, StringToInt_loopWith_zeros, Nat.zero_add, StringToInt_loopWith_step, h49, hd, hs,
    hacc, Circuit.withOk_true, StringToInt.loopWith]
  rfl

theorem ofInt_int64_ne (c : Int) (hlo : -(2 : Int) ^ 63 ≤ c) (hhi : c < (2 : Int) ^ 63) :
    api.ofInt c ≠ 10 ^ 19 := by
  unfold api.ofInt
  have hp : (fieldModulus : Int) =
      21888242871839275222246405745257275088548364400416034343698204186575808495617 := by
    decide
  rw [hp]
  intro h
  have h2 : ((c %
      21888242871839275222246405745257275088548364400416034343698204186575808495617).toNat :
        Int) = ((10 ^ 19 : Nat) : Int) := by
    rw [h]
  rw [Int.toNat_of_nonneg (Int.emod_nonneg c (by decide))] at h2
  norm_num at h2 hlo hhi
  omega

theorem fieldDecimalValue_one_zeros :
    fieldDecimalValue (49 :: List.replicate 19 48) = 10 ^ 19 := by
  unfold fieldDecimalValue
  simp only [List.length_cons, List.length_replicate, Finset.sum_range_succ,
    Finset.sum_range_zero]
  decide

/-- C26: `StringToInt` weights the byte at distance `idx` from the end with
`int(math.Pow(float64(10), float64(idx)))`, meant as `10^idx`; at `idx = 19` that
power exceeds the largest 64-bit `int`. On the 20 digit bytes `"1"` followed by
nineteen `"0"`, whose sum of `(b_i - 48) * 10^(n-1-i)` in the field is `10^19`, the
function returns the field image of whatever the conversion yields at `idx = 19`,
and for no 64-bit value of it is that the sum; in particular `StringToInt` with
the conversion `pow10Int` does not return the sum. -/
theorem StringToInt_power_overflow :
    IsBytes (49 :: List.replicate 19 48) ∧
    fieldDecimalValue (49 :: List.replicate 19 48) = 10 ^ 19 ∧
    (∀ bs : List Nat, StringToIntWith pow10Int bs = StringToInt bs) ∧
    (∀ pow : Nat → Int,
      StringToIntWith pow (49 :: List.replicate 19 48) = some (api.ofInt (pow 19), true)) ∧
    (∀ pow : Nat → Int, -(2 : Int) ^ 63 ≤ pow 19 → pow 19 < (2 : Int) ^ 63 →
      StringToIntWith pow (49 :: List.replicate 19 48) ≠
        some (fieldDecimalValue (49 :: List.replicate 19 48), true)) ∧
    StringToInt (49 :: List.replicate 19 48) ≠
      some (fieldDecimalValue (49 :: List.replicate 19 48), true) := by
  have hne : ∀ pow : Nat → Int, -(2 : Int) ^ 63 ≤ pow 19 → pow 19 < (2 : Int) ^ 63 →
      StringToIntWith pow (49 :: List.replicate 19 48) ≠
        some (fieldDecimalValue (49 :: List.replicate 19 48), true) := by
    intro pow hlo hhi h
    rw [StringToIntWith_one_zeros, fieldDecimalValue_one_zeros, Circuit.some_eq_some] at h
    exact ofInt_int64_ne (pow 19) hlo hhi (congrArg Prod.fst h)
  refine ⟨by decide, fieldDecimalValue_one_zeros, StringToIntWith_pow10Int,
    StringToIntWith_one_zeros, hne, ?_⟩
  rw [← StringToIntWith_pow10Int]
  exact hne pow10Int (by decide) (by decide)

/-- C26, with the conversion `pow10Int`: `pow10Int 19` is a 64-bit value, and with
it the result on `"1"` followed by nineteen `"0"` is not the decimal sum. -/
theorem StringToInt_power_overflow_witness :
    StringToIntWith pow10Int (49 :: List.replicate 19 48) ≠
      some (fieldDecimalValue (49 :: List.replicate 19 48), true) :=
  StringToInt_power_overflow.2.2.2.2.1 pow10Int (by decide) (by decide)

/-! ## The counter block of the authentication-tag scenario -/

theorem AES_ctr0 :
    AES128.encryptBlock EvaluateRecord.key (EvaluateRecord.iv ++ be32 0) =
      [0x3d, 0xf4, 0x20, 0xdc, 0x27, 0x17, 0xa1, 0xf5, 0xac, 0x61, 0x3a, 0xbd, 0x1b, 0x8d, 0x27,
        0x8d] := rfl

/-- C27 (counterexample): the block that `EvaluateAuthTag` builds and assigns to
`IvCounter` ends in `00 00 00 01`; it is not `a54613bf2801a84ce693d0a000000000`. -/
theorem EvaluateAuthTag_ivCounter_not_zero :
    EvaluateAuthTag.ivCounter =
      [0xa5, 0x46, 0x13, 0xbf, 0x28, 0x01, 0xa8, 0x4c, 0xe6, 0x93, 0xd0, 0xa0, 0x00, 0x00, 0x00,
        0x01] ∧
    EvaluateAuthTag.ivCounter ≠
      [0xa5, 0x46, 0x13, 0xbf, 0x28, 0x01, 0xa8, 0x4c, 0xe6, 0x93, 0xd0, 0xa0, 0x00, 0x00, 0x00,
        0x00] := by
  constructor
  · rfl
  · decide

/-- C27 (amended): the block that `EvaluateAuthTag` assigns to `IvCounter` is the IV
followed by the 32-bit big-endian counter 1, the block `GetIV` builds for
counter 1; the expected value `a5cd49b7...` of the scenario is the AES-128
encryption of that block and not of the block with counter 0, with which the
auth-tag circuit is not satisfied. -/
theorem EvaluateAuthTag_counter_block :
    EvaluateAuthTag.ivCounter = EvaluateRecord.iv ++ be32 1 ∧
    AES128.GetIV EvaluateRecord.iv 1 = some (EvaluateAuthTag.ivCounter, true) ∧
    AES128.encryptBlock EvaluateRecord.key EvaluateAuthTag.ivCounter = EvaluateAuthTag.ecb0 ∧
    AES128.encryptBlock EvaluateRecord.key (EvaluateRecord.iv ++ be32 0) ≠
      EvaluateAuthTag.ecb0 ∧
    (gadgets.AuthTagWrapper.Define AES128.Encrypt
      { Key := EvaluateRecord.key, IvCounter := EvaluateAuthTag.ivCounter,
        Zeros := EvaluateAuthTag.zeros, ECB1 := EvaluateAuthTag.ecb0,
        ECB0 := EvaluateAuthTag.ecbk }).satisfied = true ∧
    (gadgets.AuthTagWrapper.Define AES128.Encrypt
      { Key := EvaluateRecord.key, IvCounter := EvaluateRecord.iv ++ be32 0,
        Zeros := EvaluateAuthTag.zeros, ECB1 := EvaluateAuthTag.ecb0,
        ECB0 := EvaluateAuthTag.ecbk }).satisfied = false := by
  have hctr0 : AES128.Encrypt EvaluateRecord.key (EvaluateRecord.iv ++ be32 0) =
      some ([0x3d, 0xf4, 0x20, 0xdc, 0x27, 0x17, 0xa1, 0xf5, 0xac, 0x61, 0x3a, 0xbd, 0x1b, 0x8d,
        0x27, 0x8d], true) := by
    rw [AES128_Encrypt_eq _ _ (by decide) (by decide), AES_ctr0]
  refine ⟨rfl, ?_, AES_ivCounter, ?_, ?_, ?_⟩
  · rw [AES128.GetIV_eq _ _ (by decide)]
    rfl
  · rw [AES_ctr0]
    decide
  · have h := Tls13AuthTag_Assert_satisfied AES128.Encrypt
      { Key := EvaluateRecord.key, IvCounter := EvaluateAuthTag.ivCounter,
        Zeros := EvaluateAuthTag.zeros, ECB1 := EvaluateAuthTag.ecb0,
        ECB0 := EvaluateAuthTag.ecbk }
      EvaluateAuthTag.ecbk EvaluateAuthTag.ecb0 true true Encrypt_zeros Encrypt_ivCounter
    exact h.mpr ⟨rfl, rfl, fun i _ => rfl, fun i _ => rfl⟩
  · rw [Bool.eq_false_iff]
    intro hs
    have h := Tls13AuthTag_Assert_satisfied AES128.Encrypt
      { Key := EvaluateRecord.key, IvCounter := EvaluateRecord.iv ++ be32 0,
        Zeros := EvaluateAuthTag.zeros, ECB1 := EvaluateAuthTag.ecb0,
        ECB0 := EvaluateAuthTag.ecbk }
      EvaluateAuthTag.ecbk _ true true Encrypt_zeros hctr0
    have h2 := (h.mp hs).2.2.2 0 (by decide)
    revert h2
    decide

/-! ## Inputs the auth-tag gadget leaves free -/

theorem Tls13AuthTag_Assert_encryptions (Encrypt : List Nat → List Nat → Circuit (List Nat))
    (c : Tls13AuthTag) (h : (Tls13AuthTag.Assert Encrypt c).satisfied = true) :
    ∃ e0 e1, Encrypt c.Key c.Zeros = some (e0, true) ∧
      Encrypt c.Key c.IvCounter = some (e1, true) := by
  unfold Tls13AuthTag.Assert at h
  simp only [Circuit.bind_def] at h
  rw [Circuit.satisfied_andThen] at h
  obtain ⟨e0, h0, h⟩ := h
  rw [Circuit.satisfied_andThen_unit] at h
  obtain ⟨_, h⟩ := h
  rw [Circuit.satisfied_andThen] at h
  obtain ⟨e1, h1, _⟩ := h
  exact ⟨e0, e1, h0, h1⟩

theorem Tls13DecoProxy_Assert_values (digest : List Nat → Circuit (List Nat))
    (Encrypt : List Nat → List Nat → Circuit (List Nat))
    (gcm : List Nat → List Nat → Nat → List Nat → List Nat → Circuit Unit)
    (c : gadgets.Tls13DecoProxy)
    (h : (gadgets.Tls13DecoProxy.Assert digest Encrypt gcm c).satisfied = true) :
    ∃ commit e0 e1, digest c.Key = some (commit, true) ∧
      Encrypt c.Key c.Zeros = some (e0, true) ∧
      Encrypt c.Key c.IvCounter = some (e1, true) := by
  unfold gadgets.Tls13DecoProxy.Assert at h
  simp only [Circuit.bind_def, sha256.Gadget.Write, sha256.Gadget.Sum, sha256.New,
    List.nil_append] at h
  rw [Circuit.satisfied_andThen] at h
  obtain ⟨commit, hc, h⟩ := h
  rw [Circuit.satisfied_andThen_unit] at h
  obtain ⟨_, h⟩ := h
  rw [Circuit.satisfied_andThen_unit] at h
  obtain ⟨ht, _⟩ := h
  obtain ⟨e0, e1, h0, h1⟩ := Tls13AuthTag_Assert_encryptions Encrypt _ ht
  exact ⟨commit, e0, e1, hc, h0, h1⟩

/-- C29: `Tls13AuthTag.Assert` does not constrain `Zeros` or `IvCounter`: for every key
and blocks `Z`, `C` on which the block cipher returns with its own constraints
satisfied, the assignment `Zeros = Z`, `IvCounter = C`, `ECB0 = Encrypt(Key, Z)`,
`ECB1 = Encrypt(Key, C)` satisfies all constraints; and in
`Tls13DecoProxy.Assert` a satisfying assignment stays satisfying when
`IvCounter` is replaced by any such block `C` (together with its encryption),
whatever `Iv` is. -/
theorem Tls13AuthTag_blocks_unconstrained (Encrypt : List Nat → List Nat → Circuit (List Nat))
    (key Z C eZ eC : List Nat) (hZ : Encrypt key Z = some (eZ, true))
    (hC : Encrypt key C = some (eC, true)) :
    (Tls13AuthTag.Assert Encrypt (Tls13AuthTag.SetParams key C Z eC eZ)).satisfied = true ∧
    (∀ (digest : List Nat → Circuit (List Nat))
      (gcm : List Nat → List Nat → Nat → List Nat → List Nat → Circuit Unit)
      (c : gadgets.Tls13DecoProxy), c.Key = key →
      (gadgets.Tls13DecoProxy.Assert digest Encrypt gcm c).satisfied = true →
      (gadgets.Tls13DecoProxy.Assert digest Encrypt gcm
        { c with IvCounter := C, ECB0 := eC }).satisfied = true) := by
  constructor
  · exact (Tls13AuthTag_Assert_satisfied Encrypt (Tls13AuthTag.SetParams key C Z eC eZ) eZ eC
      true true hZ hC).mpr ⟨rfl, rfl, fun i _ => rfl, fun i _ => rfl⟩
  · intro digest gcm c hk hs
    obtain ⟨commit, e0, e1, hc, h0, h1⟩ := Tls13DecoProxy_Assert_values digest Encrypt gcm c hs
    have h := (Tls13DecoProxy_Assert_satisfied digest Encrypt gcm c commit e0 e1 true true true
      hc h0 h1).mp hs
    have hC2 : Encrypt c.Key C = some (eC, true) := by rw [hk]; exact hC
    exact (Tls13DecoProxy_Assert_satisfied digest Encrypt gcm
      { c with IvCounter := C, ECB0 := eC } commit e0 eC true true true hc h0 hC2).mpr
      ⟨h.1, h.2.1, ⟨rfl, rfl, h.2.2.1.2.2.1, fun i _ => rfl⟩, h.2.2.2⟩

/-- C29, with AES-128 on the key of the scenario: `Zeros` is the counter block and
`IvCounter` the all-zero block. -/
theorem Tls13AuthTag_blocks_unconstrained_witness :
    (Tls13AuthTag.Assert AES128.Encrypt
      (Tls13AuthTag.SetParams EvaluateRecord.key EvaluateAuthTag.zeros
        EvaluateAuthTag.ivCounter EvaluateAuthTag.ecbk EvaluateAuthTag.ecb0)).satisfied = true :=
  (Tls13AuthTag_blocks_unconstrained AES128.Encrypt EvaluateRecord.key
    EvaluateAuthTag.ivCounter EvaluateAuthTag.zeros EvaluateAuthTag.ecb0 EvaluateAuthTag.ecbk
    Encrypt_ivCounter Encrypt_zeros).1

/-! ## Index safety of the record gadget -/

theorem Circuit.panics_false_iff {α : Type} (x : Circuit α) :
    x.panics = false ↔ ∃ a ok, x = some (a, ok) := by
  cases x with
  | none => simp [Circuit.panics]
  | some r => exact ⟨fun _ => ⟨r.1, r.2, rfl⟩, fun _ => rfl⟩

theorem Circuit.panics_withOk {α : Type} (ok : Bool) (x : Circuit α) :
    (Circuit.withOk ok x).panics = x.panics := by
  cases x with
  | none => rfl
  | some r => rfl

theorem Circuit.andThen_total {α β : Type} (x : Circuit α) (f : α → Circuit β) (a : α)
    (ok : Bool) (hx : x = some (a, ok)) (hf : (f a).panics = false) :
    (Circuit.andThen x f).panics = false := by
  rw [hx, Circuit.andThen_some_ok, Circuit.panics_withOk, hf]

theorem Circuit.andThen_total_all {α β : Type} (x : Circuit α) (f : α → Circuit β)
    (hx : x.panics = false) (hf : ∀ a, (f a).panics = false) :
    (Circuit.andThen x f).panics = false := by
  obtain ⟨a, ok, ha⟩ := (Circuit.panics_false_iff x).mp hx
  exact Circuit.andThen_total x f a ok ha (hf a)

theorem Circuit.mapList_total {α β : Type} (l : List α) (f : α → Circuit β)
    (h : ∀ a ∈ l, (f a).panics = false) :
    ∃ vs ok, Circuit.mapList l f = some (vs, ok) ∧ vs.length = l.length := by
  induction l with
  | nil => exact ⟨[], true, rfl, rfl⟩
  | cons a rest ih =>
    obtain ⟨b, ok1, hb⟩ := (Circuit.panics_false_iff _).mp (h a (by simp))
    obtain ⟨vs, ok2, hvs, hl⟩ := ih (fun c hc => h c (by simp [hc]))
    refine ⟨b :: vs, ok1 && (ok2 && true), ?_, by simp [hl]⟩
    rw [Circuit.mapList, hb, Circuit.andThen_some_ok, hvs, Circuit.andThen_some_ok]
    rfl

theorem Circuit.forEach_total {α : Type} (l : List α) (f : α → Circuit Unit)
    (h : ∀ a ∈ l, (f a).panics = false) : (Circuit.forEach l f).panics = false := by
  rw [Bool.eq_false_iff]
  intro hp
  obtain ⟨a, ha, hpa⟩ := (Circuit.panics_forEach l f).mp hp
  rw [h a ha] at hpa
  exact Bool.false_ne_true hpa

theorem goIndex_total {α : Type} (s : List α) (i : Nat) (h : i < s.length) :
    (goIndex s i).panics = false := by
  rw [goIndex_eq_of_lt s i h]
  rfl

theorem VariableXor_total (a b n : Nat) : (VariableXor a b n).panics = false := by
  unfold VariableXor
  simp only [Circuit.bind_def]
  unfold api.ToBinary
  rw [Circuit.andThen_some_ok, Circuit.panics_withOk, Circuit.andThen_some_ok,
    Circuit.panics_withOk]
  obtain ⟨vs, ok, hvs, _⟩ := Circuit.mapList_total (List.range n) (fun i =>
      Circuit.andThen (goIndex ((List.range n).map (fun i => a / 2 ^ i % 2)) i) (fun ba =>
        Circuit.andThen (goIndex ((List.range n).map (fun i => b / 2 ^ i % 2)) i) (fun bb =>
          api.Xor ba bb))) (by
    intro i hi
    have hi2 : i < n := List.mem_range.mp hi
    dsimp only
    rw [goIndex_bits a n i hi2, Circuit.andThen_some, goIndex_bits b n i hi2,
      Circuit.andThen_some]
    rfl)
  rw [hvs, Circuit.andThen_some_ok, Circuit.panics_withOk]
  rfl

theorem Xor16_total (a b : List Nat) (ha : a.length = 16) (hb : b.length = 16) :
    ∃ v ok, AES128.Xor16 a b = some (v, ok) ∧ v.length = 16 := by
  unfold AES128.Xor16
  have h := Circuit.mapList_total (List.range 16) (fun i =>
      goIndex a i >>= fun x => goIndex b i >>= fun y => AES128.variableXor x y 8) (by
    intro i hi
    have hi2 : i < 16 := List.mem_range.mp hi
    simp only [Circuit.bind_def]
    rw [goIndex_eq_getD a i (by omega), Circuit.andThen_some, goIndex_eq_getD b i (by omega),
      Circuit.andThen_some]
    exact VariableXor_total _ _ 8)
  simpa using h

theorem GetIV_total (nonce : List Nat) (ctr : Nat) : (AES128.GetIV nonce ctr).panics = false := by
  unfold AES128.GetIV
  simp only [Circuit.bind_def]
  unfold api.ToBinary
  rw [Circuit.andThen_some_ok, Circuit.panics_withOk]
  obtain ⟨vs, ok, hvs, _⟩ := Circuit.mapList_total [3, 2, 1, 0] (fun (j : Nat) =>
      Circuit.andThen (goSlice ((List.range 32).map (fun i => ctr / 2 ^ i % 2)) ((8 * j : Nat))
        ((8 * j + 8 : Nat))) (fun chunk => api.FromBinary chunk)) (by
    intro j hj
    have hj2 : j ≤ 3 := by simp at hj; omega
    dsimp only
    rw [goSlice_bits ctr 32 (8 * j) 8 (by omega), Circuit.andThen_some]
    rfl)
  rw [hvs, Circuit.andThen_some_ok, Circuit.panics_withOk]
  rfl

theorem assertEach_total (xs ys : List Nat) (n : Nat) (hx : n ≤ xs.length)
    (hy : n ≤ ys.length) :
    (Circuit.forEach (List.range n) (fun i =>
      Circuit.andThen (goIndex xs i) (fun c =>
        Circuit.andThen (goIndex ys i) (fun x => api.AssertIsEqual c x)))).panics = false := by
  apply Circuit.forEach_total
  intro i hi
  have hi2 : i < n := List.mem_range.mp hi
  rw [goIndex_eq_of_lt xs i (by omega), Circuit.andThen_some, goIndex_eq_of_lt ys i (by omega),
    Circuit.andThen_some]
  rfl

theorem GCM_total (Encrypt : List Nat → List Nat → Circuit (List Nat))
    (key iv : List Nat) (c : Nat) (pt ct : List Nat)
    (hE : ∀ b, ∃ r ok, Encrypt key b = some (r, ok) ∧ r.length = 16)
    (hct : 16 * (pt.length / 16) ≤ ct.length) :
    (AES128.GCM Encrypt key iv c pt ct).panics = false := by
  unfold AES128.GCM
  dsimp only
  apply Circuit.forEach_total
  intro epoch hep
  have hep2 : epoch < pt.length / 16 := List.mem_range.mp hep
  simp only [Circuit.bind_def]
  rw [mapList_goIndex pt (epoch * 16) (by omega), Circuit.andThen_some,
    mapList_goIndex ct (epoch * 16) (by omega), Circuit.andThen_some]
  obtain ⟨ivc, ok1, hiv⟩ := (Circuit.panics_false_iff _).mp (GetIV_total iv (api.Add c epoch))
  obtain ⟨r, ok2, hr, hrl⟩ := hE ivc
  obtain ⟨x, ok3, hx, hxl⟩ := Xor16_total r
    ((List.range 16).map (fun j => pt.getD (epoch * 16 + j) 0)) hrl (by simp)
  rw [hiv, Circuit.andThen_some_ok, Circuit.panics_withOk, hr, Circuit.andThen_some_ok,
    Circuit.panics_withOk, hx, Circuit.andThen_some_ok, Circuit.panics_withOk]
  exact assertEach_total _ _ 16 (by simp) (by omega)

theorem StringToInt_total (bs : List Nat) : (StringToInt bs).panics = false := by
  unfold StringToInt
  generalize bs.reverse = rev
  generalize (0 : Nat) = idx
  have h : ∀ (rev : List Nat) (idx sum : Nat), (StringToInt.loop rev idx sum).panics = false := by
    intro rev
    induction rev with
    | nil => intro idx sum; rfl
    | cons b rest ih =>
      intro idx sum
      rw [StringToInt_loop_step, Circuit.panics_withOk]
      exact ih _ _
  exact h rev idx idx

theorem goSlice_eq (s : List Nat) (lo hi : Int) (h0 : 0 ≤ lo) (h1 : lo ≤ hi)
    (h2 : hi ≤ (s.length : Int)) :
    goSlice s lo hi = some ((s.drop lo.toNat).take (hi.toNat - lo.toNat), true) := by
  unfold goSlice
  rw [if_pos ⟨h0, h1, h2⟩]
  rfl

theorem SubstringMatch_slice (sub pt : List Nat) (lo hi : Int) (a b : Int) (h0 : 0 ≤ lo)
    (h1 : lo ≤ hi) (h3 : (sub.length : Int) ≤ hi - lo) :
    SubstringMatch sub ((pt.drop lo.toNat).take (hi.toNat - lo.toNat)) a b =
      SubstringMatch sub (pt.drop lo.toNat) 0 0 := by
  unfold SubstringMatch
  apply Circuit.forEach_congr
  intro i hi2
  have hi3 : i < sub.length := List.mem_range.mp hi2
  simp only [Circuit.bind_def]
  rw [goIndex_take _ _ _ (by omega)]

theorem Tls13Record_Assert_total (Encrypt : List Nat → List Nat → Circuit (List Nat))
    (c : Tls13Record)
    (hE : ∀ b, ∃ r ok, Encrypt c.Key b = some (r, ok) ∧ r.length = 16)
    (hct : 16 * (c.PlainChunks.length / 16) ≤ c.CipherChunks.length)
    (hs0 : 0 ≤ c.SubstringStart) (hs1 : c.SubstringStart ≤ c.SubstringEnd)
    (hs2 : c.SubstringEnd ≤ (c.PlainChunks.length : Int))
    (hsub : (c.Substring.length : Int) ≤ c.SubstringEnd - c.SubstringStart)
    (hv0 : 0 ≤ c.ValueStart) (hv1 : c.ValueStart ≤ c.ValueEnd)
    (hv2 : c.ValueEnd ≤ (c.PlainChunks.length : Int)) :
    (Tls13Record.Assert Encrypt c).panics = false := by
  unfold Tls13Record.Assert
  simp only [Circuit.bind_def]
  apply Circuit.andThen_total_all _ _ (GCM_total Encrypt _ _ _ _ _ hE hct)
  intro _
  rw [goSlice_eq _ _ _ hs0 hs1 hs2, Circuit.andThen_some]
  apply Circuit.andThen_total_all
  · rw [Bool.eq_false_iff]
    intro hp
    rw [SubstringMatch_panics] at hp
    simp only [List.length_take, List.length_drop] at hp
    omega
  · intro _
    rw [goSlice_eq _ _ _ hv0 hv1 hv2, Circuit.andThen_some]
    apply Circuit.andThen_total_all _ _ (StringToInt_total _)
    intro v
    rfl

theorem Tls13Record_Assert_canonical (Encrypt : List Nat → List Nat → Circuit (List Nat))
    (c : Tls13Record) (hs0 : 0 ≤ c.SubstringStart) (hs1 : c.SubstringStart ≤ c.SubstringEnd)
    (hs2 : c.SubstringEnd ≤ (c.PlainChunks.length : Int))
    (hsub : (c.Substring.length : Int) ≤ c.SubstringEnd - c.SubstringStart) :
    Tls13Record.Assert Encrypt c =
      Circuit.andThen (AES128.GCM Encrypt c.Key c.Iv c.ChunkIndex c.PlainChunks c.CipherChunks)
        (fun _ => Circuit.andThen
          (SubstringMatch c.Substring (c.PlainChunks.drop c.SubstringStart.toNat) 0 0)
          (fun _ => Tls13Record.thresholdPart c)) := by
  unfold Tls13Record.Assert Tls13Record.thresholdPart
  simp only [Circuit.bind_def]
  rw [goSlice_eq _ _ _ hs0 hs1 hs2]
  simp only [Circuit.andThen_some]
  rw [SubstringMatch_slice c.Substring c.PlainChunks c.SubstringStart c.SubstringEnd _ _ hs0 hs1
    hsub]

/-- C30: when `len(CipherChunks) ≥ 16 * floor(len(PlainChunks)/16)`,
`0 ≤ SubstringStart ≤ SubstringEnd ≤ len(PlainChunks)`,
`len(Substring) ≤ SubstringEnd - SubstringStart` and
`0 ≤ ValueStart ≤ ValueEnd ≤ len(PlainChunks)` (and the block cipher returns 16
entries without panicking), `Tls13Record.Assert` performs no out-of-range index
or slice access; a substring longer than `SubstringEnd - SubstringStart` makes
it panic; and under the preconditions the outcome is the same for every other
admissible `SubstringEnd` and for any `from`, `to` handed to `SubstringMatch`. -/
theorem Tls13Record_Assert_index_safe (Encrypt : List Nat → List Nat → Circuit (List Nat))
    (c : Tls13Record)
    (hE : ∀ b, ∃ r ok, Encrypt c.Key b = some (r, ok) ∧ r.length = 16)
    (hct : 16 * (c.PlainChunks.length / 16) ≤ c.CipherChunks.length)
    (hs0 : 0 ≤ c.SubstringStart) (hs1 : c.SubstringStart ≤ c.SubstringEnd)
    (hs2 : c.SubstringEnd ≤ (c.PlainChunks.length : Int))
    (hsub : (c.Substring.length : Int) ≤ c.SubstringEnd - c.SubstringStart)
    (hv0 : 0 ≤ c.ValueStart) (hv1 : c.ValueStart ≤ c.ValueEnd)
    (hv2 : c.ValueEnd ≤ (c.PlainChunks.length : Int)) :
    (Tls13Record.Assert Encrypt c).panics = false ∧
    (∀ sub2 : List Nat, c.SubstringEnd - c.SubstringStart < (sub2.length : Int) →
      (Tls13Record.Assert Encrypt { c with Substring := sub2 }).panics = true) ∧
    (∀ end2 : Int, c.SubstringStart ≤ end2 → end2 ≤ (c.PlainChunks.length : Int) →
      (c.Substring.length : Int) ≤ end2 - c.SubstringStart →
      Tls13Record.Assert Encrypt { c with SubstringEnd := end2 } =
        Tls13Record.Assert Encrypt c) ∧
    (∀ (slice : List Nat) (lo hi : Int),
      SubstringMatch c.Substring slice lo hi =
        SubstringMatch c.Substring slice 0 c.Substring.length) := by
  refine ⟨Tls13Record_Assert_total Encrypt c hE hct hs0 hs1 hs2 hsub hv0 hv1 hv2, ?_, ?_,
    fun _ _ _ => rfl⟩
  · intro sub2 hlong
    unfold Tls13Record.Assert
    simp only [Circuit.bind_def]
    rw [Circuit.panics_andThen]
    right
    obtain ⟨u, ok, hg⟩ := (Circuit.panics_false_iff _).mp
      (GCM_total Encrypt c.Key c.Iv c.ChunkIndex c.PlainChunks c.CipherChunks hE hct)
    refine ⟨u, ok, hg, ?_⟩
    rw [goSlice_eq _ _ _ hs0 hs1 hs2, Circuit.andThen_some, Circuit.panics_andThen]
    left
    rw [SubstringMatch_panics]
    simp only [List.length_take, List.length_drop]
    omega
  · intro end2 h1 h2 h3
    rw [Tls13Record_Assert_canonical Encrypt c hs0 hs1 hs2 hsub,
      Tls13Record_Assert_canonical Encrypt { c with SubstringEnd := end2 } hs0 h1 h2 h3]
    rfl

theorem encryptBlock_length (key b : List Nat) (h : (AES128.expandKey key).length = 176) :
    (AES128.encryptBlock key b).length = 16 := by
  unfold AES128.encryptBlock AES128.addRoundKey
  simp [AES128.shiftRows, h]

/-- C30, on the record scenario with AES-128. -/
theorem Tls13Record_Assert_index_safe_witness :
    (Tls13Record.Assert AES128.Encrypt (EvaluateRecord.assignment 38003)).panics = false :=
  (Tls13Record_Assert_index_safe AES128.Encrypt (EvaluateRecord.assignment 38003)
    (fun b => ⟨_, _, rfl, encryptBlock_length _ b
      (standard_ExpandKey EvaluateRecord.key (by decide) (by decide)).2.1⟩)
    (by decide) (by decide) (by decide) (by decide) (by decide) (by decide) (by decide)
    (by decide)).1

/-! ## Bit vectors: bitwise operations -/

theorem api_And_bits (x y : Nat) (hx : x ≤ 1) (hy : y ≤ 1) :
    api.And x y = some (x &&& y, true) := by
  have hx2 : x = 0 ∨ x = 1 := by omega
  have hy2 : y = 0 ∨ y = 1 := by omega
  rcases hx2 with rfl | rfl <;> rcases hy2 with rfl | rfl <;> decide

theorem api_Xor_bits_xor (x y : Nat) (hx : x ≤ 1) (hy : y ≤ 1) :
    api.Xor x y = some (x ^^^ y, true) := by
  have hx2 : x = 0 ∨ x = 1 := by omega
  have hy2 : y = 0 ∨ y = 1 := by omega
  rcases hx2 with rfl | rfl <;> rcases hy2 with rfl | rfl <;> decide

theorem bit_ops_le (x y : Nat) (hx : x ≤ 1) (hy : y ≤ 1) :
    x ^^^ y ≤ 1 ∧ x &&& y ≤ 1 := by
  have hx2 : x = 0 ∨ x = 1 := by omega
  have hy2 : y = 0 ∨ y = 1 := by omega
  rcases hx2 with rfl | rfl <;> rcases hy2 with rfl | rfl <;> decide

theorem IsBits_getD (l : List Nat) (i : Nat) (h : IsBits l) : l.getD i 0 ≤ 1 := by
  rw [List.getD_eq_getElem?_getD]
  cases hi : l[i]? with
  | none => simp
  | some v =>
    obtain ⟨hlt, rfl⟩ := List.getElem?_eq_some_iff.mp hi
    simpa using h _ (List.getElem_mem hlt)

theorem foldXor_eq (ins : List (List Nat)) (n i : Nat) (hi : i < n)
    (hins : ∀ v ∈ ins, v.length = n ∧ IsBits v) :
    ∀ r : Nat, r ≤ 1 →
      Circuit.foldList ins r (fun r v => goIndex v i >>= fun x => api.Xor r x) =
        some (ins.foldl (fun r v => r ^^^ v.getD i 0) r, true) ∧
      ins.foldl (fun r v => r ^^^ v.getD i 0) r ≤ 1 := by
  induction ins with
  | nil => intro r hr; exact ⟨rfl, hr⟩
  | cons v rest ih =>
    intro r hr
    obtain ⟨hl, hb⟩ := hins v (by simp)
    have hx := IsBits_getD v i hb
    have h := ih (fun w hw => hins w (by simp [hw])) (r ^^^ v.getD i 0) (bit_ops_le r _ hr hx).1
    rw [Circuit.foldList_cons, Circuit.bind_def, goIndex_eq_getD v i (by omega),
      Circuit.andThen_some, api_Xor_bits_xor r _ hr hx, Circuit.andThen_some]
    exact h

theorem foldAnd_eq (ins : List (List Nat)) (n i : Nat) (hi : i < n)
    (hins : ∀ v ∈ ins, v.length = n ∧ IsBits v) :
    ∀ r : Nat, r ≤ 1 →
      Circuit.foldList ins r (fun r v => goIndex v i >>= fun x => api.And r x) =
        some (ins.foldl (fun r v => r &&& v.getD i 0) r, true) ∧
      ins.foldl (fun r v => r &&& v.getD i 0) r ≤ 1 := by
  induction ins with
  | nil => intro r hr; exact ⟨rfl, hr⟩
  | cons v rest ih =>
    intro r hr
    obtain ⟨hl, hb⟩ := hins v (by simp)
    have hx := IsBits_getD v i hb
    have h := ih (fun w hw => hins w (by simp [hw])) (r &&& v.getD i 0) (bit_ops_le r _ hr hx).2
    rw [Circuit.foldList_cons, Circuit.bind_def, goIndex_eq_getD v i (by omega),
      Circuit.andThen_some, api_And_bits r _ hr hx, Circuit.andThen_some]
    exact h

theorem wideXor_eq (n : Nat) (ins : List (List Nat))
    (hins : ∀ v ∈ ins, v.length = n ∧ IsBits v) :
    wideXor n ins =
      some ((List.range n).map (fun i => ins.foldl (fun r v => r ^^^ v.getD i 0) 0), true) := by
  unfold wideXor
  apply Circuit.mapList_eq_of_forall
  intro i hi
  exact (foldXor_eq ins n i (List.mem_range.mp hi) hins 0 (by omega)).1

theorem wideAnd_eq (n : Nat) (ins : List (List Nat))
    (hins : ∀ v ∈ ins, v.length = n ∧ IsBits v) :
    wideAnd n ins =
      some ((List.range n).map (fun i => ins.foldl (fun r v => r &&& v.getD i 0) 1), true) := by
  unfold wideAnd
  apply Circuit.mapList_eq_of_forall
  intro i hi
  exact (foldAnd_eq ins n i (List.mem_range.mp hi) hins 1 (by omega)).1

theorem wideNot_eq (n : Nat) (a : List Nat) (ha : a.length = n) (hab : IsBits a) :
    wideNot n a = some ((List.range n).map (fun i => 1 - a.getD i 0), true) := by
  unfold wideNot
  apply Circuit.mapList_eq_of_forall
  intro i hi
  have hi2 : i < n := List.mem_range.mp hi
  have hx := IsBits_getD a i hab
  rw [Circuit.bind_def, goIndex_eq_getD a i (by omega), Circuit.andThen_some,
    api_Xor_bits_xor _ 1 hx (by omega)]
  have hx2 : a.getD i 0 = 0 ∨ a.getD i 0 = 1 := by omega
  rcases hx2 with h | h <;> rw [h] <;> rfl

theorem list_eq_map_getD (a : List Nat) (n : Nat) (ha : a.length = n) :
    (List.range n).map (fun i => a.getD i 0) = a := by
  apply List.ext_getElem
  · simp [ha]
  · intro i h1 h2
    simp [List.getD_eq_getElem?_getD, List.getElem?_eq_getElem h2]

theorem wideNot_involutive (n : Nat) (a : List Nat) (ha : a.length = n) (hab : IsBits a) :
    Circuit.andThen (wideNot n a) (wideNot n) = some (a, true) := by
  have hlen : ((List.range n).map (fun i => 1 - a.getD i 0)).length = n := by simp
  have hbits : IsBits ((List.range n).map (fun i => 1 - a.getD i 0)) := by
    intro x hx
    obtain ⟨i, _, rfl⟩ := List.mem_map.mp hx
    omega
  rw [wideNot_eq n a ha hab, Circuit.andThen_some, wideNot_eq n _ hlen hbits]
  have e : (List.range n).map (fun i => 1 - ((List.range n).map
      (fun i => 1 - a.getD i 0)).getD i 0) = (List.range n).map (fun i => a.getD i 0) := by
    apply List.map_congr_left
    intro i hi
    have hi2 : i < n := List.mem_range.mp hi
    rw [getD_map_range _ n i hi2]
    have := IsBits_getD a i hab
    omega
  rw [e, list_eq_map_getD a n ha]

/-- C21: for bit vectors of the width `n` of the arrays (8 for `uint8api`, 64 for
`uint64api`, whose methods are the shared bodies at these widths): `xor(a, b)`,
`and(a, b)` and `not(a)` return position by position `a[i] XOR b[i]`,
`a[i] AND b[i]` and `1 - a[i]` with all constraints satisfied; the variadic
`xor`, `and` return the position-wise XOR, AND of all their arguments, all-zero
and all-one for no argument; and `not(not(a)) = a`. -/
theorem wide_bitwise (n : Nat) (a b : List Nat) (ins : List (List Nat)) (ha : a.length = n)
    (hab : IsBits a) (hb : b.length = n) (hbb : IsBits b)
    (hins : ∀ v ∈ ins, v.length = n ∧ IsBits v) :
    wideXor n [a, b] = some ((List.range n).map (fun i => a.getD i 0 ^^^ b.getD i 0), true) ∧
    wideAnd n [a, b] = some ((List.range n).map (fun i => a.getD i 0 &&& b.getD i 0), true) ∧
    wideNot n a = some ((List.range n).map (fun i => 1 - a.getD i 0), true) ∧
    wideXor n ins =
      some ((List.range n).map (fun i => ins.foldl (fun r v => r ^^^ v.getD i 0) 0), true) ∧
    wideAnd n ins =
      some ((List.range n).map (fun i => ins.foldl (fun r v => r &&& v.getD i 0) 1), true) ∧
    wideXor n [] = some (List.replicate n 0, true) ∧
    wideAnd n [] = some (List.replicate n 1, true) ∧
    Circuit.andThen (wideNot n a) (wideNot n) = some (a, true) ∧
    (uint8api.xor = wideXor 8 ∧ uint8api.and = wideAnd 8 ∧ uint8api.not = wideNot 8) ∧
    (uint64api.xor = wideXor 64 ∧ uint64api.and = wideAnd 64 ∧ uint64api.not = wideNot 64) := by
  have hab2 : ∀ v ∈ [a, b], v.length = n ∧ IsBits v := by
    intro v hv
    simp only [List.mem_cons, List.mem_singleton, List.not_mem_nil, or_false] at hv
    rcases hv with rfl | rfl
    · exact ⟨ha, hab⟩
    · exact ⟨hb, hbb⟩
  have hrep : ∀ c : Nat, (List.range n).map (fun _ => c) = List.replicate n c := by
    intro c
    apply List.ext_getElem
    · simp
    · intro i h1 h2
      simp
  refine ⟨?_, ?_, wideNot_eq n a ha hab, wideXor_eq n ins hins, wideAnd_eq n ins hins, ?_, ?_,
    wideNot_involutive n a ha hab, ⟨rfl, rfl, rfl⟩, ⟨rfl, rfl, rfl⟩⟩
  · rw [wideXor_eq n [a, b] hab2]
    simp only [List.foldl_cons, List.foldl_nil, Nat.zero_xor]
  · rw [wideAnd_eq n [a, b] hab2]
    have e : (List.range n).map (fun i => [a, b].foldl (fun r v => r &&& v.getD i 0) 1) =
        (List.range n).map (fun i => a.getD i 0 &&& b.getD i 0) := by
      apply List.map_congr_left
      intro i _
      simp only [List.foldl_cons, List.foldl_nil]
      have h1 := IsBits_getD a i hab
      have h2 : a.getD i 0 = 0 ∨ a.getD i 0 = 1 := by omega
      rcases h2 with h | h <;> rw [h] <;> rfl
    rw [e]
  · rw [wideXor_eq n [] (by simp)]
    simp only [List.foldl_nil]
    rw [hrep]
  · rw [wideAnd_eq n [] (by simp)]
    simp only [List.foldl_nil]
    rw [hrep]

/-- C21, on the bytes `0x35` and `0xc3` at width 8. -/
theorem wide_bitwise_witness :
    uint8api.xor [constUint8 0x35, constUint8 0xc3] = some (constUint8 (0x35 ^^^ 0xc3), true) ∧
    uint8api.and [constUint8 0x35, constUint8 0xc3] = some (constUint8 (0x35 &&& 0xc3), true) ∧
    uint8api.not (constUint8 0x35) = some (constUint8 (0xff - 0x35), true) := by
  have h := wide_bitwise 8 (constUint8 0x35) (constUint8 0xc3) [] (by decide) (by decide)
    (by decide) (by decide) (by simp)
  exact ⟨h.1, h.2.1, h.2.2.1⟩

/-! ## Bit vectors: rotations, shifts and values -/

theorem goIndexInt_nat (s : List Nat) (i : Int) (n : Nat) (h : i = (n : Int))
    (hn : n < s.length) : goIndexInt s i = some (s.getD n 0, true) := by
  subst h
  unfold goIndexInt
  rw [if_pos (Int.natCast_nonneg n), Int.toNat_natCast, goIndex_eq_getD s n hn]

theorem goAssign_nat (r : List Nat) (i : Int) (n : Nat) (v : Nat) (h : i = (n : Int))
    (hn : n < r.length) : goAssign r i v = some (r.set n v, true) := by
  subst h
  unfold goAssign
  rw [if_pos ⟨Int.natCast_nonneg n, by exact_mod_cast hn⟩, Int.toNat_natCast]
  rfl

theorem goFor_eq (lo hi : Int) (a m : Nat) (h1 : lo = (a : Int))
    (h2 : hi = ((a + m : Nat) : Int)) :
    goFor lo hi = (List.range m).map (fun k => ((a + k : Nat) : Int)) := by
  subst h1 h2
  unfold goFor
  have e : (((a + m : Nat) : Int) - (a : Int)).toNat = m := by
    push_cast
    simp
  rw [e]
  apply List.map_congr_left
  intro k _
  push_cast
  rfl

theorem take_set_succ (l : List Nat) (a v : Nat) (h : a < l.length) :
    (l.set a v).take (a + 1) = l.take a ++ [v] := by
  induction l generalizing a with
  | nil => simp at h
  | cons x xs ih =>
    cases a with
    | zero => simp
    | succ a =>
      simp only [List.length_cons] at h
      simp only [List.set_cons_succ, List.take_succ_cons, List.cons_append]
      rw [ih a (by omega)]

theorem drop_set_succ (l : List Nat) (a b v : Nat) (h : a < b) :
    (l.set a v).drop b = l.drop b := by
  induction l generalizing a b with
  | nil => simp
  | cons x xs ih =>
    cases b with
    | zero => omega
    | succ b =>
      cases a with
      | zero => simp
      | succ a =>
        simp only [List.set_cons_succ, List.drop_succ_cons]
        exact ih a b (by omega)

theorem foldAssign_eq (F : List Nat → Int → Circuit (List Nat)) (g : Nat → Nat) (m : Nat) :
    ∀ (a : Nat) (res : List Nat), a + m ≤ res.length →
      (∀ (r : List Nat) (k : Nat), k < m → r.length = res.length →
        F r ((a + k : Nat) : Int) = some (r.set (a + k) (g (a + k)), true)) →
      Circuit.foldList ((List.range m).map (fun k => ((a + k : Nat) : Int))) res F =
        some (res.take a ++ (List.range m).map (fun k => g (a + k)) ++ res.drop (a + m),
          true) := by
  induction m with
  | zero =>
    intro a res _ _
    simp [Circuit.foldList_nil]
  | succ m ih =>
    intro a res hlen hF
    have h0 := hF res 0 (by omega) rfl
    rw [List.range_succ_eq_map, List.map_cons, List.map_map, Circuit.foldList_cons, h0,
      Circuit.andThen_some]
    have hfun : ((fun k => ((a + k : Nat) : Int)) ∘ Nat.succ) =
        (fun k => ((a + 1 + k : Nat) : Int)) := by
      funext k
      simp only [Function.comp, Nat.succ_eq_add_one]
      congr 1
      omega
    rw [hfun]
    have hl : (res.set (a + 0) (g (a + 0))).length = res.length := List.length_set _ _ _
    have h := ih (a + 1) (res.set (a + 0) (g (a + 0))) (by rw [hl]; omega) (by
      intro r k hk hr
      have := hF r (k + 1) (by omega) (by rw [hr, hl])
      have e : a + (k + 1) = a + 1 + k := by omega
      rw [e] at this
      exact this)
    rw [h]
    simp only [Nat.add_zero]
    rw [take_set_succ res a (g a) (by omega), drop_set_succ res a (a + 1 + m) (g a) (by omega)]
    have e2 : (List.range m).map (fun k => g (a + 1 + k)) =
        ((List.range m).map Nat.succ).map (fun k => g (a + k)) := by
      rw [List.map_map]
      apply List.map_congr_left
      intro k _
      simp only [Function.comp, Nat.succ_eq_add_one]
      congr 1
      omega
    have e3 : a + 1 + m = a + (m + 1) := by omega
    rw [e2, e3]
    simp [List.append_assoc]

theorem rshift_eq (inp : List Nat) (s : Nat) (hl : inp.length = 64) (hs : s ≤ 64) :
    uint64api.rshift inp (s : Int) = some (inp.drop s ++ List.replicate s 0, true) := by
  unfold uint64api.rshift
  simp only [Circuit.bind_def]
  rw [goFor_eq 0 (64 - (s : Int)) 0 (64 - s) rfl (by omega),
    goFor_eq (64 - (s : Int)) 64 (64 - s) s (by omega) (by omega),
    foldAssign_eq _ (fun j => inp.getD (j + s) 0) (64 - s) 0 (List.replicate 64 0)
      (by simp) (by
        intro r k hk hr
        simp only [List.length_replicate] at hr
        rw [goIndexInt_nat inp _ (0 + k + s) (by push_cast; ring) (by omega),
          Circuit.andThen_some, goAssign_nat r _ (0 + k) _ rfl (by omega)]),
    Circuit.andThen_some]
  rw [foldAssign_eq _ (fun _ => 0) s (64 - s) _ (by simp; omega) (by
        intro r k hk hr
        simp only [List.length_append, List.length_take, List.length_map, List.length_range,
          List.length_drop, List.length_replicate] at hr
        rw [goAssign_nat r _ (64 - s + k) _ rfl (by omega)])]
  have e : (List.range (64 - s)).map (fun k => inp.getD (0 + k + s) 0) = inp.drop s := by
    have h := slice_getD inp s (64 - s) (by omega)
    rw [List.take_of_length_le (by simp; omega)] at h
    rw [h]
    apply List.map_congr_left
    intro k _
    congr 1
    omega
  rw [e]
  have hd : (inp.drop s).length = 64 - s := by simp [hl]
  have e1 : (List.range s).map (fun _ => 0) = List.replicate s 0 := by
    apply List.ext_getElem
    · simp
    · intro i h1 h2
      simp
  simp only [List.take_zero, List.nil_append, Nat.zero_add, List.drop_replicate, e1]
  have hX : (inp.drop s ++ List.replicate (64 - (64 - s)) 0).length ≤ 64 - s + s := by
    rw [List.length_append, hd, List.length_replicate]
    omega
  rw [List.take_left' hd, List.drop_eq_nil_of_le hX, List.append_nil]

theorem lshift_eq (inp : List Nat) (s : Nat) (hl : inp.length = 64) (hs : s ≤ 64) :
    uint64api.lshift inp (s : Int) = some (List.replicate s 0 ++ inp.take (64 - s), true) := by
  unfold uint64api.lshift
  simp only [Circuit.bind_def]
  rw [goFor_eq 0 (s : Int) 0 s rfl (by simp),
    goFor_eq (s : Int) 64 s (64 - s) rfl (by omega),
    foldAssign_eq _ (fun _ => 0) s 0 (List.replicate 64 0) (by simp; omega) (by
        intro r k hk hr
        simp only [List.length_replicate] at hr
        rw [goAssign_nat r _ (0 + k) _ rfl (by omega)]),
    Circuit.andThen_some]
  rw [foldAssign_eq _ (fun j => inp.getD (j - s) 0) (64 - s) s _ (by simp) (by
        intro r k hk hr
        simp only [List.length_append, List.length_take, List.length_map, List.length_range,
          List.length_drop, List.length_replicate] at hr
        rw [goIndexInt_nat inp _ (s + k - s) (by push_cast; omega) (by omega),
          Circuit.andThen_some, goAssign_nat r _ (s + k) _ rfl (by omega)])]
  have e : (List.range (64 - s)).map (fun k => inp.getD (s + k - s) 0) = inp.take (64 - s) := by
    have h := slice_getD inp 0 (64 - s) (by omega)
    rw [List.drop_zero] at h
    rw [h]
    apply List.map_congr_left
    intro k _
    congr 1
    omega
  have e1 : (List.range s).map (fun _ => 0) = List.replicate s 0 := by
    apply List.ext_getElem
    · simp
    · intro i h1 h2
      simp
  rw [e]
  simp only [List.take_zero, List.nil_append, Nat.zero_add, List.drop_replicate, e1]
  have hX : (List.replicate s 0 ++ List.replicate (64 - s) 0).length ≤ s + (64 - s) := by
    rw [List.length_append, List.length_replicate, List.length_replicate]
  rw [List.take_left' (List.length_replicate s 0), List.drop_eq_nil_of_le hX,
    List.append_nil]

theorem wideLrot_eq (n : Nat) (inp : List Nat) (s : Nat) (hl : inp.length = n) (hs : s ≤ n) :
    wideLrot n inp (s : Int) = some (inp.rotate (n - s), true) ∧
    ∀ i, i < n → (inp.rotate (n - s)).getD i 0 = inp.getD ((i + n - s) % n) 0 := by
  have hget : ∀ i, i < n → (inp.rotate (n - s)).getD i 0 = inp.getD ((i + n - s) % n) 0 := by
    intro i hi
    have hn : 0 < n := by omega
    have h1 : i < (inp.rotate (n - s)).length := by rw [List.length_rotate]; omega
    have h2 : (i + n - s) % n < inp.length := by rw [hl]; exact Nat.mod_lt _ hn
    rw [List.getD_eq_getElem?_getD, List.getElem?_eq_getElem h1, List.getD_eq_getElem?_getD,
      List.getElem?_eq_getElem h2, List.getElem_rotate]
    simp only [Option.getD_some]
    congr 1
    rw [hl]
    congr 1
    omega
  refine ⟨?_, hget⟩
  unfold wideLrot
  have h := Circuit.mapList_eq_of_forall (List.range n)
    (fun i => goIndexInt inp (Int.tmod ((i : Int) - (s : Int) + (n : Int)) (n : Int)))
    (fun i => inp.getD ((i + n - s) % n) 0) (by
      intro i hi
      have hi2 : i < n := List.mem_range.mp hi
      have hn : 0 < n := by omega
      apply goIndexInt_nat
      · have e : (i : Int) - (s : Int) + (n : Int) = ((i + n - s : Nat) : Int) := by omega
        rw [e, ← Int.ofNat_tmod]
      · rw [hl]
        exact Nat.mod_lt _ hn)
  rw [h]
  congr 2
  apply List.ext_getElem
  · simp [hl]
  · intro i h1 h2
    have hi : i < n := by simpa using h1
    have := hget i hi
    rw [List.getD_eq_getElem?_getD, List.getElem?_eq_getElem h2] at this
    simp only [Option.getD_some] at this
    simp [this]

theorem packBits_append (a b : List Nat) :
    api.packBits (a ++ b) = api.packBits a + 2 ^ a.length * api.packBits b := by
  induction a with
  | nil => simp [api.packBits]
  | cons x xs ih =>
    rw [List.cons_append, api.packBits, ih, api.packBits, List.length_cons, pow_succ]
    ring

theorem packBits_replicate_zero (k : Nat) : api.packBits (List.replicate k 0) = 0 := by
  induction k with
  | zero => rfl
  | succ k ih => rw [List.replicate_succ, api.packBits, ih]

theorem packBits_lt (l : List Nat) (h : IsBits l) : api.packBits l < 2 ^ l.length := by
  induction l with
  | nil => simp [api.packBits]
  | cons x xs ih =>
    have hx := h x (by simp)
    have := ih (fun y hy => h y (by simp [hy]))
    rw [api.packBits, List.length_cons, pow_succ]
    omega

theorem packBits_take_drop (l : List Nat) (k : Nat) (hk : k ≤ l.length) (h : IsBits l) :
    api.packBits (l.take k) = api.packBits l % 2 ^ k ∧
    api.packBits (l.drop k) = api.packBits l / 2 ^ k := by
  have hlen : (l.take k).length = k := by simp [hk]
  have hlt : api.packBits (l.take k) < 2 ^ k := by
    have := packBits_lt (l.take k) (fun x hx => h x (List.mem_of_mem_take hx))
    rw [hlen] at this
    exact this
  have e : api.packBits l = api.packBits (l.take k) + 2 ^ k * api.packBits (l.drop k) := by
    have := packBits_append (l.take k) (l.drop k)
    rw [List.take_append_drop, hlen] at this
    exact this
  constructor
  · rw [e, Nat.add_mul_mod_self_left, Nat.mod_eq_of_lt hlt]
  · rw [e, Nat.add_mul_div_left _ _ (Nat.pow_pos (by decide)), Nat.div_eq_of_lt hlt,
      Nat.zero_add]

theorem rotate_value (n : Nat) (x : List Nat) (s : Nat) (hl : x.length = n) (hb : IsBits x)
    (hs : s ≤ n) :
    api.packBits (x.rotate (n - s)) =
      (api.packBits x * 2 ^ s) % 2 ^ n + api.packBits x / 2 ^ (n - s) := by
  have h := packBits_take_drop x (n - s) (by omega) hb
  have hd : (x.drop (n - s)).length = s := by simp [hl]; omega
  rw [List.rotate_eq_drop_append_take (by omega), packBits_append, hd, h.1, h.2]
  have e : 2 ^ n = 2 ^ s * 2 ^ (n - s) := by rw [← pow_add]; congr 1; omega
  rw [e, Nat.mul_comm (api.packBits x) (2 ^ s), Nat.mul_mod_mul_left]
  omega

theorem getD_replicate_zero (k i : Nat) : (List.replicate k 0).getD i 0 = 0 := by
  rw [List.getD_eq_getElem?_getD, List.getElem?_replicate]
  split <;> rfl

theorem getD_drop (l : List Nat) (s i : Nat) : (l.drop s).getD i 0 = l.getD (i + s) 0 := by
  rw [List.getD_eq_getElem?_getD, List.getD_eq_getElem?_getD, List.getElem?_drop,
    Nat.add_comm]

theorem getD_take (l : List Nat) (k i : Nat) (h : i < k) : (l.take k).getD i 0 = l.getD i 0 := by
  rw [List.getD_eq_getElem?_getD, List.getD_eq_getElem?_getD, List.getElem?_take_of_lt h]

theorem rshift_getD (x : List Nat) (s i : Nat) (hx : x.length = 64) :
    (x.drop s ++ List.replicate s 0).getD i 0 = if i < 64 - s then x.getD (i + s) 0 else 0 := by
  have hd : (x.drop s).length = 64 - s := by simp [hx]
  split
  · rw [getD_append_lt _ _ _ (by omega), getD_drop]
  · have e : i = (x.drop s).length + (i - (64 - s)) := by omega
    rw [e, getD_append_add, getD_replicate_zero]

theorem lshift_getD (x : List Nat) (s i : Nat) :
    (List.replicate s 0 ++ x.take (64 - s)).getD i 0 =
      if i < s then 0 else if i < 64 then x.getD (i - s) 0 else 0 := by
  have hr : (List.replicate s (0 : Nat)).length = s := by simp
  split
  · rw [getD_append_lt _ _ _ (by omega), getD_replicate_zero]
  · have e : i = (List.replicate s (0 : Nat)).length + (i - s) := by omega
    rw [e, getD_append_add, hr, Nat.add_sub_cancel_left]
    split
    · rw [getD_take _ _ _ (by omega)]
    · rw [List.getD_eq_getElem?_getD, List.getElem?_eq_none (by simp; omega)]
      rfl

/-- C22: for every 64-bit vector `x` (least significant bit first, value `v`) and
every shift `0 ≤ s ≤ 64`: `lrot(x, s)[i] = x[(i - s) mod 64]`, a permutation of the
entries with value `v` rotated left by `s`, the identity for `s = 0` and `s = 64`;
`rshift(x, s)[i]` is `x[i+s]` for `i < 64 - s` and 0 otherwise, with value
`floor(v / 2^s)`; `lshift(x, s)[i]` is 0 for `i < s` and `x[i-s]` otherwise, with
value `v * 2^s mod 2^64`; `uint8api.lrot` is the same at width 8 for `0 ≤ s ≤ 8`.
None of them emits a constraint. -/
theorem uint64_shifts (x : List Nat) (s : Nat) (hx : x.length = 64) (hb : IsBits x)
    (hs : s ≤ 64) :
    uint64api.lrot x (s : Int) = some (x.rotate (64 - s), true) ∧
    (∀ i, i < 64 → (x.rotate (64 - s)).getD i 0 = x.getD ((i + 64 - s) % 64) 0) ∧
    (x.rotate (64 - s)).Perm x ∧
    api.packBits (x.rotate (64 - s)) =
      (api.packBits x * 2 ^ s) % 2 ^ 64 + api.packBits x / 2 ^ (64 - s) ∧
    uint64api.lrot x 0 = some (x, true) ∧ uint64api.lrot x 64 = some (x, true) ∧
    uint64api.rshift x (s : Int) = some (x.drop s ++ List.replicate s 0, true) ∧
    (∀ i, i < 64 → (x.drop s ++ List.replicate s 0).getD i 0 =
      if i < 64 - s then x.getD (i + s) 0 else 0) ∧
    api.packBits (x.drop s ++ List.replicate s 0) = api.packBits x / 2 ^ s ∧
    uint64api.lshift x (s : Int) = some (List.replicate s 0 ++ x.take (64 - s), true) ∧
    (∀ i, i < 64 → (List.replicate s 0 ++ x.take (64 - s)).getD i 0 =
      if i < s then 0 else x.getD (i - s) 0) ∧
    api.packBits (List.replicate s 0 ++ x.take (64 - s)) = (api.packBits x * 2 ^ s) % 2 ^ 64 ∧
    (∀ (y : List Nat) (t : Nat), y.length = 8 → IsBits y → t ≤ 8 →
      uint8api.lrot y (t : Int) = some (y.rotate (8 - t), true) ∧
      (∀ i, i < 8 → (y.rotate (8 - t)).getD i 0 = y.getD ((i + 8 - t) % 8) 0) ∧
      api.packBits (y.rotate (8 - t)) =
        (api.packBits y * 2 ^ t) % 2 ^ 8 + api.packBits y / 2 ^ (8 - t)) := by
  have hrot := wideLrot_eq 64 x s hx hs
  have h0 := (wideLrot_eq 64 x 0 hx (by omega)).1
  have h64 := (wideLrot_eq 64 x 64 hx (by omega)).1
  have hx2 : x.rotate 64 = x := by rw [← hx, List.rotate_length]
  rw [Nat.sub_zero, hx2] at h0
  rw [Nat.sub_self, List.rotate_zero] at h64
  have htd := packBits_take_drop x
  refine ⟨hrot.1, hrot.2, List.rotate_perm x _, rotate_value 64 x s hx hb hs, h0, h64,
    rshift_eq x s hx hs, fun i _ => rshift_getD x s i hx, ?_, lshift_eq x s hx hs, ?_, ?_, ?_⟩
  · have hd : (x.drop s).length = 64 - s := by simp [hx]
    rw [packBits_append, packBits_replicate_zero, (htd s (by omega) hb).2]
    simp
  · intro i hi
    rw [lshift_getD, if_pos hi]
  · rw [packBits_append, packBits_replicate_zero, List.length_replicate,
      (htd (64 - s) (by omega) hb).1, Nat.zero_add]
    have e : 2 ^ 64 = 2 ^ s * 2 ^ (64 - s) := by rw [← pow_add]; congr 1; omega
    rw [e, Nat.mul_comm (api.packBits x) (2 ^ s), Nat.mul_mod_mul_left]
  · intro y t hy hyb ht
    have h := wideLrot_eq 8 y t hy ht
    exact ⟨h.1, h.2, rotate_value 8 y t hy hyb ht⟩

/-- C22, on the value `0xdeadbeef12345678` shifted right by 8. -/
theorem uint64_shifts_witness :
    uint64api.rshift (constUint64 0xdeadbeef12345678) 8 =
      some ((constUint64 0xdeadbeef12345678).drop 8 ++ List.replicate 8 0, true) ∧
    api.packBits ((constUint64 0xdeadbeef12345678).drop 8 ++ List.replicate 8 0) =
      api.packBits (constUint64 0xdeadbeef12345678) / 2 ^ 8 := by
  have h := uint64_shifts (constUint64 0xdeadbeef12345678) 8 (by decide) (by decide)
    (by decide)
  exact ⟨h.2.2.2.2.2.2.1, h.2.2.2.2.2.2.2.2.1⟩

/-! ## Bit vectors: bit order and conversions -/

theorem const_bits (n a : Nat) :
    (List.range n).map (fun i => (a >>> i) &&& 1) =
      (List.range n).map (fun i => a / 2 ^ i % 2) := by
  apply List.map_congr_left
  intro i _
  rw [Nat.shiftRight_eq_div_pow, Nat.and_one_is_mod]

theorem IsBits_bits (n a : Nat) : IsBits ((List.range n).map (fun i => a / 2 ^ i % 2)) := by
  intro x hx
  obtain ⟨i, _, rfl⟩ := List.mem_map.mp hx
  have : a / 2 ^ i % 2 < 2 := Nat.mod_lt _ (by decide)
  omega

/-- C23: bits are least significant first: for every `a` in `0..255`, entry `i` of
`constUint8(a)` is `(a >> i) & 1`, `fromUint8` (the sum of `bit_i * 2^i`) returns `a`
on it, and `asUint8(a)` is the same vector; `constUint64` and `fromUint64`
round-trip every 64-bit value; `toUint32` appends 24 zero entries and keeps the
value; `toxUnit8` keeps the 8 low entries, of value `v mod 256`. -/
theorem uint_bit_order :
    (∀ a, a < 2 ^ 8 →
      (∀ i, i < 8 → (constUint8 a).getD i 0 = a / 2 ^ i % 2) ∧
      uint8api.fromUint8 (constUint8 a) = a ∧
      uint8api.asUint8 a = some (constUint8 a, true)) ∧
    (∀ a, a < 2 ^ 64 →
      (∀ i, i < 64 → (constUint64 a).getD i 0 = a / 2 ^ i % 2) ∧
      uint64api.fromUint64 (constUint64 a) = a ∧
      uint64api.asUint64 a = some (constUint64 a, true)) ∧
    (∀ x : List Nat, x.length = 8 →
      xuint8.toUint32 x = some (x ++ List.replicate 24 0, true) ∧
      api.packBits (x ++ List.replicate 24 0) = api.packBits x) ∧
    (∀ x : List Nat, x.length = 64 → IsBits x →
      xuint64.toxUnit8 x = some (x.take 8, true) ∧
      api.packBits (x.take 8) = api.packBits x % 2 ^ 8) := by
  have hp := two_pow_lt_fieldModulus
  refine ⟨?_, ?_, ?_, ?_⟩
  · intro a ha
    have ha2 : a < 2 ^ 64 := lt_trans ha (by decide)
    refine ⟨?_, ?_, ?_⟩
    · intro i hi
      unfold constUint8
      rw [const_bits, getD_map_range _ 8 i hi]
    · unfold uint8api.fromUint8 bits.FromBinaryUnconstrained constUint8
      rw [const_bits, packBits_bits, Nat.mod_eq_of_lt ha, Nat.mod_eq_of_lt (by omega)]
    · unfold uint8api.asUint8 api.ToBinary constUint8
      rw [Circuit.bind_def, decide_eq_true ha, Circuit.andThen_some, const_bits,
        goCopy_of_length 8 _ (by simp)]
      rfl
  · intro a ha
    refine ⟨?_, ?_, ?_⟩
    · intro i hi
      unfold constUint64
      rw [const_bits, getD_map_range _ 64 i hi]
    · unfold uint64api.fromUint64 bits.FromBinaryUnconstrained constUint64
      rw [const_bits, packBits_bits, Nat.mod_eq_of_lt ha, Nat.mod_eq_of_lt (by omega)]
    · unfold uint64api.asUint64 api.ToBinary constUint64
      rw [Circuit.bind_def, decide_eq_true ha, Circuit.andThen_some, const_bits,
        goCopy_of_length 64 _ (by simp)]
      rfl
  · intro x hx
    constructor
    · unfold xuint8.toUint32
      rw [Circuit.bind_def, mapList_goIndex_all x 8 hx, Circuit.andThen_some]
      rfl
    · rw [packBits_append, packBits_replicate_zero, Nat.mul_zero, Nat.add_zero]
  · intro x hx hb
    constructor
    · unfold xuint64.toxUnit8
      have h := Circuit.mapList_eq_of_forall (List.range 8) (fun i => goIndex x i)
        (fun i => x.getD i 0) (by
          intro i hi
          have hi2 : i < 8 := List.mem_range.mp hi
          exact goIndex_eq_getD x i (by omega))
      rw [h]
      have e := slice_getD x 0 8 (by omega)
      rw [List.drop_zero] at e
      rw [e]
      simp
    · exact (packBits_take_drop x 8 (by omega) hb).1

/-- C23, on the byte `0xb5`. -/
theorem uint_bit_order_witness :
    uint8api.fromUint8 (constUint8 0xb5) = 0xb5 ∧
    uint8api.asUint8 0xb5 = some (constUint8 0xb5, true) := by
  have h := uint_bit_order.1 0xb5 (by decide)
  exact ⟨h.2.1, h.2.2⟩

end GnarkLib
